import Mathlib

/-!
Contribution ledger: bulk import, sequence counter and view projection

A shallow embedding of `src/pages/Contributions.js`, with the handlers of
`src/pages/UserManagement.js` that save and delete an authorized user and
the role lookup and permission flags of `src/context/AuthContext.js`.  The
React component
is modelled by explicit state passing: every handler takes the view state
of the render it was created in (its closure) and returns the view state
after it has run to completion together with the trace of remote calls it
attempted, in order.  Whether a remote call rejects is decided by an
oracle held in the environment.  The handlers `confirmAddRow` and
`handleFileUpload` are also modelled with the snapshots that are handled
while they are suspended at an `await` (`confirmAddRowDuring`,
`handleFileUploadDuring`); the definitions without snapshots are the case
in which none is handled in between.

Modelling boundaries:
* JavaScript numbers that occur here (`sno`, counters, counts) are integers
  and are modelled by `Int`; the model is exact below `2^53`.
* The numbers that `parseFloat` returns for sort keys are modelled as exact
  decimals and compared without double rounding.
* The additions of `totalAmount` are modelled on IEEE doubles, rounded to
  the nearest with ties to even; the exponent range is not bounded
  (no `Infinity`, no subnormal numbers, no negative zero).
* The function `doc` of the Firestore SDK is modelled by the path segments
  it resolves a key to (`docSegments`); limits of the server on document
  ids are left to the oracle.
* `toUpperCase` / `toLowerCase` are modelled on the ASCII letters.
* Objects are association lists in insertion order (the reordering of
  integer-like keys is not modelled).
* The oracle decides a remote call from the call alone; of several
  rejected commits of one `Promise.all` the first in list order is reported.
* `setTimeout(() => setSaveStatus(""), 2000)` is a timer and is not
  modelled: the state returned is the one right after the handler ends.
-/

namespace Manna

/-! ## JavaScript values and strings -/

/-- The JavaScript values that occur in rows and records. -/
inductive JSVal where
  | undefined
  | str (s : String)
  | num (n : Int)
  | serverTimestamp
  deriving DecidableEq, Repr, Inhabited

/-- The method `Number.prototype.toString` on an integer. -/
def numToString : Int → String
  | Int.ofNat m => Nat.repr m
  | Int.negSucc m => "-" ++ Nat.repr (m + 1)

/-- The abstract operation `ToString` of JavaScript. -/
def JSVal.toStr : JSVal → String
  | .undefined => "undefined"
  | .str s => s
  | .num n => numToString n
  | .serverTimestamp => "[object Object]"

/-- White space and line terminators skipped by `parseInt`. -/
def isJSWhitespace (c : Char) : Bool :=
  let n := c.toNat
  n = 9 || n = 10 || n = 11 || n = 12 || n = 13 || n = 32 || n = 0xA0 ||
  n = 0x1680 || (0x2000 ≤ n && n ≤ 0x200A) || n = 0x2028 || n = 0x2029 ||
  n = 0x202F || n = 0x205F || n = 0x3000 || n = 0xFEFF

/-- Value of a character as a digit in the given radix, if it is one. -/
def digitValue (radix : Nat) (c : Char) : Option Nat :=
  let n := c.toNat
  let v : Option Nat :=
    if 48 ≤ n ∧ n ≤ 57 then some (n - 48)
    else if 97 ≤ n ∧ n ≤ 122 then some (n - 87)
    else if 65 ≤ n ∧ n ≤ 90 then some (n - 55)
    else none
  match v with
  | some d => if d < radix then some d else none
  | none => none

/-- Reads the longest run of radix digits at the head of the input; `acc`
is `none` until a first digit has been read. -/
def parseDigits (radix : Nat) : List Char → Option Nat → Option Nat
  | [], acc => acc
  | c :: cs, acc =>
    match digitValue radix c with
    | none => acc
    | some d => parseDigits radix cs (some (acc.getD 0 * radix + d))

/-- Sign prefix of `parseInt`: whether the number is negative, and the rest. -/
def stripSign : List Char → Bool × List Char
  | '-' :: t => (true, t)
  | '+' :: t => (false, t)
  | s => (false, s)

/-- Radix prefix of `parseInt` called without a radix. -/
def stripRadix : List Char → Nat × List Char
  | '0' :: 'x' :: t => (16, t)
  | '0' :: 'X' :: t => (16, t)
  | s => (10, s)

/-- The function `parseInt(s)` on the characters of a string; `none` is `NaN`. -/
def parseIntChars (cs : List Char) : Option Int :=
  let s := stripSign (cs.dropWhile isJSWhitespace)
  let r := stripRadix s.2
  match parseDigits r.1 r.2 none with
  | none => none
  | some n => some (if s.1 then -(n : Int) else (n : Int))

/-- The function `parseInt(v)`: the argument is first converted to a string. -/
def parseInt (v : JSVal) : Option Int :=
  parseIntChars v.toStr.data

/-- The value of `parseInt(v) || alt`: `NaN` and `0` are falsy. -/
def parseIntOr (v : JSVal) (alt : Int) : Int :=
  match parseInt v with
  | some n => if n = 0 then alt else n
  | none => alt

/-! ## Objects -/

/-- A JavaScript object: its own properties in insertion order. -/
abbrev Obj := List (String × JSVal)

/-- Property read `o[k]` (or `o.k`); a missing property reads `undefined`. -/
def getProp (o : Obj) (k : String) : JSVal :=
  match o.lookup k with
  | some v => v
  | none => JSVal.undefined

/-- Property write `o[k] = v`: an existing property keeps its position. -/
def setProp : Obj → String → JSVal → Obj
  | [], k, v => [(k, v)]
  | (k', v') :: rest, k, v =>
    if k' = k then (k', v) :: rest else (k', v') :: setProp rest k v

/-- The function `Object.values(o)`. -/
def objectValues (o : Obj) : List JSVal := o.map Prod.snd

/-- Object spread `{...a, ...b}`: the properties of `b` written over `a`. -/
def spread (a b : Obj) : Obj :=
  b.foldl (fun acc kv => setProp acc kv.1 kv.2) a

/-- The signed-in user as far as this view reads it. -/
structure User where
  email : Option String
  displayName : Option String
  deriving DecidableEq, Repr

/-- The expression `user?.email || "unknown"`. -/
def actorEmail (user : Option User) : String :=
  match user with
  | some u =>
    match u.email with
    | some e => if e = "" then "unknown" else e
    | none => "unknown"
  | none => "unknown"

/-- The expression `user?.displayName || user?.email || "unknown"`. -/
def actorName (user : Option User) : String :=
  match user with
  | some u =>
    match u.displayName with
    | some d => if d = "" then actorEmail user else d
    | none => actorEmail user
  | none => "unknown"

/-! ## Remote calls -/

/-- One `set` queued on a write batch.  The document reference comes from
`doc(collection(...))`, which draws a fresh automatic id; `ref` is the
ordinal of that draw within the handler run. -/
structure WriteOp where
  ref : Nat
  data : Obj
  deriving DecidableEq, Repr

/-- The document passed to `addDoc(collection(db, "auditLog"), ...)`. -/
structure AuditEntry where
  action : String
  event : String
  data : Obj
  previousData : Option Obj
  userEmail : String
  userName : String
  deriving DecidableEq, Repr

/-- Reference of a contribution document: an automatic id drawn by
`doc(collection(...))`, or the id of a row held in the cache. -/
inductive DocRef where
  | auto (n : Nat)
  | id (s : String)
  deriving DecidableEq, Repr

/-- The calls this view makes to the remote store. -/
inductive RemoteCall where
  | commitBatch (path : String) (ops : List WriteOp)
  | setCounter (path : String) (lastSno : Int)
  | setContribution (path : String) (ref : DocRef) (data : Obj)
  | deleteContribution (path : String) (id : String)
  | addAudit (entry : AuditEntry)
  deriving DecidableEq, Repr

/-- What the handlers take from outside the component. -/
structure Env where
  /-- Value `user` of `useAuth()`. -/
  user : Option User
  /-- Value `canEdit` of `useAuth()`. -/
  canEdit : Bool
  /-- Value `canDelete` of `useAuth()`. -/
  canDelete : Bool
  /-- Oracle of the remote store: `some msg` when the call rejects with an
  error whose message is `msg`. -/
  rejects : RemoteCall → Option String
  /-- The date string built from `new Date()`. -/
  today : String

/-! ## View state -/

/-- An element of `rows`: `{ id: doc.id, data: doc.data() }`. -/
structure Row where
  id : String
  data : Obj
  deriving DecidableEq, Repr

/-- The object held in `sortConfig`. -/
structure SortConfig where
  key : String
  direction : String
  deriving DecidableEq, Repr

/-- The `useState` cells of the component. -/
structure ViewState where
  selectedEvent : String
  selectedYear : Nat
  rows : List Row
  lastSno : Int
  loading : Bool
  error : Option String
  saveStatus : String
  search : String
  sortConfig : SortConfig
  editingRow : Option Row
  showAddModal : Bool
  showDeleteModal : Bool
  deleteRow : Option Row
  newRowData : Obj
  deriving DecidableEq, Repr

/-- The field list `headers`. -/
def headers : List String := ["SNO", "DATE", "NAME", "PHONE", "AMOUNT"]

/-- The label `${selectedEvent}-${selectedYear}`. -/
def eventLabel (st : ViewState) : String :=
  st.selectedEvent ++ "-" ++ Nat.repr st.selectedYear

/-- Path built by `getCollectionPath`. -/
def getCollectionPath (st : ViewState) : String :=
  "events/" ++ eventLabel st ++ "/contributions"

/-- Path built by `getMetaPath`. -/
def getMetaPath (st : ViewState) : String :=
  "events/" ++ eventLabel st ++ "/meta/counter"

/-! ## Audit log and counter -/

/-- Handler `logAudit(action, data)`: one `addDoc` on the audit log; a
rejection is caught and only logged, so the caller never sees it. -/
def logAudit (env : Env) (st : ViewState) (action : String) (data : Obj) :
    List RemoteCall :=
  [RemoteCall.addAudit
    { action := action, event := eventLabel st, data := data,
      previousData := none, userEmail := actorEmail env.user,
      userName := actorName env.user }]

/-- Handler `updateCounter(newSno)`: the `setDoc` on the counter document
and, when it resolves, `setLastSno(newSno)`; a rejection is caught. -/
def updateCounter (env : Env) (st : ViewState) (newSno : Int) :
    ViewState × List RemoteCall :=
  let call := RemoteCall.setCounter (getMetaPath st) newSno
  match env.rejects call with
  | none => ({ st with lastSno := newSno }, [call])
  | some _ => (st, [call])

/-! ## Bulk import -/

/-- The constant `BATCH_SIZE`. -/
def BATCH_SIZE : Nat := 500

/-- The method `String.prototype.toUpperCase`. -/
def toUpperCase (s : String) : String := ⟨s.data.map Char.toUpper⟩

/-- The `forEach` over `Object.entries(row)` that fills `normalizedRow`. -/
def normalizeRow (row : Obj) : Obj :=
  row.foldl (fun acc kv => setProp acc (toUpperCase kv.1) kv.2) []

/-- The local variables of the import loop. -/
structure ImportLoop where
  maxSno : Int
  batches : List (List WriteOp)
  currentBatch : List WriteOp
  operationCount : Nat
  /-- Number of automatic document ids drawn so far. -/
  drawn : Nat
  deriving DecidableEq, Repr

/-- The value of `parseInt(normalizedRow.SNO) || ++maxSno` together with
`maxSno` after the expression: the increment runs only when the left
operand is falsy. -/
def assignSno (normalizedRow : Obj) (maxSno : Int) : Int × Int :=
  match parseInt (getProp normalizedRow "SNO") with
  | some n => if n = 0 then (maxSno + 1, maxSno + 1) else (n, maxSno)
  | none => (maxSno + 1, maxSno + 1)

/-- The record handed to `currentBatch.set` for one parsed row. -/
def importRecord (env : Env) (row : Obj) (sno : Int) : Obj :=
  let normalizedRow := normalizeRow row
  let normalizedRow := setProp normalizedRow "SNO" (JSVal.str (numToString sno))
  let normalizedRow := setProp normalizedRow "sno" (JSVal.num sno)
  spread normalizedRow
    [("uploadedAt", JSVal.serverTimestamp),
     ("uploadedBy", JSVal.str (actorEmail env.user))]

/-- One iteration of `for (const row of json)`. -/
def importStep (env : Env) (s : ImportLoop) (row : Obj) : ImportLoop :=
  let a := assignSno (normalizeRow row) s.maxSno
  let op : WriteOp := { ref := s.drawn, data := importRecord env row a.1 }
  let currentBatch := s.currentBatch ++ [op]
  let operationCount := s.operationCount + 1
  if operationCount ≥ BATCH_SIZE then
    { maxSno := a.2, batches := s.batches ++ [currentBatch],
      currentBatch := [], operationCount := 0, drawn := s.drawn + 1 }
  else
    { maxSno := a.2, batches := s.batches, currentBatch := currentBatch,
      operationCount := operationCount, drawn := s.drawn + 1 }

/-- The loop state before the first row. -/
def importInit (lastSno : Int) : ImportLoop :=
  { maxSno := lastSno, batches := [], currentBatch := [],
    operationCount := 0, drawn := 0 }

/-- The whole `for` loop over the parsed rows. -/
def importLoop (env : Env) (lastSno : Int) (json : List Obj) : ImportLoop :=
  json.foldl (importStep env) (importInit lastSno)

/-- The list `batches` after the loop and the push of the last batch
"if it has operations". -/
def importBatches (env : Env) (lastSno : Int) (json : List Obj) :
    List (List WriteOp) :=
  let s := importLoop env lastSno json
  if s.operationCount > 0 then s.batches ++ [s.currentBatch] else s.batches

/-- What the file input delivers to the `onload` callback. -/
inductive Upload where
  /-- No file selected: `e.target.files[0]` is undefined. -/
  | noFile
  /-- Either `XLSX.read` or `sheet_to_json` throws an error with this message. -/
  | unreadable (message : String)
  /-- The rows returned by `sheet_to_json`. -/
  | sheet (json : List Obj)
  deriving DecidableEq, Repr

/-- The first rejection message among the commits, as `Promise.all` throws it. -/
def firstRejection (env : Env) (calls : List RemoteCall) : Option String :=
  calls.findSome? env.rejects

/-- Handler `handleFileUpload` with its `reader.onload` callback, when no
snapshot is handled while it is suspended at its awaits;
`handleFileUploadDuring` below is the handler with such snapshots. -/
def handleFileUpload (env : Env) (st : ViewState) (file : Upload) :
    ViewState × List RemoteCall :=
  if !env.canEdit then
    ({ st with error := some "You don't have permission to upload files" }, [])
  else
    match file with
    | Upload.noFile => (st, [])
    | Upload.unreadable msg =>
      ({ st with error := some ("File upload failed: " ++ msg),
                 saveStatus := "error" }, [])
    | Upload.sheet json =>
      let st1 := { st with saveStatus := "saving" }
      if json.length = 0 then (st1, [])
      else
        let batches := importBatches env st.lastSno json
        let maxSno := (importLoop env st.lastSno json).maxSno
        let commits := batches.map (RemoteCall.commitBatch (getCollectionPath st))
        match firstRejection env commits with
        | some msg =>
          ({ st1 with error := some ("File upload failed: " ++ msg),
                      saveStatus := "error" }, commits)
        | none =>
          let c := updateCounter env st1 maxSno
          let audit := logAudit env st "bulk_upload"
            [("count", JSVal.num (json.length : Nat))]
          ({ c.1 with saveStatus := "saved" }, commits ++ c.2 ++ audit)

/-- The calls of a trace that commit a write batch, as their operations. -/
def committedBatches : List RemoteCall → List (List WriteOp)
  | [] => []
  | RemoteCall.commitBatch _ ops :: rest => ops :: committedBatches rest
  | _ :: rest => committedBatches rest

/-- The values a trace passes to the counter document. -/
def counterWrites : List RemoteCall → List Int
  | [] => []
  | RemoteCall.setCounter _ n :: rest => n :: counterWrites rest
  | _ :: rest => counterWrites rest

/-- The audit entries a trace sends to the audit log. -/
def auditWrites : List RemoteCall → List AuditEntry
  | [] => []
  | RemoteCall.addAudit e :: rest => e :: auditWrites rest
  | _ :: rest => auditWrites rest

/-- The contribution documents a trace writes one at a time with `setDoc`. -/
def contributionWrites : List RemoteCall → List Obj
  | [] => []
  | RemoteCall.setContribution _ _ d :: rest => d :: contributionWrites rest
  | _ :: rest => contributionWrites rest

/-! ## Manual add and edit -/

/-- Handler `saveContribution(contributionId, data, isNew)`. -/
def saveContribution (env : Env) (st : ViewState) (ref : DocRef) (data : Obj)
    (isNew : Bool) : ViewState × List RemoteCall :=
  let call := RemoteCall.setContribution (getCollectionPath st) ref
    (spread data [("updatedAt", JSVal.serverTimestamp),
                  ("updatedBy", JSVal.str (actorEmail env.user))])
  match env.rejects call with
  | some msg =>
    ({ st with saveStatus := "error", error := some ("Save failed: " ++ msg) },
     [call])
  | none =>
    ({ st with saveStatus := "saved" },
     call :: logAudit env st (if isNew then "add" else "edit") data)

/-- Handler `openAddModal`. -/
def openAddModal (env : Env) (st : ViewState) : ViewState × List RemoteCall :=
  if !env.canEdit then
    ({ st with error := some "You don't have permission to add contributions" },
     [])
  else
    let emptyData : Obj := headers.foldl (fun acc h => setProp acc h (JSVal.str "")) []
    let emptyData := setProp emptyData "SNO" (JSVal.str (numToString (st.lastSno + 1)))
    let emptyData := setProp emptyData "DATE" (JSVal.str env.today)
    ({ st with newRowData := emptyData, showAddModal := true }, [])

/-- The `onChange` of an input of the add modal:
`setNewRowData({ ...newRowData, [h]: e.target.value })`. -/
def changeNewRow (st : ViewState) (h value : String) : ViewState :=
  { st with newRowData := setProp st.newRowData h (JSVal.str value) }

/-- The record `confirmAddRow` hands to `saveContribution`. -/
def addRecord (env : Env) (st : ViewState) : Obj :=
  spread st.newRowData
    [("sno", JSVal.num (parseIntOr (getProp st.newRowData "SNO") (st.lastSno + 1))),
     ("addedAt", JSVal.serverTimestamp),
     ("addedBy", JSVal.str (actorEmail env.user))]

/-- Handler `confirmAddRow`, when no snapshot is handled while it is
suspended at its awaits; `confirmAddRowDuring` below is the handler with
such snapshots. -/
def confirmAddRow (env : Env) (st : ViewState) : ViewState × List RemoteCall :=
  let newSno := parseIntOr (getProp st.newRowData "SNO") (st.lastSno + 1)
  let s := saveContribution env st (DocRef.auto 0) (addRecord env st) true
  let c := updateCounter env s.1 (max newSno st.lastSno)
  ({ c.1 with showAddModal := false, newRowData := [] }, s.2 ++ c.2)

/-- The object `updatedData` of `saveEdit`: the row's data with every
header whose form input is mounted overwritten by the input's value. -/
def editedData (row : Row) (form : String → Option String) : Obj :=
  headers.foldl
    (fun acc h =>
      match form h with
      | some v => setProp acc h (JSVal.str v)
      | none => acc)
    row.data

/-- Handler `saveEdit`; `form h` is the value of the input mounted for
header `h` (`formRefs.current[h].value`), if there is one.  Without an
`editingRow` the handler throws before it does anything. -/
def saveEdit (env : Env) (st : ViewState) (form : String → Option String) :
    ViewState × List RemoteCall :=
  match st.editingRow with
  | none => (st, [])
  | some row =>
    let s := saveContribution env st (DocRef.id row.id) (editedData row form) false
    ({ s.1 with editingRow := none }, s.2)

/-! ## Live snapshot -/

/-- The call `Math.max(...xs)` on a non-empty list (the only way it is made). -/
def mathMax : List Int → Int
  | [] => 0
  | x :: xs => xs.foldl max x

/-- The success callback of `onSnapshot`. -/
def onSnapshot (st : ViewState) (data : List Row) : ViewState :=
  let st1 := { st with rows := data, loading := false }
  if data.length > 0 then
    { st1 with lastSno := mathMax (data.map (fun r => parseIntOr (getProp r.data "SNO") 0)) }
  else st1

/-! ## Search -/

/-- The method `String.prototype.toLowerCase`. -/
def toLowerCase (s : String) : String := ⟨s.data.map Char.toLower⟩

/-- How `Array.prototype.join` renders one element: `undefined` is empty. -/
def joinElem : JSVal → String
  | JSVal.undefined => ""
  | v => v.toStr

/-- The call `xs.join(" ")`. -/
def joinSpace (xs : List JSVal) : String :=
  ⟨List.intercalate [' '] (xs.map (fun v => (joinElem v).data))⟩

/-- The call `s.includes(t)`. -/
def includes (s t : String) : Bool := decide (t.data <:+: s.data)

/-- The predicate of the `filter` in `filteredRows`. -/
def matchesSearch (search : String) (row : Row) : Bool :=
  includes (toLowerCase (joinSpace (objectValues row.data))) (toLowerCase search)

/-- The memo `filteredRows`. -/
def filteredRows (rows : List Row) (search : String) : List Row :=
  if search = "" then rows else rows.filter (matchesSearch search)

/-! ## Sort and total

The numbers that `parseFloat` returns here are finite decimals; for the
comparisons of the sort they are modelled exactly, as a mantissa and a
power of ten, without the rounding of IEEE doubles.  The additions of the
total are modelled on IEEE doubles (`Double` below).  Strings are compared
by code point. -/

/-- A finite decimal number, `mantissa / 10 ^ scale`. -/
structure Decimal where
  mantissa : Int
  scale : Nat
  deriving DecidableEq, Repr

/-- The rational number a decimal stands for. -/
def Decimal.toRat (d : Decimal) : ℚ := (d.mantissa : ℚ) / (10 : ℚ) ^ d.scale

/-- The number `0`. -/
def Decimal.zero : Decimal := { mantissa := 0, scale := 0 }

/-- The comparison `a < b` of two numbers. -/
def Decimal.lt (a b : Decimal) : Bool :=
  decide (a.mantissa * ((10 ^ b.scale : Nat) : Int) < b.mantissa * ((10 ^ a.scale : Nat) : Int))

/-- A finite IEEE 754 double, `mantissa * 2 ^ exponent`: either zero, held
as mantissa `0` and exponent `0`, or a number with 53 significant bits,
`2 ^ 52 ≤ |mantissa| < 2 ^ 53`.  The range of the exponent is not bounded:
overflow to `Infinity`, subnormal numbers and the sign of zero are not
modelled. -/
structure Double where
  mantissa : Int
  exponent : Int
  deriving DecidableEq, Repr

/-- The double `0`. -/
def Double.zero : Double := { mantissa := 0, exponent := 0 }

/-- The rational number a double stands for. -/
def Double.toRat (x : Double) : ℚ := (x.mantissa : ℚ) * (2 : ℚ) ^ x.exponent

/-- The position of the leading bit of `n`, by halving at most `fuel` times. -/
def floorLog2Aux : Nat → Nat → Nat
  | 0, _ => 0
  | fuel + 1, n => if n < 2 then 0 else floorLog2Aux fuel (n / 2) + 1

/-- The position of the leading bit of `n`: the `k` with
`2 ^ k ≤ n < 2 ^ (k + 1)`, and `0` for `n = 0`. -/
def floorLog2 (n : Nat) : Nat := floorLog2Aux n n

/-- The double nearest to the rational `n / d`, ties to the even mantissa
(the rounding of IEEE 754 that `parseFloat` and `+` apply).  The exponent
`e` is chosen so that `|n| / (d * 2 ^ e)` lies in `[2 ^ 52, 2 ^ 53)`; its
integer part `q` is the mantissa, rounded up when the remainder is more
than half, or is half and `q` is odd. -/
def roundToDouble (n : Int) (d : Nat) : Double :=
  if n = 0 ∨ d = 0 then Double.zero
  else
    let a := n.natAbs
    let shift := 53 + floorLog2 d - floorLog2 a
    let e : Int := (floorLog2 (a * 2 ^ shift / d) : Int) - (shift : Int) - 52
    let num := a * 2 ^ (-e).toNat
    let den := d * 2 ^ e.toNat
    let q := num / den
    let r := num % den
    let q1 := if den < 2 * r ∨ (2 * r = den ∧ q % 2 = 1) then q + 1 else q
    let m : Nat := if q1 = 2 ^ 53 then 2 ^ 52 else q1
    let e1 : Int := if q1 = 2 ^ 53 then e + 1 else e
    { mantissa := if n < 0 then -(m : Int) else (m : Int), exponent := e1 }

/-- The sum `a + b` of two doubles: the exact sum, a multiple of
`2 ^ min(a.exponent, b.exponent)`, rounded to the nearest double. -/
def Double.add (a b : Double) : Double :=
  let e := min a.exponent b.exponent
  let m := a.mantissa * ((2 ^ (a.exponent - e).toNat : Nat) : Int)
    + b.mantissa * ((2 ^ (b.exponent - e).toNat : Nat) : Int)
  roundToDouble (m * ((2 ^ e.toNat : Nat) : Int)) (2 ^ (-e).toNat)

/-- The double that `parseFloat` returns for a decimal numeral: the one
nearest to its value. -/
def Decimal.toDouble (d : Decimal) : Double := roundToDouble d.mantissa (10 ^ d.scale)

/-- Whether a value is falsy: `undefined`, the empty string and `0` are. -/
def isFalsy : JSVal → Bool
  | JSVal.undefined => true
  | JSVal.str s => decide (s = "")
  | JSVal.num n => decide (n = 0)
  | JSVal.serverTimestamp => false

/-- The expression `v || alt`. -/
def jsOr (v alt : JSVal) : JSVal := if isFalsy v then alt else v

/-- The replace `s.replace(/[^0-9.-]/g, "")`: only digits, dots and minus
signs are kept. -/
def stripNonNumeric (cs : List Char) : List Char :=
  cs.filter (fun c => (48 ≤ c.toNat && c.toNat ≤ 57) || c == '.' || c == '-')

/-- Reads the run of decimal digits at the head of the input after the
value `acc`; returns the value, the number of digits read and the rest. -/
def readDigits : List Char → Nat → Nat → Nat × Nat × List Char
  | [], acc, n => (acc, n, [])
  | c :: cs, acc, n =>
    match digitValue 10 c with
    | some d => readDigits cs (acc * 10 + d) (n + 1)
    | none => (acc, n, c :: cs)

/-- The function `parseFloat(s)` on the characters of a string that holds
no exponent part and no `Infinity` (the replace above leaves no letter):
the longest prefix `sign digits [. digits]` or `sign . digits`; `none` is
`NaN`. -/
def parseFloatChars (cs : List Char) : Option Decimal :=
  let s := stripSign (cs.dropWhile isJSWhitespace)
  let i := readDigits s.2 0 0
  let sign : Int := if s.1 then -1 else 1
  match i.2.2 with
  | '.' :: rest =>
    let f := readDigits rest i.1 0
    if i.2.1 = 0 ∧ f.2.1 = 0 then none
    else some { mantissa := sign * (f.1 : Int), scale := f.2.1 }
  | _ =>
    if i.2.1 = 0 then none
    else some { mantissa := sign * (i.1 : Int), scale := 0 }

/-- The expression `parseFloat(String(v).replace(/[^0-9.-]/g, "")) || 0`. -/
def numericValue (v : JSVal) : Decimal :=
  match parseFloatChars (stripNonNumeric v.toStr.data) with
  | some d => if d.mantissa = 0 then Decimal.zero else d
  | none => Decimal.zero

/-- The operation `ToPrimitive` on the values modelled: the sentinel object
prints as `[object Object]`. -/
def toPrimitive : JSVal → JSVal
  | JSVal.serverTimestamp => JSVal.str "[object Object]"
  | v => v

/-- The operation `ToNumber` on a primitive value; `none` is `NaN`.  The
conversion of a string is taken as the parameter `stringToNumber`. -/
def toNumber (stringToNumber : String → Option Decimal) : JSVal → Option Decimal
  | JSVal.undefined => none
  | JSVal.str s => stringToNumber s
  | JSVal.num n => some { mantissa := n, scale := 0 }
  | JSVal.serverTimestamp => none

/-- The comparison `a < b` of two values: two strings are compared
lexicographically, anything else as numbers, and `NaN` compares false. -/
def jsLess (stringToNumber : String → Option Decimal) (a b : JSVal) : Bool :=
  match toPrimitive a, toPrimitive b with
  | JSVal.str s, JSVal.str t => decide (s.data < t.data)
  | x, y =>
    match toNumber stringToNumber x, toNumber stringToNumber y with
    | some p, some q => p.lt q
    | _, _ => false

/-- The value `aVal` of the comparator after its numeric conversion: a
number for the keys `SNO` and `AMOUNT`, else the field value. -/
inductive SortKey where
  | number (d : Decimal)
  | value (v : JSVal)
  deriving DecidableEq, Repr

/-- The comparator's `aVal`: `a.data[sortConfig.key] || ""`, turned into a
number when the key is `SNO` or `AMOUNT`. -/
def sortKey (cfg : SortConfig) (a : Row) : SortKey :=
  let aVal := jsOr (getProp a.data cfg.key) (JSVal.str "")
  if cfg.key = "SNO" ∨ cfg.key = "AMOUNT" then SortKey.number (numericValue aVal)
  else SortKey.value aVal

/-- The comparison `aVal < bVal` of the comparator; both keys are built
under the same `sortConfig`, so they are of the same kind. -/
def keyLess (stringToNumber : String → Option Decimal) : SortKey → SortKey → Bool
  | SortKey.number a, SortKey.number b => a.lt b
  | SortKey.value a, SortKey.value b => jsLess stringToNumber a b
  | _, _ => false

/-- The comparator passed to `sort`. -/
def compareRows (stringToNumber : String → Option Decimal) (cfg : SortConfig)
    (a b : Row) : Int :=
  let aVal := sortKey cfg a
  let bVal := sortKey cfg b
  if keyLess stringToNumber aVal bVal then
    (if cfg.direction = "asc" then -1 else 1)
  else if keyLess stringToNumber bVal aVal then
    (if cfg.direction = "asc" then 1 else -1)
  else 0

/-- The method `Array.prototype.sort` with a comparator: the stable sort
that puts `a` before `b` when `cmp(a, b) ≤ 0`.  (For a comparator that is
not consistent the order is implementation-defined; this is one engine.) -/
def arraySort (cmp : Row → Row → Int) (xs : List Row) : List Row :=
  List.insertionSort (fun a b => cmp a b ≤ 0) xs

/-- The memo `sortedRows`, as a function of the cache and the settings. -/
def sortedRows (stringToNumber : String → Option Decimal) (rows : List Row)
    (search : String) (cfg : SortConfig) : List Row :=
  if cfg.key = "" then filteredRows rows search
  else arraySort (compareRows stringToNumber cfg) (filteredRows rows search)

/-- The numeric value the reducer of `totalAmount` adds for one row:
`parseFloat(String(row.data.AMOUNT || 0).replace(/[^0-9.-]/g, "")) || 0`. -/
def amountValue (row : Row) : Decimal :=
  numericValue (jsOr (getProp row.data "AMOUNT") (JSVal.num 0))

/-- The memo `totalAmount`: the reduce from `0` with `sum + numValue`, an
addition of doubles. -/
def totalAmount (rows : List Row) (search : String) : Double :=
  (filteredRows rows search).foldl
    (fun sum row => sum.add (amountValue row).toDouble) Double.zero

/-! ### Arrays by reference

The memos pass arrays by reference and `sort` works in place; to state
that the cache is not written, arrays are kept in a store. -/

/-- The arrays allocated so far; a reference is an index. -/
abbrev ArrayStore := List (List Row)

/-- Allocation of a new array with the given elements. -/
def allocArray (store : ArrayStore) (xs : List Row) : ArrayStore × Nat :=
  (store ++ [xs], store.length)

/-- The elements of the array behind a reference. -/
def readArray (store : ArrayStore) (ref : Nat) : List Row := store.getD ref []

/-- In-place replacement of the elements of the array behind a reference. -/
def writeArray (store : ArrayStore) (ref : Nat) (xs : List Row) : ArrayStore :=
  store.set ref xs

/-- The memo `filteredRows` on references: `rows` itself without a search
term, else the new array `rows.filter(...)` returns. -/
def filteredRowsRef (store : ArrayStore) (rowsRef : Nat) (search : String) :
    ArrayStore × Nat :=
  if search = "" then (store, rowsRef)
  else allocArray store ((readArray store rowsRef).filter (matchesSearch search))

/-- The memo `sortedRows` on references: `filteredRows` itself without a
sort key, else the copy `[...filteredRows]` sorted in place. -/
def sortedRowsRef (stringToNumber : String → Option Decimal) (store : ArrayStore)
    (filteredRef : Nat) (cfg : SortConfig) : ArrayStore × Nat :=
  if cfg.key = "" then (store, filteredRef)
  else
    let copy := allocArray store (readArray store filteredRef)
    (writeArray copy.1 copy.2
        (arraySort (compareRows stringToNumber cfg) (readArray copy.1 copy.2)),
     copy.2)

/-- Both memos computed from the cache array at `rowsRef`. -/
def renderSorted (stringToNumber : String → Option Decimal) (store : ArrayStore)
    (rowsRef : Nat) (search : String) (cfg : SortConfig) : ArrayStore × Nat :=
  let f := filteredRowsRef store rowsRef search
  sortedRowsRef stringToNumber f.1 f.2 cfg

/-! ## Edit and delete modals -/

/-- Handler `openEditModal(row)`. -/
def openEditModal (env : Env) (st : ViewState) (row : Row) :
    ViewState × List RemoteCall :=
  if !env.canEdit then
    ({ st with error := some "You don't have permission to edit contributions" },
     [])
  else ({ st with editingRow := some row }, [])

/-- Handler `openDeleteModal(row)`. -/
def openDeleteModal (env : Env) (st : ViewState) (row : Row) :
    ViewState × List RemoteCall :=
  if !env.canDelete then
    ({ st with error := some "You don't have permission to delete contributions" },
     [])
  else ({ st with deleteRow := some row, showDeleteModal := true }, [])

/-- Handler `confirmDelete`. -/
def confirmDelete (env : Env) (st : ViewState) : ViewState × List RemoteCall :=
  match st.deleteRow with
  | none => ({ st with showDeleteModal := false, deleteRow := none }, [])
  | some row =>
    let call := RemoteCall.deleteContribution (getCollectionPath st) row.id
    match env.rejects call with
    | some msg =>
      ({ st with error := some ("Delete failed: " ++ msg), saveStatus := "error",
                 showDeleteModal := false, deleteRow := none }, [call])
    | none =>
      ({ st with saveStatus := "saved", showDeleteModal := false, deleteRow := none },
       call :: logAudit env st "delete" row.data)

/-! ## User management (`UserManagement.js`) -/

/-- An element of `users`: `{ id: doc.id, ...doc.data() }`, as far as the
handlers read it. -/
structure UserEntry where
  id : String
  email : String
  deriving DecidableEq, Repr

/-- The calls `UserManagement` makes to the remote store.  The document of
`setAuthorizedUser` is named by the segments of its path below the
collection `authorizedUsers`: `[key]` is the document `key` of that
collection. -/
inductive UserCall where
  | deleteAuthorizedUser (id : String)
  | setAuthorizedUser (path : List String) (data : Obj)
  deriving DecidableEq, Repr

/-- The expression `email.toLowerCase().replace(/\./g, ",")`. -/
def emailKey (email : String) : String :=
  ⟨(toLowerCase email).data.map (fun c => if c = '.' then ',' else c)⟩

/-- Handler `handleDeleteUser(user)`: the remote calls it makes and the
alerts it shows.  `currentEmail` is `currentUser.email` (without an email
the comparison throws before any call), `confirmed` the answer to
`window.confirm`, `rejects` whether `deleteDoc` rejects. -/
def handleDeleteUser (currentEmail : String) (confirmed rejects : Bool)
    (user : UserEntry) : List UserCall × List String :=
  if user.id = emailKey currentEmail then
    ([], ["You cannot delete your own account!"])
  else if !confirmed then ([], [])
  else if rejects then
    ([UserCall.deleteAuthorizedUser user.id], ["Failed to delete user. Please try again."])
  else ([UserCall.deleteAuthorizedUser user.id], [])

/-! ## Authentication (`AuthContext.js`) -/

/-- The role constant `USER_ROLES.ADMIN`. -/
def ROLE_ADMIN : String := "admin"

/-- The outcome of `getDoc(doc(db, "authorizedUsers", key))`. -/
inductive RoleLookup where
  /-- The promise rejects. -/
  | failed (message : String)
  /-- The document does not exist. -/
  | missing
  /-- The document exists; `role` is `userDoc.data().role`. -/
  | found (role : JSVal)
  deriving DecidableEq, Repr

/-- The `useState` cells of `AuthProvider`; `none` is `null`. -/
structure AuthState where
  user : Option User
  userRole : Option JSVal
  loading : Bool
  deriving DecidableEq, Repr

/-- The callback of `onAuthStateChanged`; `lookup key` is what the role
lookup under the document key `key` gives.  A user without an email makes
`doc(...)` throw inside the `try`. -/
def onAuthStateChanged (lookup : String → RoleLookup) (currentUser : Option User) :
    AuthState :=
  match currentUser with
  | none => { user := none, userRole := none, loading := false }
  | some u =>
    let role : JSVal :=
      match u.email with
      | none => JSVal.str ROLE_ADMIN
      | some email =>
        match lookup email with
        | RoleLookup.found r => jsOr r (JSVal.str ROLE_ADMIN)
        | RoleLookup.missing => JSVal.str ROLE_ADMIN
        | RoleLookup.failed _ => JSVal.str ROLE_ADMIN
    { user := some u, userRole := some role, loading := false }

/-! ## Permissions derived from the role (`AuthContext.js`) -/

/-- The role constant `USER_ROLES.EDITOR`. -/
def ROLE_EDITOR : String := "editor"

/-- The role constant `USER_ROLES.VIEWER`. -/
def ROLE_VIEWER : String := "viewer"

/-- The flag `isAdmin`: `userRole === USER_ROLES.ADMIN`. -/
def isAdmin (userRole : Option JSVal) : Bool :=
  decide (userRole = some (JSVal.str ROLE_ADMIN))

/-- The flag `isEditor`:
`userRole === USER_ROLES.EDITOR || userRole === USER_ROLES.ADMIN`. -/
def isEditor (userRole : Option JSVal) : Bool :=
  decide (userRole = some (JSVal.str ROLE_EDITOR)) ||
  decide (userRole = some (JSVal.str ROLE_ADMIN))

/-- The flag `canEdit`. -/
def canEdit (userRole : Option JSVal) : Bool := isEditor userRole

/-- The flag `canDelete`. -/
def canDelete (userRole : Option JSVal) : Bool := isAdmin userRole

/-- The flag `canManageUsers`. -/
def canManageUsers (userRole : Option JSVal) : Bool := isAdmin userRole

/-! ## Saving an authorized user (`UserManagement.js`) -/

/-- An element of `users` with the fields `handleEditUser` reads besides
the id. -/
structure UserRecord extends UserEntry where
  role : JSVal
  name : JSVal
  deriving DecidableEq, Repr

/-- The object held in `formData`. -/
structure FormData where
  email : String
  role : JSVal
  name : JSVal
  deriving DecidableEq, Repr

/-- Handler `handleEditUser(user)`: the form it fills. -/
def handleEditUser (user : UserRecord) : FormData :=
  { email := user.id,
    role := jsOr user.role (JSVal.str "viewer"),
    name := jsOr user.name (JSVal.str "") }

/-- The document `handleSubmit` passes to `setDoc`; `now` is
`new Date().toISOString()`. -/
def submittedUser (formData : FormData) (currentEmail now : String) : Obj :=
  [("email", JSVal.str (toLowerCase formData.email)),
   ("role", formData.role),
   ("name", formData.name),
   ("updatedAt", JSVal.str now),
   ("updatedBy", JSVal.str currentEmail)]

/-- The call `path.split("/")` on the characters of a path. -/
def splitSlash : List Char → List (List Char)
  | [] => [[]]
  | c :: cs =>
    if c = '/' then [] :: splitSlash cs
    else
      match splitSlash cs with
      | [] => [[c]]
      | seg :: rest => (c :: seg) :: rest

/-- The test `path.indexOf("//") >= 0`. -/
def hasDoubleSlash : List Char → Bool
  | [] => false
  | c :: cs =>
    match cs with
    | [] => false
    | d :: _ => (decide (c = '/') && decide (d = '/')) || hasDoubleSlash cs

/-- The document that `doc(db, "authorizedUsers", key)` of the Firestore
SDK refers to, as the segments of its path below `authorizedUsers`; `none`
when `doc` throws.  The SDK rejects a component that holds `//`, splits the
component at `/`, drops the empty segments, and throws unless the whole
path, the collection name included, has an even number of segments.  A key
without `/` that is not empty names the document `[key]`; the empty key and
a key such as `a/b` make `doc` throw. -/
def docSegments (key : String) : Option (List String) :=
  if hasDoubleSlash key.data then none
  else
    let segments := (splitSlash key.data).filter (fun seg => seg ≠ [])
    if segments.length % 2 = 1 then some (segments.map String.mk) else none

/-- Handler `handleSubmit`: the remote calls it makes and the alerts it
shows.  When `doc(db, "authorizedUsers", emailKey)` throws, inside the
`try`, no call is made and the failure alert is shown; `rejects` is whether
`setDoc` rejects. -/
def handleSubmit (formData : FormData) (currentEmail now : String) (rejects : Bool) :
    List UserCall × List String :=
  match docSegments (emailKey formData.email) with
  | none => ([], ["Failed to save user. Please try again."])
  | some path =>
    if rejects then
      ([UserCall.setAuthorizedUser path (submittedUser formData currentEmail now)],
       ["Failed to save user. Please try again."])
    else
      ([UserCall.setAuthorizedUser path (submittedUser formData currentEmail now)], [])

/-- The documents below the collection `authorizedUsers`, by the segments
of their path below it. -/
abbrev UserStore := List (List String × Obj)

/-- The effect of a call that resolves on the documents. -/
def applyUserCall (db : UserStore) : UserCall → UserStore
  | UserCall.deleteAuthorizedUser id => db.filter (fun kv => kv.1 ≠ [id])
  | UserCall.setAuthorizedUser path data =>
    (path, data) :: db.filter (fun kv => kv.1 ≠ path)

/-- The role lookup `getDoc(doc(db, "authorizedUsers", key))` against the
documents; it fails when `doc` throws, and the read itself resolves. -/
def roleLookupIn (db : UserStore) (key : String) : RoleLookup :=
  match docSegments key with
  | none => RoleLookup.failed "Invalid document reference"
  | some path =>
    match db.lookup path with
    | some data => RoleLookup.found (getProp data "role")
    | none => RoleLookup.missing

/-! ## Partition switch, counter fetch and export -/

/-- A change of the event or year selector followed by the start of the
sync effect: `setLoading(true); setError(null)`. -/
def selectPartition (st : ViewState) (event : String) (year : Nat) : ViewState :=
  { st with selectedEvent := event, selectedYear := year, loading := true,
            error := none }

/-- The outcome of `getDoc(doc(db, getMetaPath()))`. -/
inductive CounterFetch where
  /-- The promise rejects. -/
  | failed (message : String)
  /-- The counter document does not exist. -/
  | missing
  /-- The document exists; `lastSno` is its field of that name, if any. -/
  | found (lastSno : Option Int)
  deriving DecidableEq, Repr

/-- The function `fetchCounter` of the sync effect. -/
def fetchCounter (st : ViewState) (r : CounterFetch) : ViewState :=
  match r with
  | CounterFetch.found v => { st with lastSno := v.getD 0 }
  | CounterFetch.missing => st
  | CounterFetch.failed _ => st

/-- The success callback of `onSnapshot` as a handler: it makes no remote
call. -/
def snapshotHandler (st : ViewState) (data : List Row) : ViewState × List RemoteCall :=
  (onSnapshot st data, [])

/-- The fields the destructuring in `handleDownloadExcel` takes out:
`{ sno, updatedAt, updatedBy, uploadedAt, uploadedBy, ...rest }`. -/
def exportDropped : List String :=
  ["sno", "updatedAt", "updatedBy", "uploadedAt", "uploadedBy"]

/-- The object `rest` of that destructuring. -/
def exportRow (data : Obj) : Obj :=
  data.filter (fun kv => !(exportDropped.contains kv.1))

/-- Handler `handleDownloadExcel`: the view state after it and the rows it
hands to `json_to_sheet`, if it writes a file. -/
def handleDownloadExcel (st : ViewState) : ViewState × Option (List Obj) :=
  if st.rows.length = 0 then ({ st with error := some "No data to download" }, none)
  else (st, some (st.rows.map (fun row => exportRow row.data)))

/-! ## Snapshots handled while a handler is suspended

A handler keeps the values of the render that created it (`lastSno`,
`newRowData`, the paths) while it is suspended at an `await`.  The success
callback of `onSnapshot` can run in between, and it acts on the state
cells; each setter call the handler makes after the `await` acts on the
cells as it finds them.  In the definitions below `st` is the render of the
handler, `cells` the state cells, and each list of snapshots is the run of
snapshots handled during one suspension.  The snapshot callback and the
handlers set different cells, except for `lastSno`. -/

/-- The view state after a run of snapshots has been handled. -/
def applySnapshots (st : ViewState) (snaps : List (List Row)) : ViewState :=
  snaps.foldl onSnapshot st

/-- Handler `saveContribution` of the render `st` on the state cells
`cells`, with the snapshots `during` handled while it is suspended at its
`setDoc` and at `logAudit`. -/
def saveContributionOn (env : Env) (st cells : ViewState) (ref : DocRef) (data : Obj)
    (isNew : Bool) (during : List (List Row)) : ViewState × List RemoteCall :=
  let call := RemoteCall.setContribution (getCollectionPath st) ref
    (spread data [("updatedAt", JSVal.serverTimestamp),
                  ("updatedBy", JSVal.str (actorEmail env.user))])
  let cells1 := applySnapshots cells during
  match env.rejects call with
  | some msg =>
    ({ cells1 with saveStatus := "error", error := some ("Save failed: " ++ msg) },
     [call])
  | none =>
    ({ cells1 with saveStatus := "saved" },
     call :: logAudit env st (if isNew then "add" else "edit") data)

/-- Handler `updateCounter(newSno)` of the render `st` on the state cells
`cells`, with the snapshots `during` handled while it is suspended at its
`setDoc`; `setLastSno(newSno)` runs after them. -/
def updateCounterOn (env : Env) (st cells : ViewState) (newSno : Int)
    (during : List (List Row)) : ViewState × List RemoteCall :=
  let call := RemoteCall.setCounter (getMetaPath st) newSno
  let cells1 := applySnapshots cells during
  match env.rejects call with
  | none => ({ cells1 with lastSno := newSno }, [call])
  | some _ => (cells1, [call])

/-- Handler `confirmAddRow` of the render `st`, with the snapshots handled
while it awaits `saveContribution` and those handled while it awaits
`updateCounter`.  Both values it computes, `newSno` and
`Math.max(newSno, lastSno)`, read the `lastSno` of the render. -/
def confirmAddRowDuring (env : Env) (st : ViewState)
    (duringSave duringCounter : List (List Row)) : ViewState × List RemoteCall :=
  let newSno := parseIntOr (getProp st.newRowData "SNO") (st.lastSno + 1)
  let s := saveContributionOn env st st (DocRef.auto 0) (addRecord env st) true duringSave
  let c := updateCounterOn env st s.1 (max newSno st.lastSno) duringCounter
  ({ c.1 with showAddModal := false, newRowData := [] }, s.2 ++ c.2)

/-- Handler `handleFileUpload` of the render `st` with its `reader.onload`
callback, with the snapshots handled while it awaits the commits, those
handled while it awaits `updateCounter` and those handled while it awaits
`logAudit`.  The running counter `maxSno` starts at the `lastSno` of the
render. -/
def handleFileUploadDuring (env : Env) (st : ViewState) (file : Upload)
    (duringCommit duringCounter duringAudit : List (List Row)) :
    ViewState × List RemoteCall :=
  if !env.canEdit then
    ({ st with error := some "You don't have permission to upload files" }, [])
  else
    match file with
    | Upload.noFile => (st, [])
    | Upload.unreadable msg =>
      ({ st with error := some ("File upload failed: " ++ msg),
                 saveStatus := "error" }, [])
    | Upload.sheet json =>
      let st1 := { st with saveStatus := "saving" }
      if json.length = 0 then (st1, [])
      else
        let batches := importBatches env st.lastSno json
        let maxSno := (importLoop env st.lastSno json).maxSno
        let commits := batches.map (RemoteCall.commitBatch (getCollectionPath st))
        let cells := applySnapshots st1 duringCommit
        match firstRejection env commits with
        | some msg =>
          ({ cells with error := some ("File upload failed: " ++ msg),
                        saveStatus := "error" }, commits)
        | none =>
          let c := updateCounterOn env st cells maxSno duringCounter
          let audit := logAudit env st "bulk_upload"
            [("count", JSVal.num (json.length : Nat))]
          ({ applySnapshots c.1 duringAudit with saveStatus := "saved" },
           commits ++ c.2 ++ audit)

/-! ## Specification-level helpers -/

/-- The integer held in the `sno` field of a record (`0` when the field
is not a number). -/
def snoOf (o : Obj) : Int :=
  match getProp o "sno" with
  | JSVal.num n => n
  | _ => 0

/-- The write operations of an import listed directly in row order, from
the running counter `maxSno` and the number `drawn` of ids already drawn. -/
def importOps (env : Env) : Int → Nat → List Obj → List WriteOp
  | _, _, [] => []
  | maxSno, drawn, row :: rest =>
    let a := assignSno (normalizeRow row) maxSno
    let op : WriteOp := { ref := drawn, data := importRecord env row a.1 }
    op :: importOps env a.2 (drawn + 1) rest

/-- The running counter after the rows have been numbered. -/
def runningCounter : Int → List Obj → Int
  | maxSno, [] => maxSno
  | maxSno, row :: rest =>
    runningCounter (assignSno (normalizeRow row) maxSno).2 rest

/-- The loop invariant of the import: the open batch holds `operationCount`
operations, fewer than `BATCH_SIZE`; every pushed batch is full; `n` rows
have been consumed. -/
def LoopInv (s : ImportLoop) (n : Nat) : Prop :=
  s.operationCount = s.currentBatch.length ∧ s.operationCount < BATCH_SIZE ∧
  (∀ b ∈ s.batches, b.length = BATCH_SIZE) ∧
  s.batches.length * BATCH_SIZE + s.operationCount = n

/-- The left operand of `parseInt(normalizedRow.SNO) || ++maxSno` is falsy
for this row (`NaN` or `0`), so the row is numbered from the counter. -/
def snoIsFalsy (row : Obj) : Bool :=
  match parseInt (getProp (normalizeRow row) "SNO") with
  | some n => n == 0
  | none => true

/-- A parsed row carries no SNO value: after normalisation its `SNO` field
is absent, or is the empty string that `defval: ""` gives an empty cell. -/
def carriesNoSno (row : Obj) : Prop :=
  getProp (normalizeRow row) "SNO" = JSVal.undefined ∨
  getProp (normalizeRow row) "SNO" = JSVal.str ""

instance (row : Obj) : Decidable (carriesNoSno row) :=
  inferInstanceAs (Decidable (_ ∨ _))

/-- A decimal digit character. -/
def isDecimalDigit (c : Char) : Prop := 48 ≤ c.toNat ∧ c.toNat ≤ 57

instance (c : Char) : Decidable (isDecimalDigit c) :=
  inferInstanceAs (Decidable (48 ≤ c.toNat ∧ c.toNat ≤ 57))

/-- Positional value of a run of decimal digits read after `acc`. -/
def decimalValue (acc : Nat) (l : List Char) : Nat :=
  l.foldl (fun a c => a * 10 + (c.toNat - 48)) acc

/-- The user typing into inputs of the add modal: one `onChange` per
`(header, value)` pair, in order. -/
def fillForm (st : ViewState) (edits : List (String × String)) : ViewState :=
  edits.foldl (fun s e => changeNewRow s e.1 e.2) st

/-- The rows a snapshot delivers for freshly written operations, `ids`
naming the automatic document ids. -/
def snapshotOf (ids : Nat → String) (ops : List WriteOp) : List Row :=
  ops.map (fun op => { id := ids op.ref, data := op.data })

/-- The view state a manual add starts from after a bulk import: the state
the import left, or (with `snap`) that state after the snapshot delivering
the imported records has been handled. -/
def afterImport (env : Env) (st : ViewState) (json : List Obj)
    (ids : Nat → String) (snap : Bool) : ViewState :=
  let imp := handleFileUpload env st (Upload.sheet json)
  if snap then onSnapshot imp.1 (snapshotOf ids (committedBatches imp.2).flatten)
  else imp.1

/-- A manual add with the pre-filled form: the modal is opened, the user
types `edits`, and confirms. -/
def manualAdd (env : Env) (st : ViewState) (edits : List (String × String)) :
    ViewState × List RemoteCall :=
  confirmAddRow env (fillForm (openAddModal env st).1 edits)

/-- An editor with every permission, against a store that accepts every call. -/
def sampleEnv : Env :=
  { user := some { email := some "editor@example.org", displayName := none },
    canEdit := true, canDelete := true, rejects := fun _ => none,
    today := "25-Dec-2024" }

/-- A sheet of three rows without an `SNO` column. -/
def threeRows : List Obj :=
  [[("Name", JSVal.str "Grace"), ("Amount", JSVal.str "1200")],
   [("Name", JSVal.str "John"), ("Amount", JSVal.str "300")],
   [("Name", JSVal.str "Mary"), ("Amount", JSVal.str "50")]]

/-- The `sno` values an import gives to the rows it numbers from the
running counter, in row order: `ops` are the operations written for `json`. -/
def counterAssigned (json : List Obj) (ops : List WriteOp) : List Int :=
  ((json.zip ops).filter (fun p => snoIsFalsy p.1)).map (fun p => snoOf p.2.data)

/-- The partition `(christmas, 2024)` right after loading: no rows, counter 0. -/
def emptyPartition : ViewState :=
  { selectedEvent := "christmas", selectedYear := 2024, rows := [],
    lastSno := 0, loading := false, error := none, saveStatus := "",
    search := "", sortConfig := { key := "SNO", direction := "asc" },
    editingRow := none, showAddModal := false, showDeleteModal := false,
    deleteRow := none, newRowData := [] }

/-- The numeric sort key of a row under the key `SNO` or `AMOUNT`: the
field (or the empty string when it is missing) with every character other
than digits, dots and minus signs deleted, parsed as a number, `NaN`
counting as `0`. -/
def numericKey (key : String) (r : Row) : Decimal :=
  numericValue (jsOr (getProp r.data key) (JSVal.str ""))

/-- Three cached records whose amounts are `₹1,200`, `300` and `abc`. -/
def amountRows : List Row :=
  [{ id := "doc1", data := [("SNO", JSVal.str "1"), ("NAME", JSVal.str "Grace"),
      ("AMOUNT", JSVal.str "₹1,200")] },
   { id := "doc2", data := [("SNO", JSVal.str "2"), ("NAME", JSVal.str "John"),
      ("AMOUNT", JSVal.str "300")] },
   { id := "doc3", data := [("SNO", JSVal.str "3"), ("NAME", JSVal.str "Mary"),
      ("AMOUNT", JSVal.str "abc")] }]

/-- A conversion of strings to numbers that never yields a number. -/
def noNumber : String → Option Decimal := fun _ => none

/-- The audit entries of a trace whose write the store accepts. -/
def auditPersisted (env : Env) : List RemoteCall → List AuditEntry
  | [] => []
  | RemoteCall.addAudit e :: rest =>
    if env.rejects (RemoteCall.addAudit e) = none then e :: auditPersisted env rest
    else auditPersisted env rest
  | _ :: rest => auditPersisted env rest

/-- The calls of a trace that delete a contribution document. -/
def contributionDeletes : List RemoteCall → List String
  | [] => []
  | RemoteCall.deleteContribution _ id :: rest => id :: contributionDeletes rest
  | _ :: rest => contributionDeletes rest

/-- A store that rejects every write of the audit log and accepts the rest. -/
def auditDownEnv : Env :=
  { sampleEnv with
    rejects := fun c =>
      match c with
      | RemoteCall.addAudit _ => some "audit log unavailable"
      | _ => none }

/-- A store that rejects every write of the counter document and accepts
the rest. -/
def counterDownEnv : Env :=
  { sampleEnv with
    rejects := fun c =>
      match c with
      | RemoteCall.setCounter _ _ => some "counter unavailable"
      | _ => none }

/-- A store that rejects every write and delete of contribution documents
and accepts the rest. -/
def writesDownEnv : Env :=
  { sampleEnv with
    rejects := fun c =>
      match c with
      | RemoteCall.commitBatch _ _ => some "unavailable"
      | RemoteCall.setContribution _ _ _ => some "unavailable"
      | RemoteCall.deleteContribution _ _ => some "unavailable"
      | _ => none }

/-- A viewer: neither edit nor delete permission. -/
def viewerEnv : Env := { sampleEnv with canEdit := false, canDelete := false }

/-- The cached record of Grace. -/
def graceRow : Row :=
  { id := "doc1",
    data := [("SNO", JSVal.str "1"), ("NAME", JSVal.str "Grace"),
             ("AMOUNT", JSVal.str "1200"), ("sno", JSVal.num 1)] }

/-- The internal bookkeeping fields of a record: `sno`, the timestamps and
the actor stamps. -/
def bookkeepingFields : List String :=
  ["sno", "updatedAt", "uploadedAt", "addedAt", "updatedBy", "uploadedBy", "addedBy"]

/-- The record as cached after a manual add of Ruth at counter 3: the
document `confirmAddRow` writes. -/
def addedRow : Row :=
  { id := "doc4",
    data := (contributionWrites
      (manualAdd sampleEnv { emptyPartition with lastSno := 3 }
        [("NAME", "Ruth"), ("AMOUNT", "500")]).2).headD [] }

/-- Whether a character is an upper-case ASCII letter. -/
def isUpperAscii (c : Char) : Prop := 65 ≤ c.toNat ∧ c.toNat ≤ 90

instance (c : Char) : Decidable (isUpperAscii c) :=
  inferInstanceAs (Decidable (65 ≤ c.toNat ∧ c.toNat ≤ 90))

/-- A record whose `SNO` was cleared in the add form at counter 49: the
manual add stores `sno = 50` next to the empty `SNO`. -/
def blankSnoRow : Row :=
  { id := "doc9", data := [("SNO", JSVal.str ""), ("DATE", JSVal.str "25-Dec-2024"),
      ("NAME", JSVal.str "Ruth"), ("PHONE", JSVal.str ""), ("AMOUNT", JSVal.str "500"),
      ("sno", JSVal.num 50), ("addedAt", JSVal.serverTimestamp),
      ("addedBy", JSVal.str "editor@example.org"),
      ("updatedAt", JSVal.serverTimestamp),
      ("updatedBy", JSVal.str "editor@example.org")] }

/-- A record of another editor with `SNO = "5"`. -/
def fifthRow : Row :=
  { id := "doc5",
    data := [("SNO", JSVal.str "5"), ("NAME", JSVal.str "John"),
             ("AMOUNT", JSVal.str "300"), ("sno", JSVal.num 5)] }

/-- The double of a whole number. -/
def Double.ofInt (z : Int) : Double := roundToDouble z 1

/-- Two records whose amounts are the decimal fractions `0.1` and `0.2`. -/
def tenthRows : List Row :=
  [{ id := "doc1", data := [("SNO", JSVal.str "1"), ("NAME", JSVal.str "Grace"),
      ("AMOUNT", JSVal.str "0.1")] },
   { id := "doc2", data := [("SNO", JSVal.str "2"), ("NAME", JSVal.str "John"),
      ("AMOUNT", JSVal.str "0.2")] }]

/-! ## Basic lemmas -/

theorem getProp_setProp_same (o : Obj) (k : String) (v : JSVal) :
    getProp (setProp o k v) k = v := by
  induction o with
  | nil => simp [setProp, getProp, List.lookup]
  | cons kv rest ih =>
    obtain ⟨k', v'⟩ := kv
    by_cases h : k' = k
    · subst h
      simp [setProp, getProp, List.lookup]
    · have hb : (k == k') = false := by
        simpa using fun e : k = k' => h e.symm
      simp only [setProp, h, if_false]
      simp only [getProp, List.lookup, hb] at ih ⊢
      exact ih

theorem getProp_setProp_other (o : Obj) (k k' : String) (v : JSVal) (h : k ≠ k') :
    getProp (setProp o k v) k' = getProp o k' := by
  induction o with
  | nil =>
    have hb : (k' == k) = false := by simpa using fun e : k' = k => h e.symm
    simp [setProp, getProp, List.lookup, hb]
  | cons kv rest ih =>
    obtain ⟨k1, v1⟩ := kv
    by_cases h1 : k1 = k
    · subst h1
      have hb : (k' == k1) = false := by simpa using fun e : k' = k1 => h e.symm
      simp [setProp, getProp, List.lookup, hb]
    · simp only [setProp, h1, if_false]
      by_cases h2 : k' = k1
      · subst h2
        simp [getProp, List.lookup]
      · have hb : (k' == k1) = false := by simpa using h2
        simp only [getProp, List.lookup, hb] at ih ⊢
        exact ih

theorem loopInv_init (lastSno : Int) : LoopInv (importInit lastSno) 0 := by
  simp [LoopInv, importInit, BATCH_SIZE]

theorem loopInv_step (env : Env) (s : ImportLoop) (n : Nat) (row : Obj)
    (h : LoopInv s n) : LoopInv (importStep env s row) (n + 1) := by
  obtain ⟨h1, h2, h3, h4⟩ := h
  unfold importStep
  simp only []
  split
  · rename_i hge
    refine ⟨by simp, by simp [BATCH_SIZE], ?_, ?_⟩
    · intro b hb
      rcases List.mem_append.1 hb with hb | hb
      · exact h3 b hb
      · simp only [List.mem_singleton] at hb
        subst hb
        simp only [List.length_append, List.length_singleton]
        omega
    · simp only [List.length_append, List.length_singleton]
      have : s.operationCount + 1 = BATCH_SIZE := by omega
      rw [← h4]
      simp only [BATCH_SIZE] at *
      omega
  · rename_i hlt
    refine ⟨by simp [h1], ?_, h3, ?_⟩
    · show s.operationCount + 1 < BATCH_SIZE
      omega
    · show s.batches.length * BATCH_SIZE + (s.operationCount + 1) = n + 1
      omega

theorem loopInv_foldl (env : Env) (json : List Obj) :
    ∀ (s : ImportLoop) (n : Nat), LoopInv s n →
      LoopInv (json.foldl (importStep env) s) (n + json.length) := by
  induction json with
  | nil => intro s n h; simpa using h
  | cons row rest ih =>
    intro s n h
    have := ih (importStep env s row) (n + 1) (loopInv_step env s n row h)
    simpa [List.foldl, Nat.add_assoc, Nat.add_comm 1] using this

theorem loopInv_importLoop (env : Env) (lastSno : Int) (json : List Obj) :
    LoopInv (importLoop env lastSno json) json.length := by
  have := loopInv_foldl env json (importInit lastSno) 0 (loopInv_init lastSno)
  simpa [importLoop] using this

theorem importBatches_length (env : Env) (lastSno : Int) (json : List Obj) :
    (importBatches env lastSno json).length = (json.length + 499) / 500 := by
  obtain ⟨h1, h2, h3, h4⟩ := loopInv_importLoop env lastSno json
  unfold importBatches
  simp only [BATCH_SIZE] at *
  split
  · simp only [List.length_append, List.length_singleton]
    omega
  · omega

theorem importBatches_le (env : Env) (lastSno : Int) (json : List Obj) :
    ∀ b ∈ importBatches env lastSno json, b.length ≤ 500 := by
  obtain ⟨h1, h2, h3, h4⟩ := loopInv_importLoop env lastSno json
  intro b hb
  unfold importBatches at hb
  simp only [BATCH_SIZE] at *
  split at hb
  · rcases List.mem_append.1 hb with hb | hb
    · exact le_of_eq (h3 b hb)
    · simp only [List.mem_singleton] at hb
      subst hb
      omega
  · exact le_of_eq (h3 b hb)

theorem committedBatches_map_commit (path : String) (bs : List (List WriteOp)) :
    committedBatches (bs.map (RemoteCall.commitBatch path)) = bs := by
  induction bs with
  | nil => rfl
  | cons b rest ih => simp [committedBatches, ih]

theorem committedBatches_append (xs ys : List RemoteCall) :
    committedBatches (xs ++ ys) = committedBatches xs ++ committedBatches ys := by
  induction xs with
  | nil => rfl
  | cons c rest ih =>
    cases c <;> simp [committedBatches, ih]

theorem committedBatches_updateCounter (env : Env) (st : ViewState) (n : Int) :
    committedBatches (updateCounter env st n).2 = [] := by
  unfold updateCounter
  simp only []
  split <;> rfl

/-- The write batches a bulk import commits are exactly the list `batches`
the loop builds (none when the sheet has no rows). -/
theorem handleFileUpload_batches (env : Env) (st : ViewState) (json : List Obj)
    (hedit : env.canEdit = true) :
    committedBatches (handleFileUpload env st (Upload.sheet json)).2
      = importBatches env st.lastSno json := by
  unfold handleFileUpload
  simp only [hedit, Bool.not_true, Bool.false_eq_true, if_false]
  split
  · rename_i h0
    have : json = [] := List.length_eq_zero.1 h0
    subst this
    rfl
  · split
    · simp [committedBatches_map_commit]
    · simp [committedBatches_append, committedBatches_map_commit,
        committedBatches_updateCounter, logAudit, committedBatches]


theorem digitChar_decimal (d : Nat) (h : d < 10) :
    isDecimalDigit (Nat.digitChar d) ∧ (Nat.digitChar d).toNat - 48 = d := by
  unfold isDecimalDigit
  interval_cases d <;> decide

theorem digitValue_decimal (c : Char) (h : isDecimalDigit c) :
    digitValue 10 c = some (c.toNat - 48) := by
  obtain ⟨h1, h2⟩ := h
  unfold digitValue
  simp only [h1, h2, and_self, if_true]
  have : c.toNat - 48 < 10 := by omega
  simp [this]

theorem decimalValue_append (acc : Nat) (l r : List Char) :
    decimalValue acc (l ++ r) = decimalValue (decimalValue acc l) r := by
  simp [decimalValue, List.foldl_append]

theorem toDigitsCore_spec :
    ∀ (fuel n : Nat) (ds : List Char), n < fuel →
      ∃ l : List Char, Nat.toDigitsCore 10 fuel n ds = l ++ ds ∧ l ≠ [] ∧
        (∀ c ∈ l, isDecimalDigit c) ∧
        ∀ acc, decimalValue acc l = acc * 10 ^ l.length + n := by
  intro fuel
  induction fuel with
  | zero => intro n ds h; omega
  | succ fuel ih =>
    intro n ds h
    have hd := digitChar_decimal (n % 10) (Nat.mod_lt _ (by decide))
    unfold Nat.toDigitsCore
    simp only []
    split
    · rename_i h0
      refine ⟨[Nat.digitChar (n % 10)], rfl, by simp, ?_, ?_⟩
      · intro c hc
        simp only [List.mem_singleton] at hc
        subst hc
        exact hd.1
      · intro acc
        simp only [decimalValue, List.foldl, hd.2, List.length_singleton, pow_one]
        omega
    · rename_i h0
      have hlt : n / 10 < fuel := by omega
      obtain ⟨l, e, hne, hdig, hval⟩ := ih (n / 10) (Nat.digitChar (n % 10) :: ds) hlt
      refine ⟨l ++ [Nat.digitChar (n % 10)], by simp [e], by simp, ?_, ?_⟩
      · intro c hc
        rcases List.mem_append.1 hc with hc | hc
        · exact hdig c hc
        · simp only [List.mem_singleton] at hc
          subst hc
          exact hd.1
      · intro acc
        rw [decimalValue_append, hval]
        simp only [decimalValue, List.foldl, hd.2, List.length_append, List.length_singleton,
          pow_succ]
        have := Nat.div_add_mod n 10
        nlinarith [this]

theorem toDigits_spec (n : Nat) :
    Nat.toDigits 10 n ≠ [] ∧ (∀ c ∈ Nat.toDigits 10 n, isDecimalDigit c) ∧
      decimalValue 0 (Nat.toDigits 10 n) = n := by
  obtain ⟨l, e, hne, hdig, hval⟩ := toDigitsCore_spec (n + 1) n [] (Nat.lt_succ_self n)
  simp only [List.append_nil] at e
  unfold Nat.toDigits
  rw [e]
  exact ⟨hne, hdig, by simpa using hval 0⟩

theorem parseDigits_decimal (l : List Char) (hdig : ∀ c ∈ l, isDecimalDigit c) :
    ∀ acc : Option Nat, l ≠ [] →
      parseDigits 10 l acc = some (decimalValue (acc.getD 0) l) := by
  induction l with
  | nil => intro acc h; exact absurd rfl h
  | cons c rest ih =>
    intro acc _
    have hc := digitValue_decimal c (hdig c (List.mem_cons_self _ _))
    have hrest : ∀ c ∈ rest, isDecimalDigit c :=
      fun x hx => hdig x (List.mem_cons_of_mem _ hx)
    simp only [parseDigits, hc]
    cases rest with
    | nil => simp [parseDigits, decimalValue]
    | cons c2 rest2 =>
      rw [ih hrest _ (by simp)]
      simp [decimalValue]

theorem not_whitespace_of_digit (c : Char) (hc : isDecimalDigit c) :
    isJSWhitespace c = false := by
  obtain ⟨h1, h2⟩ := hc
  unfold isJSWhitespace
  simp only []
  simp
  omega

theorem stripSign_digit (c : Char) (rest : List Char) (hc : isDecimalDigit c) :
    stripSign (c :: rest) = (false, c :: rest) := by
  unfold stripSign
  split
  · rename_i t heq
    simp only [List.cons.injEq] at heq
    rw [heq.1] at hc
    exact absurd hc (by decide)
  · rename_i t heq
    simp only [List.cons.injEq] at heq
    rw [heq.1] at hc
    exact absurd hc (by decide)
  · rfl

theorem stripRadix_digits (l : List Char) (hdig : ∀ c ∈ l, isDecimalDigit c) :
    stripRadix l = (10, l) := by
  unfold stripRadix
  split
  · exact absurd (hdig 'x' (by simp)) (by decide)
  · exact absurd (hdig 'X' (by simp)) (by decide)
  · rfl

theorem parseIntChars_digits (l : List Char) (hne : l ≠ [])
    (hdig : ∀ c ∈ l, isDecimalDigit c) :
    parseIntChars l = some ((decimalValue 0 l : Nat) : Int) ∧
    parseIntChars ('-' :: l) = some (-((decimalValue 0 l : Nat) : Int)) := by
  obtain ⟨c, rest, rfl⟩ := List.exists_cons_of_ne_nil hne
  have hc : isDecimalDigit c := hdig c (List.mem_cons_self _ _)
  have hws := not_whitespace_of_digit c hc
  have hp := parseDigits_decimal (c :: rest) hdig none hne
  constructor
  · unfold parseIntChars
    simp only [List.dropWhile, hws, stripSign_digit c rest hc,
      stripRadix_digits (c :: rest) hdig, hp]
    simp
  · have hm : isJSWhitespace '-' = false := by decide
    have hs : stripSign ('-' :: c :: rest) = (true, c :: rest) := rfl
    unfold parseIntChars
    simp only [List.dropWhile, hm, hs, stripRadix_digits (c :: rest) hdig, hp]
    simp

/-- Reading back: `parseInt` returns the integer that `toString` printed. -/
theorem parseInt_numToString (n : Int) :
    parseIntChars (numToString n).data = some n := by
  cases n with
  | ofNat m =>
    obtain ⟨hne, hdig, hval⟩ := toDigits_spec m
    have := (parseIntChars_digits _ hne hdig).1
    rw [hval] at this
    simpa [numToString, Nat.repr, List.asString] using this
  | negSucc m =>
    obtain ⟨hne, hdig, hval⟩ := toDigits_spec (m + 1)
    have := (parseIntChars_digits _ hne hdig).2
    rw [hval] at this
    have hd : (numToString (Int.negSucc m)).data = '-' :: Nat.toDigits 10 (m + 1) := by
      simp [numToString, Nat.repr, List.asString, String.data_append]
    rw [hd, this]
    rfl

theorem parseInt_str_numToString (n : Int) :
    parseInt (JSVal.str (numToString n)) = some n := parseInt_numToString n

theorem parseInt_num (n : Int) : parseInt (JSVal.num n) = some n :=
  parseInt_numToString n

theorem importStep_flat (env : Env) (s : ImportLoop) (row : Obj) :
    (importStep env s row).batches.flatten ++ (importStep env s row).currentBatch
      = s.batches.flatten ++ s.currentBatch ++
        [{ ref := s.drawn, data := importRecord env row (assignSno (normalizeRow row) s.maxSno).1 }]
    ∧ (importStep env s row).maxSno = (assignSno (normalizeRow row) s.maxSno).2
    ∧ (importStep env s row).drawn = s.drawn + 1 := by
  unfold importStep
  simp only []
  split <;> simp

theorem importLoop_flat (env : Env) (json : List Obj) :
    ∀ s : ImportLoop,
      (json.foldl (importStep env) s).batches.flatten ++
          (json.foldl (importStep env) s).currentBatch
        = s.batches.flatten ++ s.currentBatch ++ importOps env s.maxSno s.drawn json
      ∧ (json.foldl (importStep env) s).maxSno = runningCounter s.maxSno json := by
  induction json with
  | nil => intro s; simp [importOps, runningCounter]
  | cons row rest ih =>
    intro s
    obtain ⟨h1, h2, h3⟩ := importStep_flat env s row
    obtain ⟨i1, i2⟩ := ih (importStep env s row)
    simp only [List.foldl]
    refine ⟨?_, ?_⟩
    · rw [i1, h1, h2, h3]
      simp [importOps]
    · rw [i2, h2]
      simp [runningCounter]

theorem importBatches_flatten (env : Env) (lastSno : Int) (json : List Obj) :
    (importBatches env lastSno json).flatten = importOps env lastSno 0 json := by
  have h1 : (importLoop env lastSno json).batches.flatten ++
      (importLoop env lastSno json).currentBatch = importOps env lastSno 0 json := by
    simpa [importLoop, importInit] using (importLoop_flat env json (importInit lastSno)).1
  have h0 : (importLoop env lastSno json).operationCount
      = (importLoop env lastSno json).currentBatch.length :=
    (loopInv_importLoop env lastSno json).1
  unfold importBatches
  simp only []
  split
  · simpa using h1
  · rename_i hz
    have : (importLoop env lastSno json).currentBatch = [] := by
      apply List.length_eq_zero.1
      omega
    rw [this] at h1
    simpa using h1

theorem importLoop_maxSno (env : Env) (lastSno : Int) (json : List Obj) :
    (importLoop env lastSno json).maxSno = runningCounter lastSno json := by
  simpa [importLoop, importInit] using (importLoop_flat env json (importInit lastSno)).2

theorem spread_two (o : Obj) (a b : String × JSVal) :
    spread o [a, b] = setProp (setProp o a.1 a.2) b.1 b.2 := rfl

theorem spread_three (o : Obj) (a b c : String × JSVal) :
    spread o [a, b, c] = setProp (setProp (setProp o a.1 a.2) b.1 b.2) c.1 c.2 := rfl

theorem importRecord_sno (env : Env) (row : Obj) (sno : Int) :
    getProp (importRecord env row sno) "sno" = JSVal.num sno := by
  unfold importRecord
  simp only [spread_two]
  rw [getProp_setProp_other _ _ _ _ (by decide), getProp_setProp_other _ _ _ _ (by decide),
    getProp_setProp_same]

theorem importRecord_SNO (env : Env) (row : Obj) (sno : Int) :
    getProp (importRecord env row sno) "SNO" = JSVal.str (numToString sno) := by
  unfold importRecord
  simp only [spread_two]
  rw [getProp_setProp_other _ _ _ _ (by decide), getProp_setProp_other _ _ _ _ (by decide),
    getProp_setProp_other _ _ _ _ (by decide), getProp_setProp_same]

theorem snoOf_importRecord (env : Env) (row : Obj) (sno : Int) :
    snoOf (importRecord env row sno) = sno := by
  simp [snoOf, importRecord_sno]

theorem assignSno_falsy (row : Obj) (m : Int) (h : snoIsFalsy row = true) :
    assignSno (normalizeRow row) m = (m + 1, m + 1) := by
  unfold snoIsFalsy at h
  unfold assignSno
  cases hp : parseInt (getProp (normalizeRow row) "SNO") with
  | none => rfl
  | some n =>
    rw [hp] at h
    have : n = 0 := by simpa using h
    simp [this]

theorem assignSno_truthy (row : Obj) (m n : Int)
    (hp : parseInt (getProp (normalizeRow row) "SNO") = some n) (hn : n ≠ 0) :
    assignSno (normalizeRow row) m = (n, m) := by
  unfold assignSno
  simp [hp, hn]

theorem snoIsFalsy_of_carriesNoSno (row : Obj) (h : carriesNoSno row) :
    snoIsFalsy row = true := by
  unfold snoIsFalsy
  rcases h with h | h <;> rw [h] <;> rfl

theorem importOps_unnumbered {β : Type} (env : Env) (f : Obj → β) (g : Int → β)
    (hfg : ∀ row sno, f (importRecord env row sno) = g sno) :
    ∀ (json : List Obj) (L : Int) (d : Nat), (∀ row ∈ json, snoIsFalsy row = true) →
      (importOps env L d json).map (fun op => f op.data)
          = (List.range json.length).map (fun i : Nat => g (L + 1 + (i : Int))) ∧
      runningCounter L json = L + (json.length : Int) := by
  intro json
  induction json with
  | nil => intro L d _; simp [importOps, runningCounter]
  | cons row rest ih =>
    intro L d h
    have hrow := assignSno_falsy row L (h row (List.mem_cons_self _ _))
    obtain ⟨i1, i2⟩ := ih (L + 1) (d + 1) (fun r hr => h r (List.mem_cons_of_mem _ hr))
    constructor
    · simp only [importOps, hrow, List.map_cons, hfg, i1, List.length_cons,
        List.range_succ_eq_map, List.map_map]
      simp only [List.map_cons, List.cons.injEq]
      refine ⟨by simp, ?_⟩
      apply List.map_congr_left
      intro i _
      simp only [Function.comp, Nat.succ_eq_add_one, Nat.cast_add, Nat.cast_one]
      congr 1
      ring
    · simp only [runningCounter, hrow, i2, List.length_cons, Nat.cast_add, Nat.cast_one]
      ring

theorem updateCounter_calls (env : Env) (st : ViewState) (n : Int) :
    (updateCounter env st n).2 = [RemoteCall.setCounter (getMetaPath st) n] := by
  unfold updateCounter
  simp only []
  split <;> rfl

theorem updateCounter_lastSno (env : Env) (st : ViewState) (n : Int)
    (h : env.rejects (RemoteCall.setCounter (getMetaPath st) n) = none) :
    (updateCounter env st n).1 = { st with lastSno := n } := by
  unfold updateCounter
  simp only [h]

theorem firstRejection_commits (env : Env) (path : String)
    (hcommit : ∀ p ops, env.rejects (RemoteCall.commitBatch p ops) = none)
    (bs : List (List WriteOp)) :
    firstRejection env (bs.map (RemoteCall.commitBatch path)) = none := by
  induction bs with
  | nil => rfl
  | cons b rest ih =>
    unfold firstRejection at ih ⊢
    simp only [List.map_cons, List.findSome?, hcommit]
    exact ih

/-- The shape of a bulk import in which every batch commit resolves. -/
theorem handleFileUpload_committed (env : Env) (st : ViewState) (json : List Obj)
    (hedit : env.canEdit = true) (hne : json ≠ [])
    (hcommit : ∀ p ops, env.rejects (RemoteCall.commitBatch p ops) = none) :
    handleFileUpload env st (Upload.sheet json) =
      ({ (updateCounter env { st with saveStatus := "saving" }
            (runningCounter st.lastSno json)).1 with saveStatus := "saved" },
       (importBatches env st.lastSno json).map
            (RemoteCall.commitBatch (getCollectionPath st)) ++
          [RemoteCall.setCounter (getMetaPath st) (runningCounter st.lastSno json)] ++
          logAudit env st "bulk_upload" [("count", JSVal.num (json.length : Nat))]) := by
  have hlen : ¬ json.length = 0 := fun h => hne (List.length_eq_zero.1 h)
  unfold handleFileUpload
  simp only [hedit, Bool.not_true, Bool.false_eq_true, if_false, hlen,
    firstRejection_commits env _ hcommit, importLoop_maxSno, updateCounter_calls]
  rfl

theorem counterWrites_append (xs ys : List RemoteCall) :
    counterWrites (xs ++ ys) = counterWrites xs ++ counterWrites ys := by
  induction xs with
  | nil => rfl
  | cons c rest ih => cases c <;> simp [counterWrites, ih]

theorem auditWrites_append (xs ys : List RemoteCall) :
    auditWrites (xs ++ ys) = auditWrites xs ++ auditWrites ys := by
  induction xs with
  | nil => rfl
  | cons c rest ih => cases c <;> simp [auditWrites, ih]

theorem counterWrites_commits (path : String) (bs : List (List WriteOp)) :
    counterWrites (bs.map (RemoteCall.commitBatch path)) = [] := by
  induction bs with
  | nil => rfl
  | cons b rest ih => simpa [counterWrites] using ih

theorem auditWrites_commits (path : String) (bs : List (List WriteOp)) :
    auditWrites (bs.map (RemoteCall.commitBatch path)) = [] := by
  induction bs with
  | nil => rfl
  | cons b rest ih => simpa [auditWrites] using ih

theorem parseIntOr_numToString (n alt : Int) (hn : n ≠ 0) :
    parseIntOr (JSVal.str (numToString n)) alt = n := by
  unfold parseIntOr
  rw [parseInt_str_numToString]
  simp [hn]

theorem parseIntOr_numToString_zero (n : Int) :
    parseIntOr (JSVal.str (numToString n)) 0 = n := by
  unfold parseIntOr
  rw [parseInt_str_numToString]
  by_cases hn : n = 0
  · simp [hn]
  · simp [hn]

theorem mathMax_append_singleton (l : List Int) (y : Int) (hl : l ≠ []) :
    mathMax (l ++ [y]) = max (mathMax l) y := by
  obtain ⟨x, xs, rfl⟩ := List.exists_cons_of_ne_nil hl
  simp [mathMax, List.foldl_append]

theorem mathMax_range (a : Int) (n : Nat) :
    mathMax ((List.range (n + 1)).map (fun i : Nat => a + (i : Int))) = a + (n : Int) := by
  induction n with
  | zero => simp [mathMax, List.range_succ]
  | succ n ih =>
    rw [List.range_succ, List.map_append, List.map_singleton,
      mathMax_append_singleton _ _ (by simp), ih]
    simp only [Nat.cast_add, Nat.cast_one]
    omega

theorem fillForm_spec (edits : List (String × String))
    (hform : ∀ e ∈ edits, e.1 ≠ "SNO") :
    ∀ st : ViewState,
      (fillForm st edits).lastSno = st.lastSno ∧
      getProp (fillForm st edits).newRowData "SNO" = getProp st.newRowData "SNO" := by
  induction edits with
  | nil => intro st; exact ⟨rfl, rfl⟩
  | cons e rest ih =>
    intro st
    obtain ⟨h1, h2⟩ :=
      ih (fun x hx => hform x (List.mem_cons_of_mem _ hx)) (changeNewRow st e.1 e.2)
    have he : e.1 ≠ "SNO" := hform e (List.mem_cons_self _ _)
    have hstep : fillForm st (e :: rest) = fillForm (changeNewRow st e.1 e.2) rest := rfl
    rw [hstep]
    refine ⟨h1, ?_⟩
    rw [h2]
    exact getProp_setProp_other _ _ _ _ he

theorem openAddModal_SNO (env : Env) (st : ViewState) (hedit : env.canEdit = true) :
    (openAddModal env st).1.lastSno = st.lastSno ∧
    getProp (openAddModal env st).1.newRowData "SNO"
      = JSVal.str (numToString (st.lastSno + 1)) := by
  have e : openAddModal env st =
      ({ st with
          newRowData := setProp (setProp
            (headers.foldl (fun acc h => setProp acc h (JSVal.str "")) [])
            "SNO" (JSVal.str (numToString (st.lastSno + 1)))) "DATE" (JSVal.str env.today),
          showAddModal := true }, []) := by
    unfold openAddModal
    simp only [hedit, Bool.not_true, Bool.false_eq_true, if_false]
  rw [e]
  refine ⟨rfl, ?_⟩
  show getProp (setProp (setProp _ "SNO" _) "DATE" _) "SNO" = _
  rw [getProp_setProp_other _ _ _ _ (by decide), getProp_setProp_same]

theorem addRecord_sno (env : Env) (st : ViewState) :
    getProp (addRecord env st) "sno"
      = JSVal.num (parseIntOr (getProp st.newRowData "SNO") (st.lastSno + 1)) := by
  unfold addRecord
  simp only [spread_three]
  rw [getProp_setProp_other _ _ _ _ (by decide), getProp_setProp_other _ _ _ _ (by decide),
    getProp_setProp_same]

theorem snapshotOf_SNO (ids : Nat → String) (ops : List WriteOp) :
    (snapshotOf ids ops).map (fun r => parseIntOr (getProp r.data "SNO") 0)
      = ops.map (fun op => parseIntOr (getProp op.data "SNO") 0) := by
  simp only [snapshotOf, List.map_map]
  rfl

/-- Handler `confirmAddRow` when every remote call resolves. -/
theorem confirmAddRow_ok (env : Env) (st : ViewState) (hok : ∀ c, env.rejects c = none) :
    confirmAddRow env st =
      ({ st with
          saveStatus := "saved",
          lastSno := max (parseIntOr (getProp st.newRowData "SNO") (st.lastSno + 1)) st.lastSno,
          showAddModal := false, newRowData := [] },
       [RemoteCall.setContribution (getCollectionPath st) (DocRef.auto 0)
          (spread (addRecord env st)
            [("updatedAt", JSVal.serverTimestamp),
             ("updatedBy", JSVal.str (actorEmail env.user))]),
        RemoteCall.addAudit
          { action := "add", event := eventLabel st, data := addRecord env st,
            previousData := none, userEmail := actorEmail env.user,
            userName := actorName env.user },
        RemoteCall.setCounter (getMetaPath st)
          (max (parseIntOr (getProp st.newRowData "SNO") (st.lastSno + 1)) st.lastSno)]) := by
  simp [confirmAddRow, saveContribution, updateCounter, hok, logAudit, getMetaPath, eventLabel]

/-- What a manual add does when the `SNO` input still holds the pre-filled
value and every remote call resolves. -/
theorem manualAdd_prefilled (env : Env) (st : ViewState) (edits : List (String × String))
    (hedit : env.canEdit = true) (hok : ∀ c, env.rejects c = none)
    (hform : ∀ e ∈ edits, e.1 ≠ "SNO") (hpos : st.lastSno + 1 ≠ 0) :
    (∃ d, contributionWrites (manualAdd env st edits).2 = [d] ∧
        getProp d "sno" = JSVal.num (st.lastSno + 1)) ∧
    counterWrites (manualAdd env st edits).2 = [st.lastSno + 1] ∧
    (manualAdd env st edits).1.lastSno = st.lastSno + 1 ∧
    (∃ e, auditWrites (manualAdd env st edits).2 = [e] ∧ e.action = "add") := by
  obtain ⟨o1, o2⟩ := openAddModal_SNO env st hedit
  obtain ⟨f1, f2⟩ := fillForm_spec edits hform (openAddModal env st).1
  have hl : (fillForm (openAddModal env st).1 edits).lastSno = st.lastSno := by rw [f1, o1]
  have hs : getProp (fillForm (openAddModal env st).1 edits).newRowData "SNO"
      = JSVal.str (numToString (st.lastSno + 1)) := by rw [f2, o2]
  have hnew : ∀ alt, parseIntOr
      (getProp (fillForm (openAddModal env st).1 edits).newRowData "SNO") alt
        = st.lastSno + 1 := by
    intro alt; rw [hs]; exact parseIntOr_numToString _ _ hpos
  have hrec := addRecord_sno env (fillForm (openAddModal env st).1 edits)
  rw [hnew] at hrec
  have hmax : max (st.lastSno + 1) st.lastSno = st.lastSno + 1 := by
    apply max_eq_left; omega
  unfold manualAdd
  rw [confirmAddRow_ok env _ hok, hnew, hl, hmax]
  refine ⟨⟨_, rfl, ?_⟩, rfl, rfl, ⟨_, rfl, rfl⟩⟩
  show getProp (setProp (setProp _ "updatedAt" _) "updatedBy" _) "sno" = _
  rw [getProp_setProp_other _ _ _ _ (by decide),
    getProp_setProp_other _ _ _ _ (by decide)]
  exact hrec

theorem mem_intersperse_of_mem {α : Type} (sep : α) :
    ∀ (l : List α) (x : α), x ∈ l → x ∈ l.intersperse sep := by
  intro l
  induction l with
  | nil => intro x h; exact h
  | cons a rest ih =>
    intro x h
    cases rest with
    | nil => simpa using h
    | cons b rest2 =>
      rw [List.intersperse_cons₂]
      rcases List.mem_cons.1 h with h | h
      · exact h ▸ List.mem_cons_self _ _
      · exact List.mem_cons_of_mem _ (List.mem_cons_of_mem _ (ih x h))

theorem infix_intercalate_of_mem {α : Type} (sep : List α) (xs : List (List α))
    (x : List α) (h : x ∈ xs) : x <:+: List.intercalate sep xs := by
  unfold List.intercalate
  exact List.infix_of_mem_flatten (mem_intersperse_of_mem sep xs x h)

theorem includes_iff (s t : String) : includes s t = true ↔ t.data <:+: s.data := by
  simp [includes]

/-- A field value whose lower-cased text contains the lower-cased term
makes the row match the search. -/
theorem matchesSearch_of_field (search : String) (row : Row) (v : JSVal)
    (hv : v ∈ objectValues row.data)
    (hin : includes (toLowerCase (joinElem v)) (toLowerCase search) = true) :
    matchesSearch search row = true := by
  rw [includes_iff] at hin
  unfold matchesSearch
  rw [includes_iff]
  refine hin.trans ?_
  show (joinElem v).data.map Char.toLower <:+:
    (List.intercalate [' '] ((objectValues row.data).map (fun v => (joinElem v).data))).map
      Char.toLower
  apply List.IsInfix.map
  apply infix_intercalate_of_mem
  exact List.mem_map.2 ⟨v, hv, rfl⟩

theorem assignSno_not_falsy (row : Obj) (m : Int) (h : snoIsFalsy row = false) :
    (assignSno (normalizeRow row) m).2 = m := by
  unfold snoIsFalsy at h
  unfold assignSno
  cases hp : parseInt (getProp (normalizeRow row) "SNO") with
  | none => rw [hp] at h; simp at h
  | some n =>
    rw [hp] at h
    have : n ≠ 0 := by simpa using h
    simp [this]

theorem counterAssigned_importOps (env : Env) :
    ∀ (json : List Obj) (L : Int) (d : Nat),
      List.Pairwise (fun a b => a < b) (counterAssigned json (importOps env L d json)) ∧
      ∀ x ∈ counterAssigned json (importOps env L d json), L < x := by
  intro json
  induction json with
  | nil => intro L d; simp [counterAssigned, importOps]
  | cons row rest ih =>
    intro L d
    cases hrow : snoIsFalsy row with
    | true =>
      have ha := assignSno_falsy row L hrow
      obtain ⟨i1, i2⟩ := ih (L + 1) (d + 1)
      have e : counterAssigned (row :: rest) (importOps env L d (row :: rest))
          = (L + 1) :: counterAssigned rest (importOps env (L + 1) (d + 1) rest) := by
        simp [counterAssigned, importOps, ha, hrow, snoOf_importRecord]
      rw [e]
      refine ⟨List.pairwise_cons.2 ⟨i2, i1⟩, ?_⟩
      intro x hx
      rcases List.mem_cons.1 hx with hx | hx
      · omega
      · have := i2 x hx
        omega
    | false =>
      have ha := assignSno_not_falsy row L hrow
      have e : counterAssigned (row :: rest) (importOps env L d (row :: rest))
          = counterAssigned rest (importOps env L (d + 1) rest) := by
        simp [counterAssigned, importOps, ha, hrow]
      rw [e]
      exact ih L (d + 1)

theorem pow_ten_pos (k : Nat) : (0 : ℚ) < (10 : ℚ) ^ k := by positivity

theorem decimal_lt_iff (a b : Decimal) : a.lt b = true ↔ a.toRat < b.toRat := by
  unfold Decimal.lt Decimal.toRat
  rw [decide_eq_true_iff, div_lt_div_iff₀ (pow_ten_pos _) (pow_ten_pos _)]
  constructor
  · intro h
    have : ((a.mantissa * ((10 ^ b.scale : Nat) : Int) : Int) : ℚ)
        < ((b.mantissa * ((10 ^ a.scale : Nat) : Int) : Int) : ℚ) := by exact_mod_cast h
    push_cast at this
    exact this
  · intro h
    have : ((a.mantissa * ((10 ^ b.scale : Nat) : Int) : Int) : ℚ)
        < ((b.mantissa * ((10 ^ a.scale : Nat) : Int) : Int) : ℚ) := by
      push_cast
      exact h
    exact_mod_cast this

theorem decimal_lt_self (a : Decimal) : a.lt a = false := by
  cases h : a.lt a with
  | false => rfl
  | true => exact absurd ((decimal_lt_iff a a).1 h) (lt_irrefl _)

theorem insertionSort_congr {α : Type} (r s : α → α → Prop) [DecidableRel r] [DecidableRel s]
    (h : ∀ a b, r a b ↔ s a b) (l : List α) :
    List.insertionSort r l = List.insertionSort s l := by
  have hins : ∀ (a : α) (l : List α), List.orderedInsert r a l = List.orderedInsert s a l := by
    intro a l
    induction l with
    | nil => rfl
    | cons b l ih =>
      by_cases hr : r a b
      · simp [List.orderedInsert, hr, (h a b).1 hr]
      · have hs : ¬ s a b := fun hs => hr ((h a b).2 hs)
        simp [List.orderedInsert, hr, hs, ih]
  induction l with
  | nil => rfl
  | cons a l ih => simp [List.insertionSort, ih, hins]

theorem sortKey_numeric (cfg : SortConfig) (a : Row)
    (hkey : cfg.key = "SNO" ∨ cfg.key = "AMOUNT") :
    sortKey cfg a = SortKey.number (numericKey cfg.key a) := by
  unfold sortKey numericKey
  simp only [hkey, if_true]

/-- For the keys `SNO` and `AMOUNT` in ascending direction the comparator
orders two rows exactly as their numeric keys are ordered. -/
theorem compareRows_numeric_asc (f : String → Option Decimal) (cfg : SortConfig)
    (hkey : cfg.key = "SNO" ∨ cfg.key = "AMOUNT") (hdir : cfg.direction = "asc")
    (a b : Row) :
    compareRows f cfg a b ≤ 0 ↔
      (numericKey cfg.key a).toRat ≤ (numericKey cfg.key b).toRat := by
  unfold compareRows
  simp only [sortKey_numeric cfg _ hkey, keyLess, hdir, if_true]
  by_cases h1 : (numericKey cfg.key a).lt (numericKey cfg.key b) = true
  · have := (decimal_lt_iff _ _).1 h1
    simp only [h1, if_true]
    exact ⟨fun _ => le_of_lt this, fun _ => by decide⟩
  · have hn1 : ¬ (numericKey cfg.key a).toRat < (numericKey cfg.key b).toRat :=
      fun h => h1 ((decimal_lt_iff _ _).2 h)
    by_cases h2 : (numericKey cfg.key b).lt (numericKey cfg.key a) = true
    · have := (decimal_lt_iff _ _).1 h2
      simp only [h1, h2, if_true, if_false]
      exact ⟨fun h => absurd h (by decide), fun h => absurd this (not_lt.2 h)⟩
    · simp only [h1, h2, if_false]
      exact ⟨fun _ => not_lt.1 (fun h => h2 ((decimal_lt_iff _ _).2 h)), fun _ => le_refl _⟩

theorem arraySort_numeric_sorted (f : String → Option Decimal) (cfg : SortConfig)
    (hkey : cfg.key = "SNO" ∨ cfg.key = "AMOUNT") (hdir : cfg.direction = "asc")
    (l : List Row) :
    List.Pairwise (fun a b => (numericKey cfg.key a).toRat ≤ (numericKey cfg.key b).toRat)
      (arraySort (compareRows f cfg) l) := by
  unfold arraySort
  rw [insertionSort_congr _
    (fun a b => (numericKey cfg.key a).toRat ≤ (numericKey cfg.key b).toRat)
    (compareRows_numeric_asc f cfg hkey hdir) l]
  haveI : IsTotal Row
      (fun a b => (numericKey cfg.key a).toRat ≤ (numericKey cfg.key b).toRat) :=
    ⟨fun a b => le_total _ _⟩
  haveI : IsTrans Row
      (fun a b => (numericKey cfg.key a).toRat ≤ (numericKey cfg.key b).toRat) :=
    ⟨fun a b c h1 h2 => le_trans h1 h2⟩
  exact List.sorted_insertionSort _ l

theorem jsLess_self (f : String → Option Decimal) (v : JSVal) : jsLess f v v = false := by
  unfold jsLess
  split
  · rename_i s t hs ht
    rw [hs] at ht
    injection ht with ht
    subst ht
    simp
  · split
    · rename_i p q hp hq
      rw [hp] at hq
      injection hq with hq
      subst hq
      exact decimal_lt_self p
    · rfl

theorem keyLess_self (f : String → Option Decimal) (k : SortKey) : keyLess f k k = false := by
  cases k with
  | number d => exact decimal_lt_self d
  | value v => exact jsLess_self f v

theorem compareRows_of_sortKey_eq (f : String → Option Decimal) (cfg : SortConfig)
    (a b : Row) (h : sortKey cfg a = sortKey cfg b) : compareRows f cfg a b = 0 := by
  unfold compareRows
  simp only [h, keyLess_self, Bool.false_eq_true, if_false]

theorem arraySort_perm (cmp : Row → Row → Int) (l : List Row) :
    List.Perm (arraySort cmp l) l :=
  List.perm_insertionSort _ l

theorem arraySort_pair (cmp : Row → Row → Int) (l : List Row) (a b : Row)
    (hab : cmp a b ≤ 0) (h : List.Sublist [a, b] l) :
    List.Sublist [a, b] (arraySort cmp l) :=
  List.pair_sublist_insertionSort (r := fun a b => cmp a b ≤ 0) hab h

theorem readArray_alloc_old (store : ArrayStore) (xs : List Row) (ref : Nat)
    (h : ref < store.length) :
    readArray (allocArray store xs).1 ref = readArray store ref := by
  unfold readArray allocArray
  simp [List.getD, List.getElem?_append_left h]

theorem readArray_alloc_new (store : ArrayStore) (xs : List Row) :
    readArray (allocArray store xs).1 (allocArray store xs).2 = xs := by
  unfold readArray allocArray
  simp [List.getD]

theorem readArray_write_same (store : ArrayStore) (ref : Nat) (xs : List Row)
    (h : ref < store.length) : readArray (writeArray store ref xs) ref = xs := by
  unfold readArray writeArray
  simp [List.getD, h]

theorem readArray_write_other (store : ArrayStore) (ref ref2 : Nat) (xs : List Row)
    (h : ref ≠ ref2) : readArray (writeArray store ref xs) ref2 = readArray store ref2 := by
  unfold readArray writeArray
  simp [List.getD, List.getElem?_set_ne h]

theorem filteredRowsRef_spec (store : ArrayStore) (rowsRef : Nat) (search : String)
    (h : rowsRef < store.length) :
    (filteredRowsRef store rowsRef search).2 < (filteredRowsRef store rowsRef search).1.length ∧
    store.length ≤ (filteredRowsRef store rowsRef search).1.length ∧
    (∀ ref, ref < store.length →
      readArray (filteredRowsRef store rowsRef search).1 ref = readArray store ref) ∧
    readArray (filteredRowsRef store rowsRef search).1 (filteredRowsRef store rowsRef search).2
      = filteredRows (readArray store rowsRef) search := by
  unfold filteredRowsRef filteredRows
  by_cases hs : search = ""
  · rw [if_pos hs, if_pos hs]
    exact ⟨h, le_refl _, fun _ _ => rfl, rfl⟩
  · rw [if_neg hs, if_neg hs]
    refine ⟨by simp [allocArray], by simp [allocArray], ?_, readArray_alloc_new _ _⟩
    intro ref href
    exact readArray_alloc_old _ _ _ href

theorem sortedRowsRef_spec (f : String → Option Decimal) (store : ArrayStore)
    (fref : Nat) (cfg : SortConfig) :
    (∀ ref, ref < store.length →
      readArray (sortedRowsRef f store fref cfg).1 ref = readArray store ref) ∧
    readArray (sortedRowsRef f store fref cfg).1 (sortedRowsRef f store fref cfg).2
      = (if cfg.key = "" then readArray store fref
         else arraySort (compareRows f cfg) (readArray store fref)) := by
  unfold sortedRowsRef
  by_cases hk : cfg.key = ""
  · rw [if_pos hk, if_pos hk]
    exact ⟨fun _ _ => rfl, rfl⟩
  · rw [if_neg hk, if_neg hk]
    constructor
    · intro ref href
      have hne : (allocArray store (readArray store fref)).2 ≠ ref := by
        simp only [allocArray]; omega
      rw [readArray_write_other _ _ _ _ hne, readArray_alloc_old _ _ _ href]
    · have hlen : (allocArray store (readArray store fref)).2
          < (allocArray store (readArray store fref)).1.length := by
        simp [allocArray]
      rw [readArray_write_same _ _ _ hlen, readArray_alloc_new]

/-- Computing both memos does not write the cache array, and the array
returned holds the rows `sortedRows` gives. -/
theorem renderSorted_spec (f : String → Option Decimal) (store : ArrayStore)
    (rowsRef : Nat) (search : String) (cfg : SortConfig) (h : rowsRef < store.length) :
    readArray (renderSorted f store rowsRef search cfg).1 rowsRef = readArray store rowsRef ∧
    readArray (renderSorted f store rowsRef search cfg).1
        (renderSorted f store rowsRef search cfg).2
      = sortedRows f (readArray store rowsRef) search cfg := by
  obtain ⟨f1, f2, f3, f4⟩ := filteredRowsRef_spec store rowsRef search h
  obtain ⟨s1, s2⟩ := sortedRowsRef_spec f (filteredRowsRef store rowsRef search).1
    (filteredRowsRef store rowsRef search).2 cfg
  unfold renderSorted
  constructor
  · rw [s1 rowsRef (lt_of_lt_of_le h f2), f3 rowsRef h]
  · rw [s2, f4]
    rfl

theorem filteredRows_remove_excluded (l1 l2 : List Row) (r : Row) (search : String)
    (hs : search ≠ "") (hr : matchesSearch search r = false) :
    filteredRows (l1 ++ r :: l2) search = filteredRows (l1 ++ l2) search := by
  unfold filteredRows
  rw [if_neg hs, if_neg hs]
  simp [List.filter_append, List.filter_cons, hr]

theorem applySnapshots_frame (snaps : List (List Row)) :
    ∀ st : ViewState,
      (applySnapshots st snaps).deleteRow = st.deleteRow ∧
      (applySnapshots st snaps).selectedEvent = st.selectedEvent ∧
      (applySnapshots st snaps).selectedYear = st.selectedYear := by
  induction snaps with
  | nil => intro st; exact ⟨rfl, rfl, rfl⟩
  | cons d rest ih =>
    intro st
    obtain ⟨h1, h2, h3⟩ := ih (onSnapshot st d)
    have hstep : applySnapshots st (d :: rest) = applySnapshots (onSnapshot st d) rest := rfl
    rw [hstep, h1, h2, h3]
    unfold onSnapshot
    simp only []
    split <;> exact ⟨rfl, rfl, rfl⟩

/-- Handler `confirmDelete` when a row is selected and the delete resolves. -/
theorem confirmDelete_ok (env : Env) (st : ViewState) (row : Row)
    (hsel : st.deleteRow = some row)
    (hok : env.rejects (RemoteCall.deleteContribution (getCollectionPath st) row.id) = none) :
    confirmDelete env st =
      ({ st with saveStatus := "saved", showDeleteModal := false, deleteRow := none },
       [RemoteCall.deleteContribution (getCollectionPath st) row.id,
        RemoteCall.addAudit
          { action := "delete", event := eventLabel st, data := row.data,
            previousData := none, userEmail := actorEmail env.user,
            userName := actorName env.user }]) := by
  unfold confirmDelete
  simp only [hsel, hok, logAudit]

/-- Handler `confirmDelete` when a row is selected and the delete rejects. -/
theorem confirmDelete_rejected (env : Env) (st : ViewState) (row : Row) (msg : String)
    (hsel : st.deleteRow = some row)
    (hno : env.rejects (RemoteCall.deleteContribution (getCollectionPath st) row.id)
      = some msg) :
    confirmDelete env st =
      ({ st with error := some ("Delete failed: " ++ msg), saveStatus := "error",
                 showDeleteModal := false, deleteRow := none },
       [RemoteCall.deleteContribution (getCollectionPath st) row.id]) := by
  unfold confirmDelete
  simp only [hsel, hno]

/-- Handler `saveContribution` when the write resolves. -/
theorem saveContribution_ok (env : Env) (st : ViewState) (ref : DocRef) (data : Obj)
    (isNew : Bool)
    (hok : env.rejects (RemoteCall.setContribution (getCollectionPath st) ref
      (spread data [("updatedAt", JSVal.serverTimestamp),
                    ("updatedBy", JSVal.str (actorEmail env.user))])) = none) :
    saveContribution env st ref data isNew =
      ({ st with saveStatus := "saved" },
       [RemoteCall.setContribution (getCollectionPath st) ref
          (spread data [("updatedAt", JSVal.serverTimestamp),
                        ("updatedBy", JSVal.str (actorEmail env.user))]),
        RemoteCall.addAudit
          { action := if isNew then "add" else "edit", event := eventLabel st, data := data,
            previousData := none, userEmail := actorEmail env.user,
            userName := actorName env.user }]) := by
  unfold saveContribution
  simp only [hok, logAudit]

/-- Handler `saveContribution` when the write rejects. -/
theorem saveContribution_rejected (env : Env) (st : ViewState) (ref : DocRef) (data : Obj)
    (isNew : Bool) (msg : String)
    (hno : env.rejects (RemoteCall.setContribution (getCollectionPath st) ref
      (spread data [("updatedAt", JSVal.serverTimestamp),
                    ("updatedBy", JSVal.str (actorEmail env.user))])) = some msg) :
    saveContribution env st ref data isNew =
      ({ st with saveStatus := "error", error := some ("Save failed: " ++ msg) },
       [RemoteCall.setContribution (getCollectionPath st) ref
          (spread data [("updatedAt", JSVal.serverTimestamp),
                        ("updatedBy", JSVal.str (actorEmail env.user))])]) := by
  unfold saveContribution
  simp only [hno]

/-- The shape of a bulk import in which some batch commit rejects. -/
theorem handleFileUpload_rejected (env : Env) (st : ViewState) (json : List Obj)
    (msg : String) (hedit : env.canEdit = true) (hne : json ≠ [])
    (hno : firstRejection env ((importBatches env st.lastSno json).map
      (RemoteCall.commitBatch (getCollectionPath st))) = some msg) :
    handleFileUpload env st (Upload.sheet json) =
      ({ st with error := some ("File upload failed: " ++ msg), saveStatus := "error" },
       (importBatches env st.lastSno json).map
          (RemoteCall.commitBatch (getCollectionPath st))) := by
  have hlen : ¬ json.length = 0 := fun h => hne (List.length_eq_zero.1 h)
  unfold handleFileUpload
  simp only [hedit, Bool.not_true, Bool.false_eq_true, if_false, hlen, hno]

/-- The shape of a bulk import in which no batch commit rejects. -/
theorem handleFileUpload_resolved (env : Env) (st : ViewState) (json : List Obj)
    (hedit : env.canEdit = true) (hne : json ≠ [])
    (hok : firstRejection env ((importBatches env st.lastSno json).map
      (RemoteCall.commitBatch (getCollectionPath st))) = none) :
    handleFileUpload env st (Upload.sheet json) =
      ({ (updateCounter env { st with saveStatus := "saving" }
            (runningCounter st.lastSno json)).1 with saveStatus := "saved" },
       (importBatches env st.lastSno json).map
            (RemoteCall.commitBatch (getCollectionPath st)) ++
          [RemoteCall.setCounter (getMetaPath st) (runningCounter st.lastSno json)] ++
          logAudit env st "bulk_upload" [("count", JSVal.num (json.length : Nat))]) := by
  have hlen : ¬ json.length = 0 := fun h => hne (List.length_eq_zero.1 h)
  unfold handleFileUpload
  simp only [hedit, Bool.not_true, Bool.false_eq_true, if_false, hlen, hok,
    updateCounter_calls, importLoop_maxSno]
  rfl

theorem updateCounter_error (env : Env) (st : ViewState) (n : Int) :
    (updateCounter env st n).1.error = st.error ∧
    (updateCounter env st n).1.saveStatus = st.saveStatus ∧
    (updateCounter env st n).1.rows = st.rows := by
  unfold updateCounter
  simp only []
  split <;> exact ⟨rfl, rfl, rfl⟩

theorem updateCounter_rejected (env : Env) (st : ViewState) (n : Int) (msg : String)
    (h : env.rejects (RemoteCall.setCounter (getMetaPath st) n) = some msg) :
    updateCounter env st n = (st, [RemoteCall.setCounter (getMetaPath st) n]) := by
  unfold updateCounter
  simp only [h]

theorem contributionDeletes_commits (path : String) (bs : List (List WriteOp)) :
    contributionDeletes (bs.map (RemoteCall.commitBatch path)) = [] := by
  induction bs with
  | nil => rfl
  | cons b rest ih => simpa [contributionDeletes] using ih

theorem contributionDeletes_append (xs ys : List RemoteCall) :
    contributionDeletes (xs ++ ys) = contributionDeletes xs ++ contributionDeletes ys := by
  induction xs with
  | nil => rfl
  | cons c rest ih => cases c <;> simp [contributionDeletes, ih]

theorem toLower_of_not_upper (c : Char) (h : ¬ isUpperAscii c) : Char.toLower c = c := by
  unfold isUpperAscii at h
  unfold Char.toLower
  simp only []
  rw [if_neg]
  intro hc
  exact h ⟨hc.1, hc.2⟩

theorem toLower_not_upper (c : Char) : ¬ isUpperAscii (Char.toLower c) := by
  by_cases h : isUpperAscii c
  · have hc : c = Char.ofNat c.toNat := (Char.ofNat_toNat c).symm
    obtain ⟨h1, h2⟩ := h
    generalize c.toNat = n at hc h1 h2
    subst hc
    interval_cases n <;> decide
  · rw [toLower_of_not_upper c h]
    exact h

/-- The characters of a normalized key: no dot and no upper-case letter. -/
theorem emailKey_chars (email : String) :
    ∀ c ∈ (emailKey email).data, c ≠ '.' ∧ ¬ isUpperAscii c := by
  intro c hc
  unfold emailKey toLowerCase at hc
  simp only [List.map_map, List.mem_map, Function.comp] at hc
  obtain ⟨d, _, rfl⟩ := hc
  by_cases hd : Char.toLower d = '.'
  · rw [if_pos hd]
    exact ⟨by decide, by decide⟩
  · rw [if_neg hd]
    exact ⟨hd, toLower_not_upper d⟩

theorem emailKey_fixed (s : String) (h : ∀ c ∈ s.data, c ≠ '.' ∧ ¬ isUpperAscii c) :
    emailKey s = s ∧ toLowerCase s = s := by
  have h1 : s.data.map Char.toLower = s.data := by
    conv_rhs => rw [← List.map_id s.data]
    apply List.map_congr_left
    intro c hc
    exact toLower_of_not_upper c (h c hc).2
  have h2 : toLowerCase s = s := by
    unfold toLowerCase
    rw [h1]
  refine ⟨?_, h2⟩
  unfold emailKey
  rw [h2]
  have h3 : s.data.map (fun c => if c = '.' then ',' else c) = s.data := by
    conv_rhs => rw [← List.map_id s.data]
    apply List.map_congr_left
    intro c hc
    rw [if_neg (h c hc).1]
    rfl
  rw [h3]

theorem emailKey_idempotent (email : String) :
    emailKey (emailKey email) = emailKey email ∧ toLowerCase (emailKey email) = emailKey email :=
  emailKey_fixed (emailKey email) (emailKey_chars email)

theorem emailKey_ne_of_special (email : String)
    (h : ∃ c ∈ email.data, c = '.' ∨ isUpperAscii c) : emailKey email ≠ email := by
  obtain ⟨c, hc, hs⟩ := h
  intro heq
  have := emailKey_chars email c (by rw [heq]; exact hc)
  rcases hs with hs | hs
  · exact this.1 hs
  · exact this.2 hs

theorem foldl_max_ge (l : List Int) :
    ∀ acc : Int, acc ≤ l.foldl max acc ∧ ∀ x ∈ l, x ≤ l.foldl max acc := by
  induction l with
  | nil => intro acc; exact ⟨le_refl _, fun x hx => absurd hx (List.not_mem_nil x)⟩
  | cons a rest ih =>
    intro acc
    obtain ⟨h1, h2⟩ := ih (max acc a)
    simp only [List.foldl]
    refine ⟨le_trans (le_max_left acc a) h1, ?_⟩
    intro x hx
    rcases List.mem_cons.1 hx with hx | hx
    · rw [hx]; exact le_trans (le_max_right acc a) h1
    · exact h2 x hx

theorem le_mathMax (l : List Int) : ∀ x ∈ l, x ≤ mathMax l := by
  cases l with
  | nil => intro x hx; exact absurd hx (List.not_mem_nil x)
  | cons a rest =>
    intro x hx
    obtain ⟨h1, h2⟩ := foldl_max_ge rest a
    rcases List.mem_cons.1 hx with hx | hx
    · rw [hx]; exact h1
    · exact h2 x hx

theorem onSnapshot_nonempty (st : ViewState) (data : List Row) (h : data ≠ []) :
    (onSnapshot st data).lastSno
      = mathMax (data.map (fun r => parseIntOr (getProp r.data "SNO") 0)) := by
  have hpos : data.length > 0 := List.length_pos.2 h
  unfold onSnapshot
  simp only [hpos, if_true]


theorem importOps_rows (env : Env) :
    ∀ (json : List Obj) (L : Int) (d : Nat),
      List.Forall₂ (fun row op => ∃ sno : Int, op.data = importRecord env row sno) json
        (importOps env L d json) ∧
      (importOps env L d json).map WriteOp.ref = List.range' d json.length := by
  intro json
  induction json with
  | nil => intro L d; exact ⟨List.Forall₂.nil, rfl⟩
  | cons row rest ih =>
    intro L d
    obtain ⟨h1, h2⟩ := ih (assignSno (normalizeRow row) L).2 (d + 1)
    constructor
    · exact List.Forall₂.cons ⟨_, rfl⟩ h1
    · simp only [importOps, List.map_cons, List.length_cons, List.range'_succ, h2]

theorem importBatches_shape (env : Env) (lastSno : Int) (json : List Obj) :
    (∀ b ∈ (importBatches env lastSno json).dropLast, b.length = 500) ∧
    ∀ b ∈ importBatches env lastSno json, b ≠ [] := by
  obtain ⟨h1, h2, h3, h4⟩ := loopInv_importLoop env lastSno json
  have hfull : ∀ b ∈ (importLoop env lastSno json).batches, b ≠ [] := by
    intro b hb hnil
    have := h3 b hb
    rw [hnil] at this
    simp [BATCH_SIZE] at this
  unfold importBatches
  simp only []
  split
  · rename_i hpos
    constructor
    · intro b hb
      rw [List.dropLast_concat] at hb
      exact h3 b hb
    · intro b hb
      rcases List.mem_append.1 hb with hb | hb
      · exact hfull b hb
      · simp only [List.mem_singleton] at hb
        subst hb
        intro hnil
        rw [hnil] at h1
        simp only [List.length_nil] at h1
        omega
  · exact ⟨fun b hb => h3 b (List.mem_of_mem_dropLast hb), hfull⟩

theorem assignSno_ge (row : Obj) (m : Int) : m ≤ (assignSno (normalizeRow row) m).2 := by
  unfold assignSno
  split
  · split
    · simp
    · exact le_refl m
  · simp

theorem runningCounter_ge (json : List Obj) : ∀ L : Int, L ≤ runningCounter L json := by
  induction json with
  | nil => intro L; exact le_refl L
  | cons row rest ih =>
    intro L
    exact le_trans (assignSno_ge row L) (ih _)

theorem updateCounter_lastSno_cases (env : Env) (st : ViewState) (n : Int) :
    (updateCounter env st n).1.lastSno = n ∨ (updateCounter env st n).1.lastSno = st.lastSno := by
  unfold updateCounter
  simp only []
  split
  · exact Or.inl rfl
  · exact Or.inr rfl

theorem saveContribution_frame (env : Env) (st : ViewState) (ref : DocRef) (data : Obj)
    (isNew : Bool) :
    (saveContribution env st ref data isNew).1.lastSno = st.lastSno ∧
    getMetaPath (saveContribution env st ref data isNew).1 = getMetaPath st ∧
    counterWrites (saveContribution env st ref data isNew).2 = [] := by
  unfold saveContribution
  simp only []
  split <;> exact ⟨rfl, rfl, rfl⟩

/-- The counter writes and the final local counter of a bulk import. -/
theorem handleFileUpload_counter (env : Env) (st : ViewState) (file : Upload) :
    (∀ n ∈ counterWrites (handleFileUpload env st file).2, st.lastSno ≤ n) ∧
    st.lastSno ≤ (handleFileUpload env st file).1.lastSno := by
  by_cases hedit : env.canEdit = true
  · cases file with
    | noFile =>
      have e : handleFileUpload env st Upload.noFile = (st, []) := by
        unfold handleFileUpload
        simp only [hedit, Bool.not_true, Bool.false_eq_true, if_false]
      rw [e]
      exact ⟨fun n hn => absurd hn (List.not_mem_nil n), le_refl _⟩
    | unreadable msg =>
      have e : handleFileUpload env st (Upload.unreadable msg) =
          ({ st with error := some ("File upload failed: " ++ msg),
                     saveStatus := "error" }, []) := by
        unfold handleFileUpload
        simp only [hedit, Bool.not_true, Bool.false_eq_true, if_false]
      rw [e]
      exact ⟨fun n hn => absurd hn (List.not_mem_nil n), le_refl _⟩
    | sheet json =>
      by_cases hne : json = []
      · subst hne
        have e : handleFileUpload env st (Upload.sheet []) =
            ({ st with saveStatus := "saving" }, []) := by
          unfold handleFileUpload
          simp only [hedit, Bool.not_true, Bool.false_eq_true, if_false, List.length_nil,
            if_true]
        rw [e]
        exact ⟨fun n hn => absurd hn (List.not_mem_nil n), le_refl _⟩
      · cases hrej : firstRejection env ((importBatches env st.lastSno json).map
            (RemoteCall.commitBatch (getCollectionPath st))) with
        | some msg =>
          rw [handleFileUpload_rejected env st json msg hedit hne hrej]
          refine ⟨?_, le_refl _⟩
          intro n hn
          rw [counterWrites_commits] at hn
          exact absurd hn (List.not_mem_nil n)
        | none =>
          rw [handleFileUpload_resolved env st json hedit hne hrej]
          constructor
          · intro n hn
            simp only [counterWrites_append, counterWrites_commits, logAudit, counterWrites,
              List.nil_append, List.append_nil, List.mem_singleton] at hn
            rw [hn]
            exact runningCounter_ge json st.lastSno
          · show st.lastSno ≤ (updateCounter env { st with saveStatus := "saving" }
              (runningCounter st.lastSno json)).1.lastSno
            rcases updateCounter_lastSno_cases env { st with saveStatus := "saving" }
              (runningCounter st.lastSno json) with h | h
            · rw [h]; exact runningCounter_ge json st.lastSno
            · rw [h]
  · have hf : env.canEdit = false := by
      cases h : env.canEdit with
      | true => exact absurd h hedit
      | false => rfl
    have e : handleFileUpload env st file =
        ({ st with error := some "You don't have permission to upload files" }, []) := by
      unfold handleFileUpload
      simp only [hf, Bool.not_false, if_true]
    rw [e]
    exact ⟨fun n hn => absurd hn (List.not_mem_nil n), le_refl _⟩

/-- The counter write and the final local counter of a manual add. -/
theorem confirmAddRow_counter (env : Env) (st : ViewState) :
    counterWrites (confirmAddRow env st).2
      = [max (parseIntOr (getProp st.newRowData "SNO") (st.lastSno + 1)) st.lastSno] ∧
    st.lastSno ≤ (confirmAddRow env st).1.lastSno := by
  obtain ⟨f1, f2, f3⟩ := saveContribution_frame env st (DocRef.auto 0) (addRecord env st) true
  have h1 : counterWrites (confirmAddRow env st).2
      = [max (parseIntOr (getProp st.newRowData "SNO") (st.lastSno + 1)) st.lastSno] := by
    unfold confirmAddRow
    simp only [counterWrites_append, f3, updateCounter_calls, counterWrites, List.nil_append]
  have h2 : (confirmAddRow env st).1.lastSno
      = (updateCounter env (saveContribution env st (DocRef.auto 0) (addRecord env st) true).1
          (max (parseIntOr (getProp st.newRowData "SNO") (st.lastSno + 1)) st.lastSno)).1.lastSno :=
    rfl
  refine ⟨h1, ?_⟩
  rw [h2]
  rcases updateCounter_lastSno_cases env
    (saveContribution env st (DocRef.auto 0) (addRecord env st) true).1
    (max (parseIntOr (getProp st.newRowData "SNO") (st.lastSno + 1)) st.lastSno) with h | h
  · rw [h]; exact le_max_right _ _
  · rw [h, f1]

theorem splitSlash_ne_nil (cs : List Char) : splitSlash cs ≠ [] := by
  cases cs with
  | nil => simp [splitSlash]
  | cons c rest =>
    unfold splitSlash
    by_cases hc : c = '/'
    · simp [hc]
    · rw [if_neg hc]
      cases splitSlash rest <;> simp

theorem splitSlash_flatten (cs : List Char) :
    (splitSlash cs).flatten = cs.filter (fun c => c ≠ '/') := by
  induction cs with
  | nil => rfl
  | cons c rest ih =>
    unfold splitSlash
    by_cases hc : c = '/'
    · rw [if_pos hc]
      simpa [hc] using ih
    · rw [if_neg hc]
      cases hs : splitSlash rest with
      | nil => exact absurd hs (splitSlash_ne_nil rest)
      | cons seg more =>
        rw [hs] at ih
        simp only [List.flatten_cons, List.cons_append] at ih ⊢
        simp [hc, ih]

theorem splitSlash_no_slash (cs : List Char) (h : '/' ∉ cs) : splitSlash cs = [cs] := by
  induction cs with
  | nil => rfl
  | cons c rest ih =>
    have hc : c ≠ '/' := fun e => h (by simp [e])
    have hr : '/' ∉ rest := fun e => h (List.mem_cons_of_mem _ e)
    unfold splitSlash
    rw [if_neg hc, ih hr]

theorem hasDoubleSlash_no_slash (cs : List Char) (h : '/' ∉ cs) :
    hasDoubleSlash cs = false := by
  induction cs with
  | nil => rfl
  | cons c rest ih =>
    have hc : c ≠ '/' := fun e => h (by simp [e])
    have hr : '/' ∉ rest := fun e => h (List.mem_cons_of_mem _ e)
    unfold hasDoubleSlash
    cases rest with
    | nil => rfl
    | cons d more =>
      simp only [hc, decide_False, Bool.false_and, Bool.false_or]
      exact ih hr

/-- A key without `/` that is not empty names the document of that id. -/
theorem docSegments_of_no_slash (s : String) (h : '/' ∉ s.data) (hne : s ≠ "") :
    docSegments s = some [s] := by
  have hd : s.data ≠ [] := by
    intro e
    apply hne
    cases s
    simp_all
  unfold docSegments
  rw [hasDoubleSlash_no_slash _ h, splitSlash_no_slash _ h]
  simp [hd]

theorem flatten_filter_ne_nil (l : List (List Char)) :
    (l.filter (fun seg => seg ≠ [])).flatten = l.flatten := by
  induction l with
  | nil => rfl
  | cons a rest ih =>
    by_cases ha : a = []
    · simpa [ha] using ih
    · simpa [List.filter, ha] using ih

/-- The characters of the segments of a document path are the characters of
the key other than `/`. -/
theorem docSegments_chars (s : String) (p : List String) (h : docSegments s = some p) :
    (p.map String.data).flatten = s.data.filter (fun c => c ≠ '/') := by
  unfold docSegments at h
  split at h
  · exact absurd h (by simp)
  · simp only at h
    split at h
    · injection h with h
      rw [← h, List.map_map]
      have : (String.data ∘ String.mk) = id := by
        funext x
        rfl
      rw [this, List.map_id, flatten_filter_ne_nil, splitSlash_flatten]
    · exact absurd h (by simp)

theorem toLower_eq_slash (c : Char) (h : Char.toLower c = '/') : c = '/' := by
  by_cases hu : isUpperAscii c
  · exact absurd (h ▸ toLower_not_upper c : ¬ isUpperAscii (Char.toLower c)) (by
      intro _
      have hc : c = Char.ofNat c.toNat := (Char.ofNat_toNat c).symm
      obtain ⟨h1, h2⟩ := hu
      generalize c.toNat = n at hc h1 h2
      subst hc
      revert h
      interval_cases n <;> decide)
  · rw [toLower_of_not_upper c hu] at h
    exact h

theorem emailKey_no_slash (email : String) (h : '/' ∉ email.data) :
    '/' ∉ (emailKey email).data := by
  intro hc
  unfold emailKey toLowerCase at hc
  simp only [List.map_map, List.mem_map, Function.comp] at hc
  obtain ⟨d, hd, he⟩ := hc
  by_cases hdot : Char.toLower d = '.'
  · rw [if_pos hdot] at he
    exact absurd he (by decide)
  · rw [if_neg hdot] at he
    exact h (toLower_eq_slash d he ▸ hd)

theorem emailKey_ne_empty (email : String) (h : email ≠ "") : emailKey email ≠ "" := by
  intro he
  apply h
  have hl : (emailKey email).data.length = email.data.length := by
    unfold emailKey toLowerCase
    simp
  rw [he] at hl
  cases email with
  | mk data =>
    cases data with
    | nil => rfl
    | cons a b => simp at hl

/-- The document that `handleSubmit` writes for an email with a dot or an
upper-case letter is never the document the raw email names. -/
theorem docSegments_emailKey_ne (email : String)
    (h : ∃ c ∈ email.data, c = '.' ∨ isUpperAscii c) (p : List String)
    (hk : docSegments (emailKey email) = some p) : docSegments email ≠ some p := by
  intro he
  obtain ⟨c, hc, hs⟩ := h
  have hslash : c ≠ '/' := by
    rcases hs with hs | hs
    · rw [hs]; decide
    · intro e
      rw [e] at hs
      exact absurd hs (by decide)
  have h1 := docSegments_chars _ _ hk
  have h2 := docSegments_chars _ _ he
  have hmem : c ∈ email.data.filter (fun c => c ≠ '/') := by
    simp [List.mem_filter, hc, hslash]
  rw [← h2, h1] at hmem
  have hmem2 : c ∈ (emailKey email).data := (List.mem_filter.1 hmem).1
  have := emailKey_chars email c hmem2
  rcases hs with hs | hs
  · exact this.1 hs
  · exact this.2 hs

theorem lookup_filter_ne (db : UserStore) (k key : List String) (h : k ≠ key) :
    (db.filter (fun kv => kv.1 ≠ k)).lookup key = db.lookup key := by
  induction db with
  | nil => rfl
  | cons kv rest ih =>
    obtain ⟨k1, d1⟩ := kv
    by_cases h1 : k1 = k
    · subst h1
      have hb : (key == k1) = false := by simpa using fun e : key = k1 => h e.symm
      simpa [List.filter, List.lookup, hb] using ih
    · by_cases h2 : key = k1
      · subst h2
        simp [List.filter, List.lookup, h1]
      · have hb : (key == k1) = false := by simpa using h2
        simpa [List.filter, List.lookup, h1, hb] using ih

/-- A write to another document leaves the role lookup as it was. -/
theorem roleLookupIn_set_other (db : UserStore) (p : List String) (key : String) (data : Obj)
    (h : docSegments key ≠ some p) :
    roleLookupIn (applyUserCall db (UserCall.setAuthorizedUser p data)) key
      = roleLookupIn db key := by
  unfold roleLookupIn applyUserCall
  cases hq : docSegments key with
  | none => rfl
  | some q =>
    have hne : p ≠ q := fun e => h (by rw [hq, e])
    have hb : (q == p) = false := by simpa using fun e : q = p => hne e.symm
    simp only [List.lookup, hb, lookup_filter_ne db p q hne]

/-- A write to the document a key names is what the role lookup under that
key finds. -/
theorem roleLookupIn_set_same (db : UserStore) (p : List String) (key : String) (data : Obj)
    (h : docSegments key = some p) :
    roleLookupIn (applyUserCall db (UserCall.setAuthorizedUser p data)) key
      = RoleLookup.found (getProp data "role") := by
  unfold roleLookupIn applyUserCall
  rw [h]
  simp [List.lookup]

theorem handleSubmit_calls (formData : FormData) (currentEmail now : String)
    (rejects : Bool) (p : List String) (h : docSegments (emailKey formData.email) = some p) :
    (handleSubmit formData currentEmail now rejects).1
      = [UserCall.setAuthorizedUser p (submittedUser formData currentEmail now)] ∧
    (handleSubmit formData currentEmail now false).2 = [] := by
  unfold handleSubmit
  rw [h]
  cases rejects <;> exact ⟨rfl, rfl⟩

theorem handleSubmit_throws (formData : FormData) (currentEmail now : String)
    (rejects : Bool) (h : docSegments (emailKey formData.email) = none) :
    handleSubmit formData currentEmail now rejects
      = ([], ["Failed to save user. Please try again."]) := by
  unfold handleSubmit
  rw [h]

theorem saveContributionOn_trace (env : Env) (st cells : ViewState) (ref : DocRef) (data : Obj)
    (isNew : Bool) (during : List (List Row)) :
    (saveContributionOn env st cells ref data isNew during).2
      = (saveContribution env st ref data isNew).2 := by
  unfold saveContributionOn saveContribution
  simp only []
  split <;> rfl

theorem saveContributionOn_none (env : Env) (st : ViewState) (ref : DocRef) (data : Obj)
    (isNew : Bool) :
    saveContributionOn env st st ref data isNew [] = saveContribution env st ref data isNew := by
  unfold saveContributionOn saveContribution
  simp only [applySnapshots, List.foldl]

theorem updateCounterOn_trace (env : Env) (st cells : ViewState) (n : Int)
    (during : List (List Row)) :
    (updateCounterOn env st cells n during).2 = [RemoteCall.setCounter (getMetaPath st) n] := by
  unfold updateCounterOn
  simp only []
  split <;> rfl

theorem updateCounterOn_resolved (env : Env) (st cells : ViewState) (n : Int)
    (during : List (List Row))
    (h : env.rejects (RemoteCall.setCounter (getMetaPath st) n) = none) :
    (updateCounterOn env st cells n during).1
      = { applySnapshots cells during with lastSno := n } := by
  unfold updateCounterOn
  simp only [h]

theorem updateCounterOn_none (env : Env) (st cells : ViewState) (n : Int)
    (h : getMetaPath cells = getMetaPath st) :
    updateCounterOn env st cells n [] = updateCounter env cells n := by
  unfold updateCounterOn updateCounter
  simp only [applySnapshots, List.foldl, h]

theorem saveContribution_metaPath (env : Env) (st : ViewState) (ref : DocRef) (data : Obj)
    (isNew : Bool) :
    getMetaPath (saveContribution env st ref data isNew).1 = getMetaPath st := by
  unfold saveContribution
  simp only []
  split <;> rfl

/-- Without a snapshot in between, the suspended manual add is the handler
run in one step. -/
theorem confirmAddRowDuring_none (env : Env) (st : ViewState) :
    confirmAddRowDuring env st [] [] = confirmAddRow env st := by
  unfold confirmAddRowDuring confirmAddRow
  simp only [saveContributionOn_none]
  rw [updateCounterOn_none env st _ _ (saveContribution_metaPath env st _ _ _)]

theorem confirmAddRowDuring_trace (env : Env) (st : ViewState)
    (duringSave duringCounter : List (List Row)) :
    (confirmAddRowDuring env st duringSave duringCounter).2 = (confirmAddRow env st).2 := by
  unfold confirmAddRowDuring confirmAddRow
  simp only [saveContributionOn_trace, updateCounterOn_trace, updateCounter_calls]
  rw [saveContribution_metaPath]

/-- Without a snapshot in between, the suspended import is the handler run
in one step. -/
theorem handleFileUploadDuring_none (env : Env) (st : ViewState) (file : Upload) :
    handleFileUploadDuring env st file [] [] [] = handleFileUpload env st file := by
  unfold handleFileUploadDuring handleFileUpload
  have hm : getMetaPath ({ st with saveStatus := "saving" } : ViewState) = getMetaPath st := rfl
  simp only [applySnapshots, List.foldl]
  split
  · rfl
  · cases file with
    | noFile => rfl
    | unreadable msg => rfl
    | sheet json =>
      simp only []
      split
      · rfl
      · split
        · rfl
        · have := updateCounterOn_none env st { st with saveStatus := "saving" }
            (importLoop env st.lastSno json).maxSno hm
          simp only [applySnapshots, List.foldl] at this
          rw [this]

theorem handleFileUploadDuring_trace (env : Env) (st : ViewState) (file : Upload)
    (duringCommit duringCounter duringAudit : List (List Row)) :
    (handleFileUploadDuring env st file duringCommit duringCounter duringAudit).2
      = (handleFileUpload env st file).2 := by
  unfold handleFileUploadDuring handleFileUpload
  have hm : getMetaPath ({ st with saveStatus := "saving" } : ViewState) = getMetaPath st := rfl
  split
  · rfl
  · cases file with
    | noFile => rfl
    | unreadable msg => rfl
    | sheet json =>
      simp only []
      split
      · rfl
      · split
        · rfl
        · simp only [updateCounterOn_trace, updateCounter_calls, hm]

theorem floorLog2Aux_eq : ∀ (fuel n : Nat), n ≤ fuel → floorLog2Aux fuel n = Nat.log 2 n := by
  intro fuel
  induction fuel with
  | zero =>
    intro n hn
    have : n = 0 := Nat.le_zero.1 hn
    subst this
    simp [floorLog2Aux]
  | succ f ih =>
    intro n hn
    unfold floorLog2Aux
    by_cases h2 : n < 2
    · rw [if_pos h2, Nat.log_of_lt h2]
    · rw [if_neg h2]
      have hle : n / 2 ≤ f := by omega
      rw [ih _ hle]
      have h2' : 2 ≤ n := Nat.le_of_not_lt h2
      rw [Nat.log_of_one_lt_of_le (by decide) h2']

theorem floorLog2_eq (n : Nat) : floorLog2 n = Nat.log 2 n :=
  floorLog2Aux_eq n n (le_refl n)

theorem log_two_mul_pow (w k : Nat) (hw : w ≠ 0) : Nat.log 2 (w * 2 ^ k) = Nat.log 2 w + k := by
  induction k with
  | zero => simp
  | succ k ih =>
    rw [pow_succ, ← mul_assoc, Nat.log_mul_base (by decide) (by positivity), ih]
    rfl

theorem roundToDouble_whole (z : Int) (d : Nat) (hz : z ≠ 0) (hlt : z.natAbs < 2 ^ 53)
    (hd : 0 < d) :
    roundToDouble (z * (d : Int)) d
      = { mantissa := z * ((2 ^ (52 - Nat.log 2 z.natAbs) : Nat) : Int),
          exponent := (Nat.log 2 z.natAbs : Int) - 52 } := by
  have hw : z.natAbs ≠ 0 := Int.natAbs_ne_zero.2 hz
  have hL1 : 2 ^ Nat.log 2 z.natAbs ≤ z.natAbs := Nat.pow_log_le_self 2 hw
  have hL2 : z.natAbs < 2 ^ (Nat.log 2 z.natAbs + 1) := Nat.lt_pow_succ_log_self (by decide) _
  have hL : Nat.log 2 z.natAbs ≤ 52 := by
    have : 2 ^ Nat.log 2 z.natAbs < 2 ^ 53 := lt_of_le_of_lt hL1 hlt
    have := (Nat.pow_lt_pow_iff_right (by decide : 1 < 2)).1 this
    omega
  generalize hLdef : Nat.log 2 z.natAbs = L at hL1 hL2 hL
  have h0 : ¬ (z * (d : Int) = 0 ∨ d = 0) := by
    rintro (h | h)
    · rcases mul_eq_zero.1 h with h | h
      · exact hz h
      · exact hd.ne' (by exact_mod_cast h)
    · exact hd.ne' h
  have ha : (z * (d : Int)).natAbs = z.natAbs * d := by
    rw [Int.natAbs_mul, Int.natAbs_ofNat]
  unfold roundToDouble
  rw [if_neg h0]
  simp only [ha]
  generalize hs : 53 + floorLog2 d - floorLog2 (z.natAbs * d) = s
  have hquot : z.natAbs * d * 2 ^ s / d = z.natAbs * 2 ^ s := by
    rw [mul_assoc, mul_comm d, ← mul_assoc]
    exact Nat.mul_div_cancel _ hd
  have hlog : floorLog2 (z.natAbs * 2 ^ s) = L + s := by
    rw [floorLog2_eq, log_two_mul_pow _ _ hw, hLdef]
  have he : ((L + s : Nat) : Int) - (s : Int) - 52 = (L : Int) - 52 := by
    push_cast
    ring
  rw [hquot, hlog, he]
  have hneg : (-((L : Int) - 52)).toNat = 52 - L := by omega
  have hpos : ((L : Int) - 52).toNat = 0 := by omega
  rw [hneg, hpos, pow_zero, mul_one]
  have hnum : z.natAbs * d * 2 ^ (52 - L) = z.natAbs * 2 ^ (52 - L) * d := by ring
  rw [hnum, Nat.mul_div_cancel _ hd, Nat.mul_mod_left]
  have hc : ¬ (d < 2 * 0 ∨ (2 * 0 = d ∧ z.natAbs * 2 ^ (52 - L) % 2 = 1)) := by
    rintro (h | ⟨h, _⟩) <;> omega
  rw [if_neg hc]
  have hq : z.natAbs * 2 ^ (52 - L) < 2 ^ 53 := by
    calc z.natAbs * 2 ^ (52 - L) < 2 ^ (L + 1) * 2 ^ (52 - L) :=
          Nat.mul_lt_mul_of_pos_right hL2 (by positivity)
      _ = 2 ^ 53 := by
          rw [← pow_add]
          congr 1
          omega
  have hq2 : ¬ z.natAbs * 2 ^ (52 - L) = 2 ^ 53 := Nat.ne_of_lt hq
  rw [if_neg hq2, if_neg hq2]
  congr 1
  have hsign : (z * (d : Int) < 0) ↔ z < 0 := by
    constructor
    · intro h
      by_contra hn
      have : 0 ≤ z * (d : Int) := mul_nonneg (not_lt.1 hn) (by positivity)
      omega
    · intro h
      exact mul_neg_of_neg_of_pos h (by exact_mod_cast hd)
  by_cases hzn : z < 0
  · rw [if_pos (hsign.2 hzn)]
    push_cast
    rw [← Int.natCast_natAbs, Int.ofNat_natAbs_of_nonpos (le_of_lt hzn)]
    ring
  · rw [if_neg (fun h => hzn (hsign.1 h))]
    push_cast
    rw [← Int.natCast_natAbs, Int.natAbs_of_nonneg (not_lt.1 hzn)]

theorem ofInt_zero : Double.ofInt 0 = Double.zero := rfl

theorem roundToDouble_zero (d : Nat) : roundToDouble 0 d = Double.zero := by
  unfold roundToDouble
  rw [if_pos (Or.inl rfl)]

theorem ofInt_eq (z : Int) (hz : z ≠ 0) (hlt : z.natAbs < 2 ^ 53) :
    Double.ofInt z
      = { mantissa := z * ((2 ^ (52 - Nat.log 2 z.natAbs) : Nat) : Int),
          exponent := (Nat.log 2 z.natAbs : Int) - 52 } := by
  have h := roundToDouble_whole z 1 hz hlt (by decide)
  rw [Nat.cast_one, mul_one] at h
  exact h

/-- The shape of the double of a whole number below `2 ^ 53`: a negative
exponent `-k` and the mantissa `z * 2 ^ k`. -/
theorem ofInt_shape (z : Int) (hlt : z.natAbs < 2 ^ 53) :
    ∃ k : Nat, (Double.ofInt z).exponent = -(k : Int) ∧
      (Double.ofInt z).mantissa = z * ((2 ^ k : Nat) : Int) := by
  by_cases hz : z = 0
  · subst hz
    exact ⟨0, rfl, rfl⟩
  · have hL : Nat.log 2 z.natAbs ≤ 52 := by
      have hw : z.natAbs ≠ 0 := Int.natAbs_ne_zero.2 hz
      have : 2 ^ Nat.log 2 z.natAbs < 2 ^ 53 := lt_of_le_of_lt (Nat.pow_log_le_self 2 hw) hlt
      have := (Nat.pow_lt_pow_iff_right (by decide : 1 < 2)).1 this
      omega
    refine ⟨52 - Nat.log 2 z.natAbs, ?_, ?_⟩
    · rw [ofInt_eq z hz hlt]
      show (Nat.log 2 z.natAbs : Int) - 52 = _
      omega
    · rw [ofInt_eq z hz hlt]

/-- Rounding a quotient that is a whole number below `2 ^ 53` gives the
double of that number. -/
theorem roundToDouble_mul (z : Int) (d : Nat) (hlt : z.natAbs < 2 ^ 53) (hd : 0 < d) :
    roundToDouble (z * (d : Int)) d = Double.ofInt z := by
  by_cases hz : z = 0
  · subst hz
    rw [zero_mul, roundToDouble_zero]
    rfl
  · rw [roundToDouble_whole z d hz hlt hd, ofInt_eq z hz hlt]

/-- The sum of the doubles of two whole numbers is the double of their sum,
when all three are below `2 ^ 53` in absolute value. -/
theorem add_ofInt (x y : Int) (hx : x.natAbs < 2 ^ 53) (hy : y.natAbs < 2 ^ 53)
    (hxy : (x + y).natAbs < 2 ^ 53) :
    (Double.ofInt x).add (Double.ofInt y) = Double.ofInt (x + y) := by
  obtain ⟨ka, ea, ma⟩ := ofInt_shape x hx
  obtain ⟨kb, eb, mb⟩ := ofInt_shape y hy
  unfold Double.add
  simp only [ea, eb, ma, mb]
  have hmin : min (-(ka : Int)) (-(kb : Int)) = -((max ka kb : Nat) : Int) := by
    rcases le_total ka kb with h | h
    · rw [max_eq_right h, min_eq_right (by omega)]
    · rw [max_eq_left h, min_eq_left (by omega)]
  rw [hmin]
  have h1 : (-(ka : Int) - -((max ka kb : Nat) : Int)).toNat = max ka kb - ka := by
    have := le_max_left ka kb
    omega
  have h2 : (-(kb : Int) - -((max ka kb : Nat) : Int)).toNat = max ka kb - kb := by
    have := le_max_right ka kb
    omega
  have h3 : (-((max ka kb : Nat) : Int)).toNat = 0 := by omega
  have h4 : (- -((max ka kb : Nat) : Int)).toNat = max ka kb := by omega
  rw [h1, h2, h3, h4]
  have hm : x * ((2 ^ ka : Nat) : Int) * ((2 ^ (max ka kb - ka) : Nat) : Int)
      + y * ((2 ^ kb : Nat) : Int) * ((2 ^ (max ka kb - kb) : Nat) : Int)
      = (x + y) * ((2 ^ max ka kb : Nat) : Int) := by
    have p1 : (2 : Int) ^ ka * 2 ^ (max ka kb - ka) = 2 ^ max ka kb := by
      rw [← pow_add]
      congr 1
      have := le_max_left ka kb
      omega
    have p2 : (2 : Int) ^ kb * 2 ^ (max ka kb - kb) = 2 ^ max ka kb := by
      rw [← pow_add]
      congr 1
      have := le_max_right ka kb
      omega
    push_cast
    rw [mul_assoc, mul_assoc, p1, p2]
    ring
  rw [hm]
  have h5 : (x + y) * ((2 ^ max ka kb : Nat) : Int) * ((2 ^ 0 : Nat) : Int)
      = (x + y) * ((2 ^ max ka kb : Nat) : Int) := by simp
  rw [h5]
  exact roundToDouble_mul (x + y) (2 ^ max ka kb) hxy (by positivity)

theorem ofInt_toRat (z : Int) (hlt : z.natAbs < 2 ^ 53) : (Double.ofInt z).toRat = (z : ℚ) := by
  obtain ⟨k, e, m⟩ := ofInt_shape z hlt
  unfold Double.toRat
  rw [e, m]
  push_cast
  rw [zpow_neg, zpow_natCast, mul_assoc, mul_inv_cancel₀ (by positivity), mul_one]

/-- The double that `parseFloat` returns for a decimal numeral whose value
is a whole number below `2 ^ 53`. -/
theorem toDouble_whole (d : Decimal) (z : Int) (h : d.mantissa = z * 10 ^ d.scale)
    (hlt : z.natAbs < 2 ^ 53) : d.toDouble = Double.ofInt z := by
  unfold Decimal.toDouble
  rw [h]
  have := roundToDouble_mul z (10 ^ d.scale) hlt (by positivity)
  push_cast at this
  exact this

theorem decimal_toRat_whole (d : Decimal) (z : Int) (h : d.mantissa = z * 10 ^ d.scale) :
    d.toRat = (z : ℚ) := by
  unfold Decimal.toRat
  rw [h]
  push_cast
  rw [mul_div_assoc, div_self (by positivity), mul_one]

theorem natAbs_sum_le (zs : List Int) : zs.sum.natAbs ≤ (zs.map Int.natAbs).sum := by
  induction zs with
  | nil => simp
  | cons z rest ih =>
    simp only [List.sum_cons, List.map_cons]
    exact le_trans (Int.natAbs_add_le _ _) (Nat.add_le_add_left ih _)

/-- The reduce of `totalAmount` over rows whose amounts are whole numbers,
from the double of a whole number: every addition is exact while the
absolute values add up to less than `2 ^ 53`. -/
theorem foldl_add_whole (l : List Row) (zs : List Int)
    (h : List.Forall₂
      (fun r z => (amountValue r).mantissa = z * 10 ^ (amountValue r).scale) l zs) :
    ∀ acc : Int, acc.natAbs + (zs.map Int.natAbs).sum < 2 ^ 53 →
      l.foldl (fun sum row => sum.add (amountValue row).toDouble) (Double.ofInt acc)
        = Double.ofInt (acc + zs.sum) := by
  induction h with
  | nil =>
    intro acc _
    simp
  | @cons r z l zs hr _ ih =>
    intro acc hb
    simp only [List.map_cons, List.sum_cons] at hb
    simp only [List.foldl, List.sum_cons]
    have hz : z.natAbs < 2 ^ 53 := by omega
    have hacc : acc.natAbs < 2 ^ 53 := by omega
    have hsum : (acc + z).natAbs < 2 ^ 53 := by
      have := Int.natAbs_add_le acc z
      omega
    rw [toDouble_whole _ z hr hz, add_ofInt acc z hacc hz hsum, ih (acc + z) (by
      have := Int.natAbs_add_le acc z
      omega), add_assoc]

theorem foldl_map_toDouble (l : List Row) (acc : Double) :
    l.foldl (fun sum row => sum.add (amountValue row).toDouble) acc
      = (l.map (fun r => (amountValue r).toDouble)).foldl Double.add acc := by
  rw [List.foldl_map]

theorem sum_toRat_whole (l : List Row) (zs : List Int)
    (h : List.Forall₂
      (fun r z => (amountValue r).mantissa = z * 10 ^ (amountValue r).scale) l zs) :
    (l.map (fun r => (amountValue r).toRat)).sum = ((zs.sum : Int) : ℚ) := by
  induction h with
  | nil => simp
  | @cons r z l zs hr _ ih =>
    simp only [List.map_cons, List.sum_cons, ih, decimal_toRat_whole _ z hr]
    push_cast
    rfl

/-- A row whose own SNO parses to a non-zero integer is written with that
integer as its `sno` and the decimal string of it as its `SNO`. -/
theorem importOps_own_sno (env : Env) :
    ∀ (json : List Obj) (L : Int) (d : Nat),
      List.Forall₂
        (fun row op => ∀ n : Int, parseInt (getProp (normalizeRow row) "SNO") = some n →
          n ≠ 0 →
          snoOf op.data = n ∧ getProp op.data "SNO" = JSVal.str (numToString n))
        json (importOps env L d json) := by
  intro json
  induction json with
  | nil => intro L d; exact List.Forall₂.nil
  | cons row rest ih =>
    intro L d
    refine List.Forall₂.cons ?_ (ih _ _)
    intro n hn hne
    have ha : (assignSno (normalizeRow row) L).1 = n := by
      unfold assignSno
      rw [hn]
      simp [hne]
    show snoOf (importRecord env row (assignSno (normalizeRow row) L).1) = n ∧
      getProp (importRecord env row (assignSno (normalizeRow row) L).1) "SNO"
        = JSVal.str (numToString n)
    rw [ha]
    exact ⟨snoOf_importRecord env row n, importRecord_SNO env row n⟩

/-! ## Claims -/

/-- Claim C1. With edit permission, the bulk import of `K` parsed rows commits
exactly `ceil(K / 500)` write batches and no batch holds more than 500
operations. -/
theorem bulk_import_batch_count (env : Env) (st : ViewState) (json : List Obj)
    (hedit : env.canEdit = true) :
    (committedBatches (handleFileUpload env st (Upload.sheet json)).2).length
        = (json.length + 499) / 500 ∧
    ∀ b ∈ committedBatches (handleFileUpload env st (Upload.sheet json)).2,
        b.length ≤ 500 := by
  rw [handleFileUpload_batches env st json hedit]
  exact ⟨importBatches_length env st.lastSno json, importBatches_le env st.lastSno json⟩

/-- Witness for C1: three rows make one batch of three operations. -/
theorem bulk_import_batch_count_witness :
    sampleEnv.canEdit = true ∧
    (committedBatches (handleFileUpload sampleEnv emptyPartition
        (Upload.sheet threeRows)).2).length = (threeRows.length + 499) / 500 ∧
    ∀ b ∈ committedBatches (handleFileUpload sampleEnv emptyPartition
        (Upload.sheet threeRows)).2, b.length ≤ 500 :=
  ⟨rfl, bulk_import_batch_count sampleEnv emptyPartition threeRows rfl⟩

/-- Claim C2. With edit permission and batch commits that resolve, a
bulk import of `K ≥ 1` rows none of which carries an SNO value, started from the
local counter `L`, writes records whose `sno` values are `L+1, ..., L+K` in
row order, and the one value passed to the counter update is `L+K`. -/
theorem bulk_import_numbers_rows (env : Env) (st : ViewState) (json : List Obj)
    (hedit : env.canEdit = true) (hK : 1 ≤ json.length)
    (hcommit : ∀ p ops, env.rejects (RemoteCall.commitBatch p ops) = none)
    (hno : ∀ row ∈ json, carriesNoSno row) :
    (committedBatches (handleFileUpload env st (Upload.sheet json)).2).flatten.map
        (fun op => getProp op.data "sno")
      = (List.range json.length).map (fun i : Nat => JSVal.num (st.lastSno + 1 + (i : Int))) ∧
    counterWrites (handleFileUpload env st (Upload.sheet json)).2
      = [st.lastSno + (json.length : Int)] := by
  have hne : json ≠ [] := by
    intro h; rw [h] at hK; simp at hK
  have hf : ∀ row ∈ json, snoIsFalsy row = true :=
    fun row hr => snoIsFalsy_of_carriesNoSno row (hno row hr)
  obtain ⟨h1, h2⟩ := importOps_unnumbered env (fun o => getProp o "sno") JSVal.num
    (importRecord_sno env) json st.lastSno 0 hf
  rw [handleFileUpload_committed env st json hedit hne hcommit]
  constructor
  · simp only [committedBatches_append, committedBatches_map_commit, logAudit,
      committedBatches, List.append_nil, importBatches_flatten, h1]
  · simp only [counterWrites_append, counterWrites_commits, logAudit, counterWrites,
      List.nil_append, List.append_nil, h2]

/-- Witness for C2: three rows without SNO imported at counter 0. -/
theorem bulk_import_numbers_rows_witness :
    (sampleEnv.canEdit = true ∧ 1 ≤ threeRows.length ∧
      (∀ p ops, sampleEnv.rejects (RemoteCall.commitBatch p ops) = none) ∧
      (∀ row ∈ threeRows, carriesNoSno row)) ∧
    (committedBatches (handleFileUpload sampleEnv emptyPartition
        (Upload.sheet threeRows)).2).flatten.map (fun op => getProp op.data "sno")
      = (List.range threeRows.length).map
          (fun i : Nat => JSVal.num (emptyPartition.lastSno + 1 + (i : Int))) ∧
    counterWrites (handleFileUpload sampleEnv emptyPartition (Upload.sheet threeRows)).2
      = [emptyPartition.lastSno + (threeRows.length : Int)] :=
  ⟨⟨rfl, by decide, fun _ _ => rfl, by decide⟩,
   bulk_import_numbers_rows sampleEnv emptyPartition threeRows rfl (by decide)
     (fun _ _ => rfl) (by decide)⟩

/-- Claim C3. End to end, with edit permission and a store that accepts every
call: from counter 0, importing `K ≥ 1` rows that carry no SNO value writes
records with `sno` `1, ..., K`, passes `K` to the counter document, leaves
the local counter at `K` and sends exactly one audit entry, of action
`bulk_upload` with `count = K`.  A manual add made afterwards (whether or
not the snapshot has arrived; the partition was empty, so that snapshot
holds exactly the imported records) with the pre-filled `SNO` left
untouched writes one record with `sno = K + 1`, passes `K + 1`
to the counter document, leaves the local counter at `K + 1` and sends
exactly one audit entry, of action `add`. -/
theorem end_to_end_import_then_add (env : Env) (st : ViewState) (json : List Obj)
    (ids : Nat → String) (snap : Bool) (edits : List (String × String))
    (hedit : env.canEdit = true) (hok : ∀ c, env.rejects c = none)
    (hcounter : st.lastSno = 0) (hK : 1 ≤ json.length)
    (hno : ∀ row ∈ json, carriesNoSno row)
    (hform : ∀ e ∈ edits, e.1 ≠ "SNO") :
    ((committedBatches (handleFileUpload env st (Upload.sheet json)).2).flatten.map
        (fun op => getProp op.data "sno")
      = (List.range json.length).map (fun i : Nat => JSVal.num (1 + (i : Int)))) ∧
    counterWrites (handleFileUpload env st (Upload.sheet json)).2 = [(json.length : Int)] ∧
    (handleFileUpload env st (Upload.sheet json)).1.lastSno = (json.length : Int) ∧
    (∃ e, auditWrites (handleFileUpload env st (Upload.sheet json)).2 = [e] ∧
        e.action = "bulk_upload" ∧
        e.data = [("count", JSVal.num (json.length : Int))]) ∧
    (∃ d, contributionWrites (manualAdd env (afterImport env st json ids snap) edits).2 = [d] ∧
        getProp d "sno" = JSVal.num ((json.length : Int) + 1)) ∧
    counterWrites (manualAdd env (afterImport env st json ids snap) edits).2
      = [(json.length : Int) + 1] ∧
    (manualAdd env (afterImport env st json ids snap) edits).1.lastSno
      = (json.length : Int) + 1 ∧
    (∃ e, auditWrites (manualAdd env (afterImport env st json ids snap) edits).2 = [e] ∧
        e.action = "add") := by
  have hne : json ≠ [] := by
    intro h; rw [h] at hK; simp at hK
  have hcommit : ∀ p ops, env.rejects (RemoteCall.commitBatch p ops) = none :=
    fun p ops => hok _
  have hf : ∀ row ∈ json, snoIsFalsy row = true :=
    fun row hr => snoIsFalsy_of_carriesNoSno row (hno row hr)
  obtain ⟨h1, h2⟩ := importOps_unnumbered env (fun o => getProp o "sno") JSVal.num
    (importRecord_sno env) json st.lastSno 0 hf
  have himp := handleFileUpload_committed env st json hedit hne hcommit
  have hbat : committedBatches (handleFileUpload env st (Upload.sheet json)).2
      = importBatches env st.lastSno json := handleFileUpload_batches env st json hedit
  have hlast : (handleFileUpload env st (Upload.sheet json)).1.lastSno = (json.length : Int) := by
    rw [himp, updateCounter_lastSno _ _ _ (hok _), h2, hcounter]
    simp
  have hstart : (afterImport env st json ids snap).lastSno = (json.length : Int) := by
    unfold afterImport
    cases snap with
    | false => simpa using hlast
    | true =>
      simp only [if_true]
      rw [hbat, importBatches_flatten]
      obtain ⟨k, hk⟩ : ∃ k, json.length = k + 1 := ⟨json.length - 1, by omega⟩
      obtain ⟨g1, _⟩ := importOps_unnumbered env
        (fun o => parseIntOr (getProp o "SNO") 0) (fun n => n)
        (fun row sno => by
          simp only [importRecord_SNO]
          exact parseIntOr_numToString_zero sno) json st.lastSno 0 hf
      have hpos : 0 < (importOps env st.lastSno 0 json).length := by
        have := congrArg List.length g1
        simp only [List.length_map, List.length_range] at this
        omega
      have hpos2 : (snapshotOf ids (importOps env st.lastSno 0 json)).length > 0 := by
        simpa [snapshotOf] using hpos
      unfold onSnapshot
      simp only [hpos2, if_true]
      rw [snapshotOf_SNO, g1, hk, hcounter, mathMax_range]
      simp only [Nat.cast_add, Nat.cast_one]
      omega
  obtain ⟨a1, a2, a3, a4⟩ := manualAdd_prefilled env (afterImport env st json ids snap) edits
    hedit hok hform (by rw [hstart]; omega)
  rw [hstart] at a1 a2 a3
  refine ⟨?_, ?_, hlast, ?_, a1, a2, a3, a4⟩
  · rw [hbat, importBatches_flatten, h1, hcounter]
    simp
  · rw [himp]
    simp only [counterWrites_append, counterWrites_commits, logAudit, counterWrites,
      List.nil_append, List.append_nil]
    rw [h2, hcounter]
    simp
  · rw [himp]
    refine ⟨{ action := "bulk_upload", event := eventLabel st,
              data := [("count", JSVal.num (json.length : Int))], previousData := none,
              userEmail := actorEmail env.user, userName := actorName env.user },
            ?_, rfl, rfl⟩
    simp only [auditWrites_append, auditWrites_commits, logAudit, auditWrites,
      List.nil_append]

/-- Witness for C3: the scenario of the specification, `K = 3`, with the
snapshot delivered and the name typed into the form. -/
theorem end_to_end_import_then_add_witness :
    (sampleEnv.canEdit = true ∧ (∀ c, sampleEnv.rejects c = none) ∧
      emptyPartition.lastSno = 0 ∧ 1 ≤ threeRows.length ∧
      (∀ row ∈ threeRows, carriesNoSno row) ∧
      (∀ e ∈ [("NAME", "Ruth"), ("AMOUNT", "500")], e.1 ≠ "SNO")) ∧
    counterWrites (handleFileUpload sampleEnv emptyPartition (Upload.sheet threeRows)).2
      = [3] ∧
    (manualAdd sampleEnv (afterImport sampleEnv emptyPartition threeRows Nat.repr true)
        [("NAME", "Ruth"), ("AMOUNT", "500")]).1.lastSno = 4 :=
  have h := end_to_end_import_then_add sampleEnv emptyPartition threeRows Nat.repr true
    [("NAME", "Ruth"), ("AMOUNT", "500")] rfl (fun _ => rfl) rfl (by decide) (by decide)
    (by decide)
  ⟨⟨rfl, fun _ => rfl, rfl, by decide, by decide, by decide⟩, h.2.1, h.2.2.2.2.2.2.1⟩

/-- Claim C4. For every `n`, after `updateCounter(n)` whose write to the
counter document resolves, the local counter `lastSno` is at least `n`. -/
theorem updateCounter_peek_ge (env : Env) (st : ViewState) (n : Int)
    (hok : env.rejects (RemoteCall.setCounter (getMetaPath st) n) = none) :
    (updateCounter env st n).1.lastSno ≥ n := by
  rw [updateCounter_lastSno env st n hok]

/-- Witness for C4: reserving 7 on the empty partition. -/
theorem updateCounter_peek_ge_witness :
    sampleEnv.rejects (RemoteCall.setCounter (getMetaPath emptyPartition) 7) = none ∧
    (updateCounter sampleEnv emptyPartition 7).1.lastSno ≥ 7 :=
  ⟨rfl, updateCounter_peek_ge sampleEnv emptyPartition 7 rfl⟩

/-- Counterexample to C5 as stated: with the counter at 5, `updateCounter(3)`
sends 3, not `max 3 5`, to the counter document and lowers the local
counter to 3. -/
theorem updateCounter_lowers_counter :
    counterWrites (updateCounter sampleEnv { emptyPartition with lastSno := 5 } 3).2
      ≠ [max 3 5] ∧
    (updateCounter sampleEnv { emptyPartition with lastSno := 5 } 3).1.lastSno
      ≠ max 3 5 ∧
    (updateCounter sampleEnv { emptyPartition with lastSno := 5 } 3).1.lastSno
      < ({ emptyPartition with lastSno := 5 } : ViewState).lastSno := by
  decide

/-- Claim C5, amended. For every current counter value and every `n`,
`updateCounter(n)` sends exactly `n` to the counter document, and when that
write resolves it sets the local counter to `n`. -/
theorem updateCounter_persists_argument (env : Env) (st : ViewState) (n : Int) :
    counterWrites (updateCounter env st n).2 = [n] ∧
    (env.rejects (RemoteCall.setCounter (getMetaPath st) n) = none →
      (updateCounter env st n).1.lastSno = n) := by
  refine ⟨?_, fun hok => ?_⟩
  · rw [updateCounter_calls]; rfl
  · rw [updateCounter_lastSno env st n hok]

/-- Witness for C5 (amended): reserving 3 with the counter at 5. -/
theorem updateCounter_persists_argument_witness :
    sampleEnv.rejects
        (RemoteCall.setCounter (getMetaPath { emptyPartition with lastSno := 5 }) 3) = none ∧
    (updateCounter sampleEnv { emptyPartition with lastSno := 5 } 3).1.lastSno = 3 :=
  ⟨rfl,
   (updateCounter_persists_argument sampleEnv { emptyPartition with lastSno := 5 } 3).2 rfl⟩

/-- Claim C6, failing input. Importing the single row `{ SNO: "7" }` at counter
0 with every remote call resolving writes a record with `sno = 7` while
the value sent to the counter document, and the local counter, are 0. -/
theorem bulk_import_counter_below_sno :
    (committedBatches (handleFileUpload sampleEnv emptyPartition
        (Upload.sheet [[("SNO", JSVal.str "7")]])).2).flatten.map
        (fun op => getProp op.data "sno") = [JSVal.num 7] ∧
    counterWrites (handleFileUpload sampleEnv emptyPartition
        (Upload.sheet [[("SNO", JSVal.str "7")]])).2 = [0] ∧
    (handleFileUpload sampleEnv emptyPartition
        (Upload.sheet [[("SNO", JSVal.str "7")]])).1.lastSno = 0 := by
  decide

/-- Counterexample to C7 as stated: at counter 0 the rows `{ SNO: "1" }`
and `{ NAME: "Grace" }` are both written with `sno = 1`. -/
theorem bulk_import_duplicate_sno :
    (committedBatches (handleFileUpload sampleEnv emptyPartition
        (Upload.sheet [[("SNO", JSVal.str "1")], [("NAME", JSVal.str "Grace")]])).2).flatten.map
        (fun op => snoOf op.data) = [1, 1] ∧
    ¬ ((committedBatches (handleFileUpload sampleEnv emptyPartition
        (Upload.sheet [[("SNO", JSVal.str "1")], [("NAME", JSVal.str "Grace")]])).2).flatten.map
        (fun op => snoOf op.data)).Nodup := by
  decide

/-- Claim C7, amended. For every list of parsed rows and every starting
counter, the `sno` values one bulk import assigns from the running counter
(to the rows whose own SNO is missing, unparseable or zero) are strictly
increasing in row order, hence pairwise distinct, and all exceed the
starting counter; a row whose own SNO parses to a non-zero integer is
written with that integer as its `sno`, whatever the other rows hold. -/
theorem bulk_import_counter_snos_distinct (env : Env) (st : ViewState) (json : List Obj)
    (hedit : env.canEdit = true) :
    List.Pairwise (fun a b => a < b)
      (counterAssigned json
        (committedBatches (handleFileUpload env st (Upload.sheet json)).2).flatten) ∧
    (counterAssigned json
        (committedBatches (handleFileUpload env st (Upload.sheet json)).2).flatten).Nodup ∧
    (∀ x ∈ counterAssigned json
        (committedBatches (handleFileUpload env st (Upload.sheet json)).2).flatten,
      st.lastSno < x) ∧
    List.Forall₂
      (fun row op => ∀ n : Int, parseInt (getProp (normalizeRow row) "SNO") = some n →
        n ≠ 0 →
        snoOf op.data = n ∧ getProp op.data "SNO" = JSVal.str (numToString n))
      json (committedBatches (handleFileUpload env st (Upload.sheet json)).2).flatten := by
  rw [handleFileUpload_batches env st json hedit, importBatches_flatten]
  obtain ⟨h1, h2⟩ := counterAssigned_importOps env json st.lastSno 0
  exact ⟨h1, h1.imp (fun h => ne_of_lt h), h2, importOps_own_sno env json st.lastSno 0⟩

/-- Witness for C7 (amended): a sheet mixing a row with its own SNO and rows
numbered from the counter. -/
theorem bulk_import_counter_snos_distinct_witness :
    sampleEnv.canEdit = true ∧
    (counterAssigned
        [[("SNO", JSVal.str "1")], [("NAME", JSVal.str "Grace")], [("NAME", JSVal.str "John")]]
        (committedBatches (handleFileUpload sampleEnv emptyPartition
          (Upload.sheet [[("SNO", JSVal.str "1")], [("NAME", JSVal.str "Grace")],
            [("NAME", JSVal.str "John")]])).2).flatten).Nodup :=
  ⟨rfl, (bulk_import_counter_snos_distinct sampleEnv emptyPartition _ rfl).2.1⟩

/-- Counterexample to C8 as stated: the row `{ SNO: "-5" }`, whose SNO is a
negative integer, is written with `sno = -5`, not with the running counter
plus one, and the running counter is not advanced. -/
theorem import_negative_sno_kept :
    parseInt (getProp (normalizeRow [("SNO", JSVal.str "-5")]) "SNO") = some (-5) ∧
    (importStep sampleEnv (importInit 0) [("SNO", JSVal.str "-5")]).currentBatch.map
        (fun op => getProp op.data "sno") = [JSVal.num (-5)] ∧
    (importStep sampleEnv (importInit 0) [("SNO", JSVal.str "-5")]).currentBatch.map
        (fun op => getProp op.data "sno") ≠ [JSVal.num ((importInit 0).maxSno + 1)] ∧
    (importStep sampleEnv (importInit 0) [("SNO", JSVal.str "-5")]).maxSno
      ≠ (importInit 0).maxSno + 1 := by
  decide

/-- Claim C8, amended. For every parsed row in a bulk import: if
`parseInt` of its SNO field is a non-zero integer `n`, positive or negative,
the record is written with `sno = n` and `SNO = String(n)` and the running
counter is not advanced; otherwise (`parseInt` gives `NaN` or `0`: SNO
absent, empty, non-numeric or zero) the record is written with `sno` equal
to the running counter plus one and the running counter advances by one. -/
theorem import_row_numbering (env : Env) (s : ImportLoop) (row : Obj) :
    (∀ n : Int, parseInt (getProp (normalizeRow row) "SNO") = some n → n ≠ 0 →
      (∃ op : WriteOp,
          (importStep env s row).batches.flatten ++ (importStep env s row).currentBatch
            = s.batches.flatten ++ s.currentBatch ++ [op] ∧
          getProp op.data "sno" = JSVal.num n ∧
          getProp op.data "SNO" = JSVal.str (numToString n)) ∧
      (importStep env s row).maxSno = s.maxSno) ∧
    ((parseInt (getProp (normalizeRow row) "SNO") = none ∨
        parseInt (getProp (normalizeRow row) "SNO") = some 0) →
      (∃ op : WriteOp,
          (importStep env s row).batches.flatten ++ (importStep env s row).currentBatch
            = s.batches.flatten ++ s.currentBatch ++ [op] ∧
          getProp op.data "sno" = JSVal.num (s.maxSno + 1) ∧
          getProp op.data "SNO" = JSVal.str (numToString (s.maxSno + 1))) ∧
      (importStep env s row).maxSno = s.maxSno + 1) := by
  obtain ⟨h1, h2, _⟩ := importStep_flat env s row
  constructor
  · intro n hp hn
    have ha := assignSno_truthy row s.maxSno n hp hn
    rw [ha] at h1 h2
    exact ⟨⟨_, h1, importRecord_sno env row n, importRecord_SNO env row n⟩, h2⟩
  · intro hp
    have hf : snoIsFalsy row = true := by
      unfold snoIsFalsy
      rcases hp with hp | hp
      · rw [hp]
      · rw [hp]; rfl
    have ha := assignSno_falsy row s.maxSno hf
    rw [ha] at h1 h2
    exact ⟨⟨_, h1, importRecord_sno env row _, importRecord_SNO env row _⟩, h2⟩

/-- Witness for C8 (amended): the row `{ SNO: "-5" }` keeps `-5` and leaves the
running counter where it was. -/
theorem import_row_numbering_witness :
    (parseInt (getProp (normalizeRow [("SNO", JSVal.str "-5")]) "SNO") = some (-5) ∧
      (-5 : Int) ≠ 0) ∧
    (importStep sampleEnv (importInit 0) [("SNO", JSVal.str "-5")]).maxSno
      = (importInit 0).maxSno :=
  ⟨⟨by decide, by decide⟩,
   ((import_row_numbering sampleEnv (importInit 0) [("SNO", JSVal.str "-5")]).1 (-5)
      (by decide) (by decide)).2⟩

/-- Claim C9, failing inputs. An edit that changes the `SNO` input of the
record `{ SNO: "3", sno: 3 }` to `"9"` writes `SNO = "9"` with `sno = 3`; a
manual add whose `SNO` input was overtyped with `"abc"` at counter 0 writes
`SNO = "abc"` with `sno = 1`.  In both, `parseInt(SNO)` differs from `sno`. -/
theorem manual_write_sno_mismatch :
    (contributionWrites
        (saveEdit sampleEnv
          { emptyPartition with
            editingRow := some (Row.mk "doc1"
              [("SNO", JSVal.str "3"), ("NAME", JSVal.str "Grace"), ("sno", JSVal.num 3)]) }
          (fun h => if h = "SNO" then some "9" else none)).2).map
        (fun d => (getProp d "SNO", getProp d "sno", parseInt (getProp d "SNO")))
      = [(JSVal.str "9", JSVal.num 3, some 9)] ∧
    (contributionWrites
        (manualAdd sampleEnv emptyPartition [("SNO", "abc")]).2).map
        (fun d => (getProp d "SNO", getProp d "sno", parseInt (getProp d "SNO")))
      = [(JSVal.str "abc", JSVal.num 1, none)] := by
  decide

/-- Claim C10. For every cache contents and every search term, the filtered
view contains every record one of whose field values contains the term as a
substring once both are lower-cased, and the filtered view is a subsequence
of the cache in cache order. -/
theorem filteredRows_complete (rows : List Row) (search : String) :
    (∀ row ∈ rows,
      (∃ v ∈ objectValues row.data,
          includes (toLowerCase (joinElem v)) (toLowerCase search) = true) →
        row ∈ filteredRows rows search) ∧
    List.Sublist (filteredRows rows search) rows := by
  unfold filteredRows
  split
  · exact ⟨fun row hrow _ => hrow, List.Sublist.refl _⟩
  · refine ⟨?_, List.filter_sublist _⟩
    rintro row hrow ⟨v, hv, hin⟩
    exact List.mem_filter.2 ⟨hrow, matchesSearch_of_field search row v hv hin⟩

/-- Witness for C10: the record with `NAME = "Grace"` is returned for the
query `"grace"`. -/
theorem filteredRows_complete_witness :
    (∃ v ∈ objectValues [("SNO", JSVal.str "1"), ("NAME", JSVal.str "Grace")],
        includes (toLowerCase (joinElem v)) (toLowerCase "grace") = true) ∧
    ({ id := "doc2", data := [("SNO", JSVal.str "1"), ("NAME", JSVal.str "Grace")] } : Row) ∈
      filteredRows
        [{ id := "doc1", data := [("SNO", JSVal.str "2"), ("NAME", JSVal.str "John")] },
         { id := "doc2", data := [("SNO", JSVal.str "1"), ("NAME", JSVal.str "Grace")] }]
        "grace" :=
  ⟨⟨JSVal.str "Grace", by decide, by decide⟩,
   (filteredRows_complete _ "grace").1 _ (by decide)
     ⟨JSVal.str "Grace", by decide, by decide⟩⟩

/-- Claim C11. For every cache, search term and conversion of strings,
the rows sorted ascending by `SNO` or `AMOUNT` are in non-decreasing order
of the numeric key (the field with every character other than digits, `.`
and `-` deleted, parsed as a number); a missing field and a field that does
not parse have the key `0`; and the amounts `₹1,200`, `300`, `abc` come out
in the order `abc` (0), `300`, `₹1,200` (1200). -/
theorem sortedRows_numeric_ascending (f : String → Option Decimal) (rows : List Row)
    (search : String) (cfg : SortConfig)
    (hkey : cfg.key = "SNO" ∨ cfg.key = "AMOUNT") (hdir : cfg.direction = "asc") :
    List.Pairwise (fun a b => (numericKey cfg.key a).toRat ≤ (numericKey cfg.key b).toRat)
      (sortedRows f rows search cfg) ∧
    (∀ r : Row, getProp r.data cfg.key = JSVal.undefined →
      numericKey cfg.key r = Decimal.zero) ∧
    (∀ r : Row,
      parseFloatChars (stripNonNumeric
        (jsOr (getProp r.data cfg.key) (JSVal.str "")).toStr.data) = none →
      numericKey cfg.key r = Decimal.zero) ∧
    (sortedRows f amountRows "" { key := "AMOUNT", direction := "asc" }).map
        (fun r => (getProp r.data "AMOUNT", numericKey "AMOUNT" r))
      = [(JSVal.str "abc", { mantissa := 0, scale := 0 }),
         (JSVal.str "300", { mantissa := 300, scale := 0 }),
         (JSVal.str "₹1,200", { mantissa := 1200, scale := 0 })] := by
  refine ⟨?_, ?_, ?_, rfl⟩
  · have hne : cfg.key ≠ "" := by
      rcases hkey with h | h <;> rw [h] <;> decide
    unfold sortedRows
    rw [if_neg hne]
    exact arraySort_numeric_sorted f cfg hkey hdir _
  · intro r h
    unfold numericKey
    rw [h]
    rfl
  · intro r h
    unfold numericKey numericValue
    rw [h]

/-- Witness for C11: the three amounts of the specification, sorted
ascending by `AMOUNT`. -/
theorem sortedRows_numeric_ascending_witness :
    ((({ key := "AMOUNT", direction := "asc" } : SortConfig).key = "SNO" ∨
        ({ key := "AMOUNT", direction := "asc" } : SortConfig).key = "AMOUNT") ∧
      ({ key := "AMOUNT", direction := "asc" } : SortConfig).direction = "asc") ∧
    List.Pairwise
      (fun a b => (numericKey "AMOUNT" a).toRat ≤ (numericKey "AMOUNT" b).toRat)
      (sortedRows noNumber amountRows "" { key := "AMOUNT", direction := "asc" }) :=
  ⟨⟨Or.inr rfl, rfl⟩,
   (sortedRows_numeric_ascending noNumber amountRows ""
      { key := "AMOUNT", direction := "asc" } (Or.inr rfl) rfl).1⟩

/-- Claim C12. For every cache contents, search term, sort key and sort
direction, `sortedRows` is a permutation of the filtered rows; two filtered
rows for which the comparator returns `0`, in particular two rows with
equal sort keys, keep their relative order; and computing the memos leaves
the cache array `rows` as it was (the sort works on a copy). -/
theorem sortedRows_stable_permutation (f : String → Option Decimal) (rows : List Row)
    (search : String) (cfg : SortConfig) :
    List.Perm (sortedRows f rows search cfg) (filteredRows rows search) ∧
    (∀ a b : Row, List.Sublist [a, b] (filteredRows rows search) →
      compareRows f cfg a b = 0 → List.Sublist [a, b] (sortedRows f rows search cfg)) ∧
    (∀ a b : Row, List.Sublist [a, b] (filteredRows rows search) →
      sortKey cfg a = sortKey cfg b → List.Sublist [a, b] (sortedRows f rows search cfg)) ∧
    (∀ (store : ArrayStore) (rowsRef : Nat), rowsRef < store.length →
      readArray store rowsRef = rows →
      readArray (renderSorted f store rowsRef search cfg).1 rowsRef = rows ∧
      readArray (renderSorted f store rowsRef search cfg).1
          (renderSorted f store rowsRef search cfg).2 = sortedRows f rows search cfg) := by
  have hstable : ∀ a b : Row, List.Sublist [a, b] (filteredRows rows search) →
      compareRows f cfg a b = 0 → List.Sublist [a, b] (sortedRows f rows search cfg) := by
    intro a b hsub hcmp
    unfold sortedRows
    split
    · exact hsub
    · exact arraySort_pair _ _ a b (le_of_eq hcmp) hsub
  refine ⟨?_, hstable, ?_, ?_⟩
  · unfold sortedRows
    split
    · exact List.Perm.refl _
    · exact arraySort_perm _ _
  · intro a b hsub hkey
    exact hstable a b hsub (compareRows_of_sortKey_eq f cfg a b hkey)
  · intro store rowsRef hlt hrows
    have := renderSorted_spec f store rowsRef search cfg hlt
    rw [hrows] at this
    exact this

/-- Witness for C12: sorted by `NAME` descending, two records of the same
name keep their order, and the cache array is not written. -/
theorem sortedRows_stable_permutation_witness :
    (List.Sublist
        [Row.mk "doc1" [("NAME", JSVal.str "Grace"), ("AMOUNT", JSVal.str "5")],
         Row.mk "doc3" [("NAME", JSVal.str "Grace"), ("AMOUNT", JSVal.str "7")]]
        (filteredRows
          [Row.mk "doc1" [("NAME", JSVal.str "Grace"), ("AMOUNT", JSVal.str "5")],
           Row.mk "doc2" [("NAME", JSVal.str "John"), ("AMOUNT", JSVal.str "6")],
           Row.mk "doc3" [("NAME", JSVal.str "Grace"), ("AMOUNT", JSVal.str "7")]] "") ∧
      sortKey { key := "NAME", direction := "desc" }
          (Row.mk "doc1" [("NAME", JSVal.str "Grace"), ("AMOUNT", JSVal.str "5")])
        = sortKey { key := "NAME", direction := "desc" }
          (Row.mk "doc3" [("NAME", JSVal.str "Grace"), ("AMOUNT", JSVal.str "7")])) ∧
    List.Sublist
      [Row.mk "doc1" [("NAME", JSVal.str "Grace"), ("AMOUNT", JSVal.str "5")],
       Row.mk "doc3" [("NAME", JSVal.str "Grace"), ("AMOUNT", JSVal.str "7")]]
      (sortedRows noNumber
        [Row.mk "doc1" [("NAME", JSVal.str "Grace"), ("AMOUNT", JSVal.str "5")],
         Row.mk "doc2" [("NAME", JSVal.str "John"), ("AMOUNT", JSVal.str "6")],
         Row.mk "doc3" [("NAME", JSVal.str "Grace"), ("AMOUNT", JSVal.str "7")]] ""
        { key := "NAME", direction := "desc" }) :=
  ⟨⟨by decide, by decide⟩,
   (sortedRows_stable_permutation noNumber _ "" { key := "NAME", direction := "desc" }).2.2.1
     _ _ (by decide) (by decide)⟩

/-- Claim C13. For every cache contents and search term, `totalAmount` is
the sum, over the records of the filtered view in their order, of the
numeric value extracted from `AMOUNT`, added from `0` as JavaScript adds
numbers, in IEEE doubles.  The value extracted is the number that
`parseFloat` reads from the `AMOUNT` stripped of every character other than
digits, `.` and `-`; a missing `AMOUNT` and one that does not parse
contribute `0`.  When the amounts of the filtered records are whole numbers
whose absolute values add up to less than `2 ^ 53`, no addition rounds and
the total is their exact sum.  The total depends on the cache only through
the filtered view, so removing or changing a record that the search
excludes leaves it unchanged.  For the amounts `₹1,200`, `300` and `abc` the
total is 1500; for `0.1` and `0.2` it is `5404319552844596 * 2 ^ (-54)`,
the double that JavaScript prints as `0.30000000000000004`. -/
theorem totalAmount_sum_filtered (rows : List Row) (search : String) :
    totalAmount rows search
      = ((filteredRows rows search).map (fun r => (amountValue r).toDouble)).foldl
          Double.add Double.zero ∧
    (∀ (r : Row) (d : Decimal),
      parseFloatChars (stripNonNumeric
        (jsOr (getProp r.data "AMOUNT") (JSVal.num 0)).toStr.data) = some d →
      d.mantissa ≠ 0 → amountValue r = d) ∧
    (∀ r : Row, getProp r.data "AMOUNT" = JSVal.undefined →
      amountValue r = Decimal.zero ∧ (amountValue r).toDouble = Double.zero) ∧
    (∀ r : Row,
      parseFloatChars (stripNonNumeric
        (jsOr (getProp r.data "AMOUNT") (JSVal.num 0)).toStr.data) = none →
      amountValue r = Decimal.zero ∧ (amountValue r).toDouble = Double.zero) ∧
    (∀ zs : List Int,
      List.Forall₂ (fun r z => (amountValue r).mantissa = z * 10 ^ (amountValue r).scale)
        (filteredRows rows search) zs →
      (zs.map Int.natAbs).sum < 2 ^ 53 →
      totalAmount rows search = Double.ofInt zs.sum ∧
      (totalAmount rows search).toRat = ((zs.sum : Int) : ℚ) ∧
      (totalAmount rows search).toRat
        = ((filteredRows rows search).map (fun r => (amountValue r).toRat)).sum) ∧
    (∀ rows2 : List Row, filteredRows rows2 search = filteredRows rows search →
      totalAmount rows2 search = totalAmount rows search) ∧
    (∀ (l1 l2 : List Row) (r : Row), rows = l1 ++ r :: l2 → search ≠ "" →
      matchesSearch search r = false →
      totalAmount (l1 ++ l2) search = totalAmount rows search) ∧
    (∀ (l1 l2 : List Row) (r r2 : Row), rows = l1 ++ r :: l2 → search ≠ "" →
      matchesSearch search r = false → matchesSearch search r2 = false →
      totalAmount (l1 ++ r2 :: l2) search = totalAmount rows search) ∧
    amountRows.map amountValue
      = [{ mantissa := 1200, scale := 0 }, { mantissa := 300, scale := 0 }, Decimal.zero] ∧
    totalAmount amountRows "" = { mantissa := 1500 * 2 ^ 42, exponent := -42 } ∧
    tenthRows.map amountValue
      = [{ mantissa := 1, scale := 1 }, { mantissa := 2, scale := 1 }] ∧
    totalAmount tenthRows "" = { mantissa := 5404319552844596, exponent := -54 } := by
  refine ⟨?_, ?_, ?_, ?_, ?_, ?_, ?_, ?_, by decide, by decide, by decide, by decide⟩
  · unfold totalAmount
    exact foldl_map_toDouble _ _
  · intro r d h hd
    unfold amountValue numericValue
    rw [h]
    simp only [hd, if_false]
  · intro r h
    have e : amountValue r = Decimal.zero := by
      unfold amountValue
      rw [h]
      rfl
    rw [e]
    exact ⟨rfl, rfl⟩
  · intro r h
    have e : amountValue r = Decimal.zero := by
      unfold amountValue numericValue
      rw [h]
    rw [e]
    exact ⟨rfl, rfl⟩
  · intro zs hz hb
    have hfold := foldl_add_whole _ zs hz 0 (by simpa using hb)
    rw [zero_add] at hfold
    have ht : totalAmount rows search = Double.ofInt zs.sum := hfold
    have hr : (Double.ofInt zs.sum).toRat = ((zs.sum : Int) : ℚ) :=
      ofInt_toRat _ (lt_of_le_of_lt (natAbs_sum_le zs) hb)
    refine ⟨ht, ?_, ?_⟩
    · rw [ht, hr]
    · rw [ht, hr, sum_toRat_whole _ zs hz]
  · intro rows2 h
    unfold totalAmount
    rw [h]
  · intro l1 l2 r hrows hs hr
    unfold totalAmount
    rw [hrows, filteredRows_remove_excluded l1 l2 r search hs hr]
  · intro l1 l2 r r2 hrows hs hr hr2
    unfold totalAmount
    rw [hrows, filteredRows_remove_excluded l1 l2 r search hs hr,
      filteredRows_remove_excluded l1 l2 r2 search hs hr2]

/-- Witness for C13: the amounts `₹1,200`, `300` and `abc` are the whole
numbers 1200, 300 and 0, and the total is the double of 1500; with the
search `grace`, removing the excluded record of John from the cache leaves
the total as it was. -/
theorem totalAmount_sum_filtered_witness :
    (List.Forall₂ (fun r z => (amountValue r).mantissa = z * 10 ^ (amountValue r).scale)
        (filteredRows amountRows "") [1200, 300, 0] ∧
      (([1200, 300, 0] : List Int).map Int.natAbs).sum < 2 ^ 53) ∧
    totalAmount amountRows "" = Double.ofInt 1500 ∧
    (amountRows = [Row.mk "doc1" [("SNO", JSVal.str "1"), ("NAME", JSVal.str "Grace"),
          ("AMOUNT", JSVal.str "₹1,200")]] ++
        Row.mk "doc2" [("SNO", JSVal.str "2"), ("NAME", JSVal.str "John"),
          ("AMOUNT", JSVal.str "300")] ::
        [Row.mk "doc3" [("SNO", JSVal.str "3"), ("NAME", JSVal.str "Mary"),
          ("AMOUNT", JSVal.str "abc")]] ∧
      "grace" ≠ "" ∧
      matchesSearch "grace" (Row.mk "doc2" [("SNO", JSVal.str "2"), ("NAME", JSVal.str "John"),
          ("AMOUNT", JSVal.str "300")]) = false) ∧
    totalAmount
        ([Row.mk "doc1" [("SNO", JSVal.str "1"), ("NAME", JSVal.str "Grace"),
          ("AMOUNT", JSVal.str "₹1,200")]] ++
         [Row.mk "doc3" [("SNO", JSVal.str "3"), ("NAME", JSVal.str "Mary"),
          ("AMOUNT", JSVal.str "abc")]]) "grace"
      = totalAmount amountRows "grace" :=
  have hz : List.Forall₂
      (fun r z => (amountValue r).mantissa = z * 10 ^ (amountValue r).scale)
      (filteredRows amountRows "") [1200, 300, 0] :=
    List.Forall₂.cons (by decide)
      (List.Forall₂.cons (by decide) (List.Forall₂.cons (by decide) List.Forall₂.nil))
  ⟨⟨hz, by decide⟩,
   ((totalAmount_sum_filtered amountRows "").2.2.2.2.1 [1200, 300, 0] hz (by decide)).1,
   ⟨rfl, by decide, by decide⟩,
   (totalAmount_sum_filtered amountRows "grace").2.2.2.2.2.2.1 _ _ _ rfl
     (by decide) (by decide)⟩

/-- Claim C14. For every record selected for deletion, `confirmDelete` with
a delete that resolves issues exactly one delete, of that record, and
exactly one audit write, with action `delete` and with data equal to the
payload held in `deleteRow`, which the store persists when it accepts it;
`deleteRow` is the row handed to `openDeleteModal` when the delete was
requested, whatever snapshots changed the cache in between. -/
theorem confirmDelete_audit (env : Env) (st : ViewState) (row : Row)
    (hsel : st.deleteRow = some row)
    (hok : env.rejects (RemoteCall.deleteContribution (getCollectionPath st) row.id) = none) :
    (∃ e : AuditEntry, auditWrites (confirmDelete env st).2 = [e] ∧
        e.action = "delete" ∧ e.data = row.data ∧
        (env.rejects (RemoteCall.addAudit e) = none →
          auditPersisted env (confirmDelete env st).2 = [e])) ∧
    contributionDeletes (confirmDelete env st).2 = [row.id] ∧
    (∀ (st0 : ViewState) (snaps : List (List Row)), env.canDelete = true →
      (applySnapshots (openDeleteModal env st0 row).1 snaps).deleteRow = some row) := by
  rw [confirmDelete_ok env st row hsel hok]
  refine ⟨⟨_, rfl, rfl, rfl, ?_⟩, rfl, ?_⟩
  · intro h
    simp only [auditPersisted, h, if_true]
  · intro st0 snaps hdel
    rw [(applySnapshots_frame snaps _).1]
    unfold openDeleteModal
    simp only [hdel, Bool.not_true, Bool.false_eq_true, if_false]

/-- Witness for C14: Grace's record is selected, a snapshot without it
arrives, and the delete is confirmed. -/
theorem confirmDelete_audit_witness :
    ((applySnapshots (openDeleteModal sampleEnv emptyPartition graceRow).1 [[]]).deleteRow
        = some graceRow ∧
      sampleEnv.rejects (RemoteCall.deleteContribution
        (getCollectionPath
          (applySnapshots (openDeleteModal sampleEnv emptyPartition graceRow).1 [[]]))
        graceRow.id) = none) ∧
    contributionDeletes (confirmDelete sampleEnv
      (applySnapshots (openDeleteModal sampleEnv emptyPartition graceRow).1 [[]])).2
      = [graceRow.id] :=
  ⟨⟨by decide, rfl⟩,
   (confirmDelete_audit sampleEnv
      (applySnapshots (openDeleteModal sampleEnv emptyPartition graceRow).1 [[]])
      graceRow (by decide) rfl).2.1⟩

/-- Counterexample to C15 as stated: when the store rejects the primary
write, a save, a delete and a bulk import each attempt that write and
send no audit entry. -/
theorem no_audit_after_rejected_write :
    (saveContribution writesDownEnv emptyPartition (DocRef.id "doc1") graceRow.data false).2
        ≠ [] ∧
    auditWrites
      (saveContribution writesDownEnv emptyPartition (DocRef.id "doc1") graceRow.data false).2
        = [] ∧
    (confirmDelete writesDownEnv { emptyPartition with deleteRow := some graceRow }).2 ≠ [] ∧
    auditWrites
      (confirmDelete writesDownEnv { emptyPartition with deleteRow := some graceRow }).2
        = [] ∧
    (handleFileUpload writesDownEnv emptyPartition (Upload.sheet threeRows)).2 ≠ [] ∧
    auditWrites (handleFileUpload writesDownEnv emptyPartition (Upload.sheet threeRows)).2
        = [] := by
  decide

/-- Claim C15, amended. An audit entry is sent exactly when the primary
remote write resolves: a save, a delete of a selected record and a
bulk import of a non-empty sheet each send one audit entry after a primary write
that resolves (for the import: after all batch commits resolve) and none
after one that rejects. -/
theorem audit_follows_primary_write (env : Env) (st : ViewState) :
    (∀ (ref : DocRef) (data : Obj) (isNew : Bool),
      (env.rejects (RemoteCall.setContribution (getCollectionPath st) ref
          (spread data [("updatedAt", JSVal.serverTimestamp),
                        ("updatedBy", JSVal.str (actorEmail env.user))])) = none →
        ∃ e, auditWrites (saveContribution env st ref data isNew).2 = [e] ∧
          e.action = (if isNew then "add" else "edit") ∧ e.data = data) ∧
      (∀ msg, env.rejects (RemoteCall.setContribution (getCollectionPath st) ref
          (spread data [("updatedAt", JSVal.serverTimestamp),
                        ("updatedBy", JSVal.str (actorEmail env.user))])) = some msg →
        auditWrites (saveContribution env st ref data isNew).2 = [])) ∧
    (∀ row : Row, st.deleteRow = some row →
      (env.rejects (RemoteCall.deleteContribution (getCollectionPath st) row.id) = none →
        ∃ e, auditWrites (confirmDelete env st).2 = [e] ∧
          e.action = "delete" ∧ e.data = row.data) ∧
      (∀ msg, env.rejects (RemoteCall.deleteContribution (getCollectionPath st) row.id)
          = some msg →
        auditWrites (confirmDelete env st).2 = [])) ∧
    (∀ json : List Obj, env.canEdit = true → json ≠ [] →
      (firstRejection env ((importBatches env st.lastSno json).map
          (RemoteCall.commitBatch (getCollectionPath st))) = none →
        ∃ e, auditWrites (handleFileUpload env st (Upload.sheet json)).2 = [e] ∧
          e.action = "bulk_upload" ∧
          e.data = [("count", JSVal.num (json.length : Int))]) ∧
      (∀ msg, firstRejection env ((importBatches env st.lastSno json).map
          (RemoteCall.commitBatch (getCollectionPath st))) = some msg →
        auditWrites (handleFileUpload env st (Upload.sheet json)).2 = [])) := by
  refine ⟨?_, ?_, ?_⟩
  · intro ref data isNew
    constructor
    · intro hok
      rw [saveContribution_ok env st ref data isNew hok]
      exact ⟨_, rfl, rfl, rfl⟩
    · intro msg hno
      rw [saveContribution_rejected env st ref data isNew msg hno]
      rfl
  · intro row hsel
    constructor
    · intro hok
      rw [confirmDelete_ok env st row hsel hok]
      exact ⟨_, rfl, rfl, rfl⟩
    · intro msg hno
      rw [confirmDelete_rejected env st row msg hsel hno]
      rfl
  · intro json hedit hne
    constructor
    · intro hok
      rw [handleFileUpload_resolved env st json hedit hne hok]
      refine ⟨{ action := "bulk_upload", event := eventLabel st,
                data := [("count", JSVal.num (json.length : Int))], previousData := none,
                userEmail := actorEmail env.user, userName := actorName env.user },
              ?_, rfl, rfl⟩
      simp only [auditWrites_append, auditWrites_commits, logAudit, auditWrites,
        List.nil_append]
    · intro msg hno
      rw [handleFileUpload_rejected env st json msg hedit hne hno]
      exact auditWrites_commits _ _

/-- Witness for C15, amended: a save whose write the store rejects sends
no audit entry. -/
theorem audit_follows_primary_write_witness :
    writesDownEnv.rejects (RemoteCall.setContribution (getCollectionPath emptyPartition)
        (DocRef.id "doc1")
        (spread graceRow.data [("updatedAt", JSVal.serverTimestamp),
          ("updatedBy", JSVal.str (actorEmail writesDownEnv.user))])) = some "unavailable" ∧
    auditWrites
      (saveContribution writesDownEnv emptyPartition (DocRef.id "doc1") graceRow.data false).2
        = [] :=
  ⟨rfl,
   ((audit_follows_primary_write writesDownEnv emptyPartition).1 (DocRef.id "doc1")
      graceRow.data false).2 "unavailable" rfl⟩

/-- Claim C16. After a primary write that resolves, the outcome of the audit
write, in particular its rejection, stays inside `logAudit`: a save, a
delete and a bulk import end with save status `saved` and the error message
they started with, and their trace holds the primary write, the audit write
(after the counter write for the import) and nothing that undoes it. -/
theorem audit_failure_swallowed (env : Env) (st : ViewState) :
    (∀ (ref : DocRef) (data : Obj) (isNew : Bool),
      env.rejects (RemoteCall.setContribution (getCollectionPath st) ref
          (spread data [("updatedAt", JSVal.serverTimestamp),
                        ("updatedBy", JSVal.str (actorEmail env.user))])) = none →
      (saveContribution env st ref data isNew).1 = { st with saveStatus := "saved" } ∧
      (saveContribution env st ref data isNew).2 =
        [RemoteCall.setContribution (getCollectionPath st) ref
            (spread data [("updatedAt", JSVal.serverTimestamp),
                          ("updatedBy", JSVal.str (actorEmail env.user))]),
         RemoteCall.addAudit
            { action := if isNew then "add" else "edit", event := eventLabel st,
              data := data, previousData := none, userEmail := actorEmail env.user,
              userName := actorName env.user }]) ∧
    (∀ row : Row, st.deleteRow = some row →
      env.rejects (RemoteCall.deleteContribution (getCollectionPath st) row.id) = none →
      (confirmDelete env st).1
        = { st with saveStatus := "saved", showDeleteModal := false, deleteRow := none } ∧
      (confirmDelete env st).2 =
        [RemoteCall.deleteContribution (getCollectionPath st) row.id,
         RemoteCall.addAudit
            { action := "delete", event := eventLabel st, data := row.data,
              previousData := none, userEmail := actorEmail env.user,
              userName := actorName env.user }]) ∧
    (∀ json : List Obj, env.canEdit = true → json ≠ [] →
      firstRejection env ((importBatches env st.lastSno json).map
          (RemoteCall.commitBatch (getCollectionPath st))) = none →
      (handleFileUpload env st (Upload.sheet json)).1.saveStatus = "saved" ∧
      (handleFileUpload env st (Upload.sheet json)).1.error = st.error ∧
      (handleFileUpload env st (Upload.sheet json)).2 =
        (importBatches env st.lastSno json).map
            (RemoteCall.commitBatch (getCollectionPath st)) ++
          [RemoteCall.setCounter (getMetaPath st) (runningCounter st.lastSno json)] ++
          [RemoteCall.addAudit
            { action := "bulk_upload", event := eventLabel st,
              data := [("count", JSVal.num (json.length : Int))], previousData := none,
              userEmail := actorEmail env.user, userName := actorName env.user }] ∧
      contributionDeletes (handleFileUpload env st (Upload.sheet json)).2 = []) := by
  refine ⟨?_, ?_, ?_⟩
  · intro ref data isNew hok
    rw [saveContribution_ok env st ref data isNew hok]
    exact ⟨rfl, rfl⟩
  · intro row hsel hok
    rw [confirmDelete_ok env st row hsel hok]
    exact ⟨rfl, rfl⟩
  · intro json hedit hne hok
    rw [handleFileUpload_resolved env st json hedit hne hok]
    refine ⟨rfl, ?_, rfl, ?_⟩
    · exact (updateCounter_error env _ _).1
    · simp only [contributionDeletes_append, contributionDeletes_commits, logAudit,
        contributionDeletes, List.append_nil]

/-- Witness for C16: with an audit log that rejects every write, a save
whose primary write resolves still ends `saved`, with no error message and
no audit entry persisted. -/
theorem audit_failure_swallowed_witness :
    auditDownEnv.rejects (RemoteCall.setContribution (getCollectionPath emptyPartition)
        (DocRef.id "doc1")
        (spread graceRow.data [("updatedAt", JSVal.serverTimestamp),
          ("updatedBy", JSVal.str (actorEmail auditDownEnv.user))])) = none ∧
    auditPersisted auditDownEnv
      (saveContribution auditDownEnv emptyPartition (DocRef.id "doc1") graceRow.data false).2
        = [] ∧
    (saveContribution auditDownEnv emptyPartition (DocRef.id "doc1") graceRow.data false).1
      = { emptyPartition with saveStatus := "saved" } :=
  ⟨rfl, by decide,
   ((audit_failure_swallowed auditDownEnv emptyPartition).1 (DocRef.id "doc1")
      graceRow.data false rfl).1⟩

/-- Claim C17. A counter write that rejects is swallowed by `updateCounter`:
the view state, with the local counter and the error message, is left as it
was.  A bulk import whose commits resolve then still ends `saved` with its
records committed and its audit entry sent, and a manual add still closes
the modal after its save; neither changes the local counter. -/
theorem counter_failure_swallowed (env : Env) (st : ViewState) :
    (∀ (n : Int) (msg : String),
      env.rejects (RemoteCall.setCounter (getMetaPath st) n) = some msg →
      updateCounter env st n = (st, [RemoteCall.setCounter (getMetaPath st) n])) ∧
    (∀ (json : List Obj) (msg : String), env.canEdit = true → json ≠ [] →
      firstRejection env ((importBatches env st.lastSno json).map
          (RemoteCall.commitBatch (getCollectionPath st))) = none →
      env.rejects (RemoteCall.setCounter (getMetaPath st) (runningCounter st.lastSno json))
        = some msg →
      (handleFileUpload env st (Upload.sheet json)).1 = { st with saveStatus := "saved" } ∧
      committedBatches (handleFileUpload env st (Upload.sheet json)).2
        = importBatches env st.lastSno json ∧
      contributionDeletes (handleFileUpload env st (Upload.sheet json)).2 = [] ∧
      ∃ e, auditWrites (handleFileUpload env st (Upload.sheet json)).2 = [e] ∧
        e.action = "bulk_upload" ∧ e.data = [("count", JSVal.num (json.length : Int))]) ∧
    (∀ msg : String,
      env.rejects (RemoteCall.setCounter (getMetaPath st)
          (max (parseIntOr (getProp st.newRowData "SNO") (st.lastSno + 1)) st.lastSno))
        = some msg →
      (confirmAddRow env st).1 =
        { (saveContribution env st (DocRef.auto 0) (addRecord env st) true).1 with
          showAddModal := false, newRowData := [] } ∧
      (confirmAddRow env st).1.lastSno = st.lastSno ∧
      (confirmAddRow env st).2 =
        (saveContribution env st (DocRef.auto 0) (addRecord env st) true).2 ++
          [RemoteCall.setCounter (getMetaPath st)
            (max (parseIntOr (getProp st.newRowData "SNO") (st.lastSno + 1)) st.lastSno)] ∧
      (env.rejects (RemoteCall.setContribution (getCollectionPath st) (DocRef.auto 0)
          (spread (addRecord env st) [("updatedAt", JSVal.serverTimestamp),
            ("updatedBy", JSVal.str (actorEmail env.user))])) = none →
        (confirmAddRow env st).1.error = st.error ∧
        (confirmAddRow env st).1.saveStatus = "saved")) := by
  refine ⟨?_, ?_, ?_⟩
  · intro n msg h
    exact updateCounter_rejected env st n msg h
  · intro json msg hedit hne hok hno
    have hno2 : env.rejects (RemoteCall.setCounter (getMetaPath { st with saveStatus := "saving" })
        (runningCounter st.lastSno json)) = some msg := hno
    rw [handleFileUpload_resolved env st json hedit hne hok,
      updateCounter_rejected env _ _ msg hno2]
    refine ⟨rfl, ?_, ?_, ?_⟩
    · simp only [committedBatches_append, committedBatches_map_commit, logAudit,
        committedBatches, List.append_nil]
    · simp only [contributionDeletes_append, contributionDeletes_commits, logAudit,
        contributionDeletes, List.append_nil]
    · refine ⟨{ action := "bulk_upload", event := eventLabel st,
                data := [("count", JSVal.num (json.length : Int))], previousData := none,
                userEmail := actorEmail env.user, userName := actorName env.user },
              ?_, rfl, rfl⟩
      simp only [auditWrites_append, auditWrites_commits, logAudit, auditWrites,
        List.nil_append]
  · intro msg hno
    have hpath : getMetaPath (saveContribution env st (DocRef.auto 0) (addRecord env st) true).1
        = getMetaPath st := by
      unfold saveContribution
      simp only []
      split <;> rfl
    have hlast : (saveContribution env st (DocRef.auto 0) (addRecord env st) true).1.lastSno
        = st.lastSno := by
      unfold saveContribution
      simp only []
      split <;> rfl
    have hno2 : env.rejects (RemoteCall.setCounter
        (getMetaPath (saveContribution env st (DocRef.auto 0) (addRecord env st) true).1)
        (max (parseIntOr (getProp st.newRowData "SNO") (st.lastSno + 1)) st.lastSno))
          = some msg := by rw [hpath]; exact hno
    have hc : confirmAddRow env st =
        ({ (saveContribution env st (DocRef.auto 0) (addRecord env st) true).1 with
            showAddModal := false, newRowData := [] },
         (saveContribution env st (DocRef.auto 0) (addRecord env st) true).2 ++
          [RemoteCall.setCounter (getMetaPath st)
            (max (parseIntOr (getProp st.newRowData "SNO") (st.lastSno + 1)) st.lastSno)]) := by
      unfold confirmAddRow
      simp only [updateCounter_rejected env _ _ msg hno2, hpath]
    rw [hc]
    refine ⟨rfl, hlast, rfl, ?_⟩
    intro hok
    rw [saveContribution_ok env st _ _ true hok]
    exact ⟨rfl, rfl⟩

/-- Witness for C17: with a counter document that rejects every write,
the bulk import of three rows leaves the local counter at 0 and ends `saved`. -/
theorem counter_failure_swallowed_witness :
    (counterDownEnv.canEdit = true ∧ threeRows ≠ [] ∧
      firstRejection counterDownEnv ((importBatches counterDownEnv emptyPartition.lastSno
          threeRows).map (RemoteCall.commitBatch (getCollectionPath emptyPartition))) = none ∧
      counterDownEnv.rejects (RemoteCall.setCounter (getMetaPath emptyPartition)
          (runningCounter emptyPartition.lastSno threeRows)) = some "counter unavailable") ∧
    (handleFileUpload counterDownEnv emptyPartition (Upload.sheet threeRows)).1
      = { emptyPartition with saveStatus := "saved" } :=
  ⟨⟨rfl, by decide, by decide, rfl⟩,
   ((counter_failure_swallowed counterDownEnv emptyPartition).2.1 threeRows
      "counter unavailable" rfl (by decide) (by decide) rfl).1⟩

/-- Claim C18. For a user without edit permission, `handleFileUpload`,
`openAddModal` and `openEditModal`, and for a user without delete
permission `openDeleteModal`, make no remote call and change nothing in the
view state but the error message, which they set: no modal is opened. -/
theorem permission_denied_no_effect (env : Env) (st : ViewState) :
    (env.canEdit = false →
      (∀ file : Upload,
        handleFileUpload env st file =
          ({ st with error := some "You don't have permission to upload files" }, [])) ∧
      openAddModal env st =
        ({ st with error := some "You don't have permission to add contributions" }, []) ∧
      (∀ row : Row,
        openEditModal env st row =
          ({ st with error := some "You don't have permission to edit contributions" },
           []))) ∧
    (env.canDelete = false →
      ∀ row : Row,
        openDeleteModal env st row =
          ({ st with error := some "You don't have permission to delete contributions" },
           [])) := by
  constructor
  · intro h
    refine ⟨?_, ?_, ?_⟩
    · intro file
      unfold handleFileUpload
      simp only [h, Bool.not_false, if_true]
    · unfold openAddModal
      simp only [h, Bool.not_false, if_true]
    · intro row
      unfold openEditModal
      simp only [h, Bool.not_false, if_true]
  · intro h row
    unfold openDeleteModal
    simp only [h, Bool.not_false, if_true]

/-- Witness for C18: a viewer asking to delete Grace's record gets the
message, and neither a remote call nor the delete modal. -/
theorem permission_denied_no_effect_witness :
    viewerEnv.canDelete = false ∧
    (openDeleteModal viewerEnv emptyPartition graceRow).2 = [] ∧
    (openDeleteModal viewerEnv emptyPartition graceRow).1.showDeleteModal = false ∧
    (openDeleteModal viewerEnv emptyPartition graceRow).1.error
      = some "You don't have permission to delete contributions" :=
  have h := (permission_denied_no_effect viewerEnv emptyPartition).2 rfl graceRow
  ⟨rfl, congrArg Prod.snd h, congrArg (fun p => p.1.showDeleteModal) h,
   congrArg (fun p => p.1.error) h⟩

/-- Claim C19. For every current user and every authorized-user entry whose
id equals the current user's email lowercased with every `.` replaced by
`,`, `handleDeleteUser` issues no remote delete (it only shows an alert),
whatever the answer to the confirmation would be. -/
theorem handleDeleteUser_self (currentEmail : String) (confirmed rejects : Bool)
    (user : UserEntry) (hself : user.id = emailKey currentEmail) :
    (handleDeleteUser currentEmail confirmed rejects user).1 = [] ∧
    (handleDeleteUser currentEmail confirmed rejects user).2
      = ["You cannot delete your own account!"] := by
  unfold handleDeleteUser
  rw [if_pos hself]
  exact ⟨rfl, rfl⟩

/-- Witness for C19: `Jane.Doe@Example.org` cannot delete the entry
`jane,doe@example,org`. -/
theorem handleDeleteUser_self_witness :
    (UserEntry.mk "jane,doe@example,org" "jane.doe@example.org").id
      = emailKey "Jane.Doe@Example.org" ∧
    (handleDeleteUser "Jane.Doe@Example.org" true false
      (UserEntry.mk "jane,doe@example,org" "jane.doe@example.org")).1 = [] :=
  ⟨by decide,
   (handleDeleteUser_self "Jane.Doe@Example.org" true false
      (UserEntry.mk "jane,doe@example,org" "jane.doe@example.org") (by decide)).1⟩

/-- Claim C20. For every signed-in user whose role lookup finds no document,
finds a document whose role is missing (or otherwise falsy), or fails with
an error, `AuthProvider` sets the role to `admin`. -/
theorem unknown_user_is_admin (lookup : String → RoleLookup) (u : User) :
    (∀ email, u.email = some email → lookup email = RoleLookup.missing →
      (onAuthStateChanged lookup (some u)).userRole = some (JSVal.str ROLE_ADMIN)) ∧
    (∀ email role, u.email = some email → lookup email = RoleLookup.found role →
      isFalsy role = true →
      (onAuthStateChanged lookup (some u)).userRole = some (JSVal.str ROLE_ADMIN)) ∧
    (∀ email msg, u.email = some email → lookup email = RoleLookup.failed msg →
      (onAuthStateChanged lookup (some u)).userRole = some (JSVal.str ROLE_ADMIN)) ∧
    ROLE_ADMIN = "admin" := by
  refine ⟨?_, ?_, ?_, rfl⟩
  · intro email he hl
    unfold onAuthStateChanged
    simp only [he, hl]
  · intro email role he hl hf
    unfold onAuthStateChanged
    simp only [he, hl, jsOr, hf, if_true]
  · intro email msg he hl
    unfold onAuthStateChanged
    simp only [he, hl]

/-- Witness for C20: a user whose document exists without a role. -/
theorem unknown_user_is_admin_witness :
    ((User.mk (some "new@example.org") none).email = some "new@example.org" ∧
      (fun _ : String => RoleLookup.found JSVal.undefined) "new@example.org"
        = RoleLookup.found JSVal.undefined ∧
      isFalsy JSVal.undefined = true) ∧
    (onAuthStateChanged (fun _ => RoleLookup.found JSVal.undefined)
      (some (User.mk (some "new@example.org") none))).userRole = some (JSVal.str "admin") :=
  ⟨⟨rfl, rfl, rfl⟩,
   (unknown_user_is_admin (fun _ => RoleLookup.found JSVal.undefined)
      (User.mk (some "new@example.org") none)).2.1 "new@example.org" JSVal.undefined
      rfl rfl rfl⟩

/-- Claim C21. For every role value: `canEdit` holds exactly when the role
is `admin` or `editor`; `canDelete` and `canManageUsers` hold exactly when
the role is `admin`; a viewer, and a user with no role, has none of the
three. -/
theorem role_permissions (userRole : Option JSVal) :
    (canEdit userRole = true ↔
      userRole = some (JSVal.str "admin") ∨ userRole = some (JSVal.str "editor")) ∧
    (canDelete userRole = true ↔ userRole = some (JSVal.str "admin")) ∧
    (canManageUsers userRole = true ↔ userRole = some (JSVal.str "admin")) ∧
    (canEdit (some (JSVal.str ROLE_VIEWER)) = false ∧
      canDelete (some (JSVal.str ROLE_VIEWER)) = false ∧
      canManageUsers (some (JSVal.str ROLE_VIEWER)) = false) ∧
    (canEdit none = false ∧ canDelete none = false ∧ canManageUsers none = false) ∧
    (canEdit (some JSVal.undefined) = false ∧ canDelete (some JSVal.undefined) = false ∧
      canManageUsers (some JSVal.undefined) = false) := by
  refine ⟨?_, ?_, ?_, by decide, by decide, by decide⟩
  · unfold canEdit isEditor ROLE_EDITOR ROLE_ADMIN
    simp only [Bool.or_eq_true, decide_eq_true_eq]
    exact Or.comm
  · unfold canDelete isAdmin ROLE_ADMIN
    simp only [decide_eq_true_eq]
  · unfold canManageUsers isAdmin ROLE_ADMIN
    simp only [decide_eq_true_eq]

/-- Claim C22. When the uploaded file parses to zero rows, the bulk import
makes no remote call at all: it commits no batch, writes no counter and
sends no audit entry. -/
theorem empty_upload_no_remote_call (env : Env) (st : ViewState) :
    (handleFileUpload env st (Upload.sheet [])).2 = [] ∧
    committedBatches (handleFileUpload env st (Upload.sheet [])).2 = [] ∧
    counterWrites (handleFileUpload env st (Upload.sheet [])).2 = [] ∧
    auditWrites (handleFileUpload env st (Upload.sheet [])).2 = [] := by
  have h : (handleFileUpload env st (Upload.sheet [])).2 = [] := by
    unfold handleFileUpload
    cases env.canEdit <;> rfl
  rw [h]
  exact ⟨rfl, rfl, rfl, rfl⟩

/-- Claim C23, failing input. For an editor, the upload of a sheet with no
rows on a view whose save status is empty leaves the save status at
`saving`: `setSaveStatus("saving")` runs before the early return and
nothing resets it.  The error message is left as it was. -/
theorem empty_upload_leaves_saving :
    sampleEnv.canEdit = true ∧ emptyPartition.saveStatus = "" ∧
    (handleFileUpload sampleEnv emptyPartition (Upload.sheet [])).1.saveStatus = "saving" ∧
    (handleFileUpload sampleEnv emptyPartition (Upload.sheet [])).1.error
      = emptyPartition.error := by
  decide

/-- Counterexample to C24 as stated, for both lower bounds.  With the local
counter at 10, a snapshot holding only the record with `SNO = "1"` sets the
local counter to 1, below its previous value.  And a snapshot holding only
the record a manual add wrote with `sno = 50` and an empty `SNO` sets the
local counter to 0, below the maximum `sno` of the snapshot: the handler
reads the `SNO` strings, not the `sno` fields. -/
theorem snapshot_lowers_counter :
    ({ emptyPartition with lastSno := 10 } : ViewState).lastSno = 10 ∧
    (snapshotHandler { emptyPartition with lastSno := 10 } [graceRow]).1.lastSno = 1 ∧
    (snapshotHandler { emptyPartition with lastSno := 10 } [graceRow]).1.lastSno
      < ({ emptyPartition with lastSno := 10 } : ViewState).lastSno ∧
    contributionWrites
        (confirmAddRow sampleEnv
          (changeNewRow
            (changeNewRow
              (changeNewRow
                (openAddModal sampleEnv { emptyPartition with lastSno := 49 }).1
                "SNO" "")
              "NAME" "Ruth")
            "AMOUNT" "500")).2
      = [blankSnoRow.data] ∧
    snoOf blankSnoRow.data = 50 ∧
    mathMax ([blankSnoRow].map (fun r => snoOf r.data)) = 50 ∧
    (snapshotHandler { emptyPartition with lastSno := 50 } [blankSnoRow]).1.lastSno = 0 ∧
    (snapshotHandler { emptyPartition with lastSno := 50 } [blankSnoRow]).1.lastSno
      < mathMax ([blankSnoRow].map (fun r => snoOf r.data)) := by
  decide

/-- Claim C24, amended. For every non-empty snapshot the subscription
handler sets the local counter to the maximum of `parseInt(SNO) || 0` over
the snapshot, so the counter is at least that value for every record of the
snapshot but may fall below its previous value; that maximum is the maximum
`sno` of the snapshot when the `SNO` of every record is the decimal string
of its `sno`; an empty snapshot leaves the local counter as it was; and the
handler makes no remote call, so it writes nothing to the persisted
counter. -/
theorem snapshot_sets_counter (st : ViewState) (data : List Row) :
    (data ≠ [] →
      (snapshotHandler st data).1.lastSno
        = mathMax (data.map (fun r => parseIntOr (getProp r.data "SNO") 0)) ∧
      (∀ r ∈ data,
        parseIntOr (getProp r.data "SNO") 0 ≤ (snapshotHandler st data).1.lastSno) ∧
      ((∀ r ∈ data, getProp r.data "SNO" = JSVal.str (numToString (snoOf r.data))) →
        (snapshotHandler st data).1.lastSno = mathMax (data.map (fun r => snoOf r.data)) ∧
        ∀ r ∈ data, snoOf r.data ≤ (snapshotHandler st data).1.lastSno)) ∧
    (data = [] → (snapshotHandler st data).1.lastSno = st.lastSno) ∧
    (snapshotHandler st data).2 = [] ∧
    counterWrites (snapshotHandler st data).2 = [] := by
  refine ⟨?_, ?_, rfl, rfl⟩
  · intro h
    have e : (snapshotHandler st data).1.lastSno
        = mathMax (data.map (fun r => parseIntOr (getProp r.data "SNO") 0)) :=
      onSnapshot_nonempty st data h
    refine ⟨e, ?_, ?_⟩
    · intro r hr
      rw [e]
      exact le_mathMax _ _ (List.mem_map.2 ⟨r, hr, rfl⟩)
    · intro hs
      have hmap : data.map (fun r => parseIntOr (getProp r.data "SNO") 0)
          = data.map (fun r => snoOf r.data) := by
        apply List.map_congr_left
        intro r hr
        show parseIntOr (getProp r.data "SNO") 0 = snoOf r.data
        rw [hs r hr]
        exact parseIntOr_numToString_zero _
      rw [e, hmap]
      refine ⟨rfl, ?_⟩
      intro r hr
      exact le_mathMax _ _ (List.mem_map.2 ⟨r, hr, rfl⟩)
  · intro h
    rw [h]
    rfl

/-- Witness for C24, amended: the snapshot with Grace's record, whose `SNO`
is `1`, at counter 10. -/
theorem snapshot_sets_counter_witness :
    [graceRow] ≠ [] ∧
    (snapshotHandler { emptyPartition with lastSno := 10 } [graceRow]).1.lastSno
      = mathMax ([graceRow].map (fun r => parseIntOr (getProp r.data "SNO") 0)) :=
  ⟨by decide,
   ((snapshot_sets_counter { emptyPartition with lastSno := 10 } [graceRow]).1
      (by decide)).1⟩

/-- Claim C25, failing input. With the local counter at 7, switching to a
partition that has no counter document and whose snapshot is empty leaves
the local counter at 7, in either order of the two callbacks, while the
same partition opened first has the counter 0. -/
theorem partition_switch_keeps_counter :
    (fetchCounter
        (onSnapshot (selectPartition { emptyPartition with lastSno := 7 } "easter" 2025) [])
        CounterFetch.missing).lastSno = 7 ∧
    (onSnapshot
        (fetchCounter (selectPartition { emptyPartition with lastSno := 7 } "easter" 2025)
          CounterFetch.missing) []).lastSno = 7 ∧
    getMetaPath (selectPartition { emptyPartition with lastSno := 7 } "easter" 2025)
      = "events/easter-2025/meta/counter" ∧
    (fetchCounter (onSnapshot emptyPartition []) CounterFetch.missing).lastSno = 0 := by
  decide

/-- Claim C26, failing input. The export of a cache holding the record a
manual add wrote keeps `addedAt` and `addedBy`: the destructuring takes out
`sno`, `updatedAt`, `updatedBy`, `uploadedAt` and `uploadedBy` only. -/
theorem export_keeps_added_stamps :
    (handleDownloadExcel { emptyPartition with rows := [addedRow] }).2
      = some [[("SNO", JSVal.str "4"), ("DATE", JSVal.str "25-Dec-2024"),
               ("NAME", JSVal.str "Ruth"), ("PHONE", JSVal.str ""),
               ("AMOUNT", JSVal.str "500"), ("addedAt", JSVal.serverTimestamp),
               ("addedBy", JSVal.str "editor@example.org")]] ∧
    "addedAt" ∈ bookkeepingFields ∧ "addedBy" ∈ bookkeepingFields ∧
    getProp addedRow.data "addedAt" = JSVal.serverTimestamp ∧
    getProp addedRow.data "addedBy" = JSVal.str "editor@example.org" := by
  decide

/-- Claim C27. The role lookup of `AuthProvider` reads the document the raw
email names, while `handleSubmit` writes the document the normalized key
names (lowercased, every `.` replaced by `,`).  For every email that holds
a `.` or an upper-case letter the two keys differ.  Whenever the normalized
key names a document, as it does for every such email without `/`, the save
makes exactly one write, to that document, and after a save that resolves
the lookup under the normalized key finds the saved role; when the key
names no document the save makes no call and shows the failure alert.  In
every case the save changes neither what the lookup under the raw email
finds nor the role `AuthProvider` sets. -/
theorem role_key_mismatch (email : String)
    (h : ∃ c ∈ email.data, c = '.' ∨ isUpperAscii c) :
    emailKey email ≠ email ∧
    ('/' ∉ email.data →
      docSegments (emailKey email) = some [emailKey email] ∧
      docSegments email = some [email]) ∧
    (∀ (formData : FormData) (currentEmail now : String) (db : UserStore),
      formData.email = email →
      (∀ path : List String, docSegments (emailKey email) = some path →
        (∀ rejects : Bool,
          (handleSubmit formData currentEmail now rejects).1
            = [UserCall.setAuthorizedUser path
                (submittedUser formData currentEmail now)]) ∧
        (handleSubmit formData currentEmail now false).2 = [] ∧
        getProp (submittedUser formData currentEmail now) "role" = formData.role ∧
        roleLookupIn
            ((handleSubmit formData currentEmail now false).1.foldl applyUserCall db)
            (emailKey email)
          = RoleLookup.found formData.role) ∧
      (docSegments (emailKey email) = none →
        ∀ rejects : Bool,
          handleSubmit formData currentEmail now rejects
            = ([], ["Failed to save user. Please try again."])) ∧
      (∀ rejects : Bool,
        roleLookupIn
            ((handleSubmit formData currentEmail now rejects).1.foldl applyUserCall db) email
          = roleLookupIn db email ∧
        ∀ u : User, u.email = some email →
          onAuthStateChanged
              (roleLookupIn
                ((handleSubmit formData currentEmail now rejects).1.foldl applyUserCall db))
              (some u)
            = onAuthStateChanged (roleLookupIn db) (some u))) := by
  have hne := emailKey_ne_of_special email h
  have hemp : email ≠ "" := by
    obtain ⟨c, hc, _⟩ := h
    intro e
    rw [e] at hc
    exact absurd hc (List.not_mem_nil c)
  refine ⟨hne, ?_, ?_⟩
  · intro hs
    exact ⟨docSegments_of_no_slash _ (emailKey_no_slash email hs) (emailKey_ne_empty email hemp),
      docSegments_of_no_slash _ hs hemp⟩
  · intro formData currentEmail now db hform
    refine ⟨?_, ?_, ?_⟩
    · intro path hp
      have hp2 : docSegments (emailKey formData.email) = some path := by rw [hform]; exact hp
      have hc := fun rejects => (handleSubmit_calls formData currentEmail now rejects path hp2).1
      refine ⟨hc, (handleSubmit_calls formData currentEmail now false path hp2).2, rfl, ?_⟩
      rw [hc false]
      exact roleLookupIn_set_same db path (emailKey email) _ hp
    · intro hnone rejects
      exact handleSubmit_throws formData currentEmail now rejects (by rw [hform]; exact hnone)
    · intro rejects
      have hlook : roleLookupIn
          ((handleSubmit formData currentEmail now rejects).1.foldl applyUserCall db) email
            = roleLookupIn db email := by
        cases hk : docSegments (emailKey email) with
        | none =>
          rw [handleSubmit_throws formData currentEmail now rejects (by rw [hform]; exact hk)]
          rfl
        | some path =>
          rw [(handleSubmit_calls formData currentEmail now rejects path
            (by rw [hform]; exact hk)).1]
          exact roleLookupIn_set_other db path email _ (docSegments_emailKey_ne email h path hk)
      refine ⟨hlook, ?_⟩
      intro u hu
      unfold onAuthStateChanged
      simp only [hu, hlook]

/-- Witness for C27: the role `viewer` saved for `Jane.Doe@Example.org` in
an empty collection is stored under `jane,doe@example,org`, the lookup
under the raw email does not find it, and `AuthProvider` sets `admin`. -/
theorem role_key_mismatch_witness :
    (∃ c ∈ "Jane.Doe@Example.org".data, c = '.' ∨ isUpperAscii c) ∧
    emailKey "Jane.Doe@Example.org" = "jane,doe@example,org" ∧
    emailKey "Jane.Doe@Example.org" ≠ "Jane.Doe@Example.org" ∧
    (handleSubmit
        { email := "Jane.Doe@Example.org", role := JSVal.str "viewer",
          name := JSVal.str "Jane" }
        "admin@example.org" "2024-12-25T00:00:00.000Z" false).1
      = [UserCall.setAuthorizedUser ["jane,doe@example,org"]
          [("email", JSVal.str "jane.doe@example.org"), ("role", JSVal.str "viewer"),
           ("name", JSVal.str "Jane"), ("updatedAt", JSVal.str "2024-12-25T00:00:00.000Z"),
           ("updatedBy", JSVal.str "admin@example.org")]] ∧
    roleLookupIn
        ((handleSubmit
            { email := "Jane.Doe@Example.org", role := JSVal.str "viewer",
              name := JSVal.str "Jane" }
            "admin@example.org" "2024-12-25T00:00:00.000Z" false).1.foldl applyUserCall [])
        "jane,doe@example,org"
      = RoleLookup.found (JSVal.str "viewer") ∧
    roleLookupIn
        ((handleSubmit
            { email := "Jane.Doe@Example.org", role := JSVal.str "viewer",
              name := JSVal.str "Jane" }
            "admin@example.org" "2024-12-25T00:00:00.000Z" false).1.foldl applyUserCall [])
        "Jane.Doe@Example.org"
      = RoleLookup.missing ∧
    (handleSubmit
        { email := "a/B.c@example.org", role := JSVal.str "viewer", name := JSVal.str "" }
        "admin@example.org" "2024-12-25T00:00:00.000Z" false)
      = ([], ["Failed to save user. Please try again."]) ∧
    (onAuthStateChanged
      (roleLookupIn
        ((handleSubmit
            { email := "Jane.Doe@Example.org", role := JSVal.str "viewer",
              name := JSVal.str "Jane" }
            "admin@example.org" "2024-12-25T00:00:00.000Z" false).1.foldl applyUserCall []))
      (some (User.mk (some "Jane.Doe@Example.org") none))).userRole
      = some (JSVal.str "admin") :=
  ⟨by decide, by decide,
   (role_key_mismatch "Jane.Doe@Example.org" (by decide)).1,
   by decide, by decide, by decide, by decide, by decide⟩

/-- Claim C28. With edit permission, the batches of a bulk import of `K`
rows, concatenated in creation order, hold exactly one write per row, in
input row order (the `i`-th write is the record built from the `i`-th row
and targets the `i`-th document reference drawn); every batch except
possibly the last holds exactly 500 operations, and no batch is empty. -/
theorem batches_partition_rows (env : Env) (st : ViewState) (json : List Obj)
    (hedit : env.canEdit = true) :
    (committedBatches (handleFileUpload env st (Upload.sheet json)).2).flatten
      = importOps env st.lastSno 0 json ∧
    List.Forall₂ (fun row op => ∃ sno : Int, op.data = importRecord env row sno) json
      (committedBatches (handleFileUpload env st (Upload.sheet json)).2).flatten ∧
    (committedBatches (handleFileUpload env st (Upload.sheet json)).2).flatten.map WriteOp.ref
      = List.range json.length ∧
    (∀ b ∈ (committedBatches (handleFileUpload env st (Upload.sheet json)).2).dropLast,
      b.length = 500) ∧
    (∀ b ∈ committedBatches (handleFileUpload env st (Upload.sheet json)).2, b ≠ []) := by
  rw [handleFileUpload_batches env st json hedit, importBatches_flatten]
  obtain ⟨h1, h2⟩ := importOps_rows env json st.lastSno 0
  obtain ⟨h3, h4⟩ := importBatches_shape env st.lastSno json
  refine ⟨rfl, h1, ?_, h3, h4⟩
  rw [h2, List.range_eq_range']

/-- Witness for C28: three rows make one batch holding their three writes
in row order. -/
theorem batches_partition_rows_witness :
    sampleEnv.canEdit = true ∧
    (committedBatches (handleFileUpload sampleEnv emptyPartition
        (Upload.sheet threeRows)).2).flatten.map WriteOp.ref
      = List.range threeRows.length ∧
    (∀ b ∈ committedBatches (handleFileUpload sampleEnv emptyPartition
        (Upload.sheet threeRows)).2, b ≠ []) :=
  have h := batches_partition_rows sampleEnv emptyPartition threeRows rfl
  ⟨rfl, h.2.2.1, h.2.2.2.2⟩

/-- Counterexample to C29 as stated: the add form is opened at counter 2, so
the manual add computes `newSno = 3`; while it awaits its save a snapshot
with a record of `SNO = "5"` raises the local counter to 5; the manual add
then passes `max(3, 2) = 3` to `updateCounter`, which persists 3 and sets
the local counter from 5 to 3.  The same happens to a bulk import of one
row started at counter 2. -/
theorem stale_counter_lowers_local :
    (openAddModal sampleEnv { emptyPartition with lastSno := 2 }).1.lastSno = 2 ∧
    (applySnapshots (openAddModal sampleEnv { emptyPartition with lastSno := 2 }).1
        [[fifthRow]]).lastSno = 5 ∧
    counterWrites
        (confirmAddRowDuring sampleEnv
          (openAddModal sampleEnv { emptyPartition with lastSno := 2 }).1
          [[fifthRow]] []).2 = [3] ∧
    (confirmAddRowDuring sampleEnv
        (openAddModal sampleEnv { emptyPartition with lastSno := 2 }).1
        [[fifthRow]] []).1.lastSno = 3 ∧
    (applySnapshots { emptyPartition with lastSno := 2, saveStatus := "saving" }
        [[fifthRow]]).lastSno = 5 ∧
    counterWrites
        (handleFileUploadDuring sampleEnv { emptyPartition with lastSno := 2 }
          (Upload.sheet [[("Name", JSVal.str "Ruth")]]) [[fifthRow]] [] []).2 = [3] ∧
    (handleFileUploadDuring sampleEnv { emptyPartition with lastSno := 2 }
        (Upload.sheet [[("Name", JSVal.str "Ruth")]]) [[fifthRow]] [] []).1.lastSno = 3 := by
  decide

/-- Claim C29, amended. Every value that a bulk import and a manual add pass
to `updateCounter` is at least the local counter of the render they were
started from, whatever snapshots are handled while they are suspended (the
running counter of the import starts at that `lastSno` and only grows; the
manual add passes `max(newSno, lastSno)`); the calls they make do not
depend on those snapshots.  When the counter write resolves, the manual add
leaves the local counter at the value it passed, and so does the import
when no snapshot is handled after the write; that value is at least the
counter of the render, but it is not compared with the value a snapshot set
in between.  When no snapshot is handled while they are suspended, neither
leaves the local counter below the value it started from. -/
theorem counter_updates_from_render (env : Env) (st : ViewState) :
    (∀ (file : Upload) (duringCommit duringCounter duringAudit : List (List Row)),
      (handleFileUploadDuring env st file duringCommit duringCounter duringAudit).2
        = (handleFileUpload env st file).2 ∧
      ∀ n ∈ counterWrites
          (handleFileUploadDuring env st file duringCommit duringCounter duringAudit).2,
        st.lastSno ≤ n) ∧
    (∀ json : List Obj, st.lastSno ≤ (importLoop env st.lastSno json).maxSno) ∧
    (∀ (json : List Obj) (duringCommit duringCounter : List (List Row)),
      env.canEdit = true → json ≠ [] →
      firstRejection env ((importBatches env st.lastSno json).map
        (RemoteCall.commitBatch (getCollectionPath st))) = none →
      env.rejects (RemoteCall.setCounter (getMetaPath st)
        (importLoop env st.lastSno json).maxSno) = none →
      counterWrites
          (handleFileUploadDuring env st (Upload.sheet json) duringCommit duringCounter []).2
        = [(importLoop env st.lastSno json).maxSno] ∧
      (handleFileUploadDuring env st (Upload.sheet json)
          duringCommit duringCounter []).1.lastSno
        = (importLoop env st.lastSno json).maxSno) ∧
    (∀ duringSave duringCounter : List (List Row),
      (confirmAddRowDuring env st duringSave duringCounter).2 = (confirmAddRow env st).2 ∧
      counterWrites (confirmAddRowDuring env st duringSave duringCounter).2
        = [max (parseIntOr (getProp st.newRowData "SNO") (st.lastSno + 1)) st.lastSno] ∧
      (∀ n ∈ counterWrites (confirmAddRowDuring env st duringSave duringCounter).2,
        st.lastSno ≤ n) ∧
      (env.rejects (RemoteCall.setCounter (getMetaPath st)
          (max (parseIntOr (getProp st.newRowData "SNO") (st.lastSno + 1)) st.lastSno)) = none →
        (confirmAddRowDuring env st duringSave duringCounter).1.lastSno
          = max (parseIntOr (getProp st.newRowData "SNO") (st.lastSno + 1)) st.lastSno)) ∧
    (∀ file : Upload,
      handleFileUploadDuring env st file [] [] [] = handleFileUpload env st file ∧
      st.lastSno ≤ (handleFileUpload env st file).1.lastSno) ∧
    confirmAddRowDuring env st [] [] = confirmAddRow env st ∧
    st.lastSno ≤ (confirmAddRow env st).1.lastSno := by
  obtain ⟨a1, a2⟩ := confirmAddRow_counter env st
  refine ⟨?_, ?_, ?_, ?_, ?_, confirmAddRowDuring_none env st, a2⟩
  · intro file dc dk da
    refine ⟨handleFileUploadDuring_trace env st file dc dk da, ?_⟩
    rw [handleFileUploadDuring_trace]
    exact (handleFileUpload_counter env st file).1
  · intro json
    rw [importLoop_maxSno]
    exact runningCounter_ge json st.lastSno
  · intro json dc dk hedit hne hok hcnt
    have hlen : ¬ json.length = 0 := fun h => hne (List.length_eq_zero.1 h)
    have e : handleFileUploadDuring env st (Upload.sheet json) dc dk []
        = ({ (updateCounterOn env st
                (applySnapshots { st with saveStatus := "saving" } dc)
                (importLoop env st.lastSno json).maxSno dk).1 with saveStatus := "saved" },
           (importBatches env st.lastSno json).map
               (RemoteCall.commitBatch (getCollectionPath st)) ++
             (updateCounterOn env st
                (applySnapshots { st with saveStatus := "saving" } dc)
                (importLoop env st.lastSno json).maxSno dk).2 ++
             logAudit env st "bulk_upload" [("count", JSVal.num (json.length : Nat))]) := by
      unfold handleFileUploadDuring
      simp only [hedit, Bool.not_true, Bool.false_eq_true, if_false, hlen, hok]
      rfl
    rw [e]
    constructor
    · simp only [counterWrites_append, counterWrites_commits, updateCounterOn_trace,
        List.nil_append]
      rfl
    · show (updateCounterOn env st _ _ dk).1.lastSno = _
      rw [updateCounterOn_resolved env st _ _ dk hcnt]
  · intro ds dk
    have ht := confirmAddRowDuring_trace env st ds dk
    refine ⟨ht, by rw [ht]; exact a1, ?_, ?_⟩
    · intro n hn
      rw [ht, a1, List.mem_singleton] at hn
      rw [hn]
      exact le_max_right _ _
    · intro hcnt
      show (updateCounterOn env st _ _ dk).1.lastSno = _
      rw [updateCounterOn_resolved env st _ _ dk hcnt]
  · intro file
    exact ⟨handleFileUploadDuring_none env st file, (handleFileUpload_counter env st file).2⟩

/-- Witness for C29, amended: the manual add after the pre-filled form at
counter 3 passes 4 to the counter, which is not below 3, also when a
snapshot is handled while it awaits its save. -/
theorem counter_updates_from_render_witness :
    (4 : Int) ∈ counterWrites
      (confirmAddRowDuring sampleEnv
        (openAddModal sampleEnv { emptyPartition with lastSno := 3 }).1 [[fifthRow]] []).2 ∧
    (openAddModal sampleEnv { emptyPartition with lastSno := 3 }).1.lastSno ≤ 4 :=
  ⟨by decide,
   ((counter_updates_from_render sampleEnv
      (openAddModal sampleEnv { emptyPartition with lastSno := 3 }).1).2.2.2.1
        [[fifthRow]] []).2.2.1 4 (by decide)⟩

/-- Counterexample to C30 as stated: the entry whose id is the raw email
`Raw.Key@Example.org` is opened and saved; the write goes to the document
`raw,key@example,org`, not to the entry's own document, which keeps its
data, so the collection then holds two documents. -/
theorem edit_raw_key_writes_other_document :
    (handleSubmit
        (handleEditUser
          (UserRecord.mk (UserEntry.mk "Raw.Key@Example.org" "raw.key@example.org")
            (JSVal.str "viewer") (JSVal.str "Raw")))
        "admin@example.org" "2024-12-25T00:00:00.000Z" false).1
      = [UserCall.setAuthorizedUser ["raw,key@example,org"]
          [("email", JSVal.str "raw.key@example.org"), ("role", JSVal.str "viewer"),
           ("name", JSVal.str "Raw"), ("updatedAt", JSVal.str "2024-12-25T00:00:00.000Z"),
           ("updatedBy", JSVal.str "admin@example.org")]] ∧
    docSegments "Raw.Key@Example.org" = some ["Raw.Key@Example.org"] ∧
    ["raw,key@example,org"] ≠ ["Raw.Key@Example.org"] ∧
    ((handleSubmit
        (handleEditUser
          (UserRecord.mk (UserEntry.mk "Raw.Key@Example.org" "raw.key@example.org")
            (JSVal.str "viewer") (JSVal.str "Raw")))
        "admin@example.org" "2024-12-25T00:00:00.000Z" false).1.foldl applyUserCall
        [(["Raw.Key@Example.org"],
          [("email", JSVal.str "raw.key@example.org"), ("role", JSVal.str "viewer"),
           ("name", JSVal.str "Raw")])]).map Prod.fst
      = [["raw,key@example,org"], ["Raw.Key@Example.org"]] := by
  decide

/-- Claim C30, amended. For every authorized-user entry with id `k`,
opening it with `handleEditUser` and saving with `handleSubmit` writes the
email field `k` lowercased, to the document that `emailKey k` names; for a
document id `k` (not empty, without `/`) that is exactly one write to the
document `emailKey k` of the collection.  When `k` holds no dot and no
upper-case letter, as every key that `handleSubmit` stored does,
`emailKey k` is `k` itself, so the write goes back to the same document and
the email written is `k`, the comma-substituted key, not the original email
when that held a dot; when `k` holds a dot or an upper-case letter the
write goes to another document than the one `k` names. -/
theorem edit_user_writes_normalized_key (user : UserRecord) (currentEmail now : String) :
    getProp (submittedUser (handleEditUser user) currentEmail now) "email"
      = JSVal.str (toLowerCase user.id) ∧
    (∀ path : List String, docSegments (emailKey user.id) = some path →
      ∀ rejects : Bool,
        (handleSubmit (handleEditUser user) currentEmail now rejects).1
          = [UserCall.setAuthorizedUser path
              (submittedUser (handleEditUser user) currentEmail now)]) ∧
    (docSegments (emailKey user.id) = none →
      ∀ rejects : Bool,
        handleSubmit (handleEditUser user) currentEmail now rejects
          = ([], ["Failed to save user. Please try again."])) ∧
    (user.id ≠ "" → '/' ∉ user.id.data →
      docSegments user.id = some [user.id] ∧
      docSegments (emailKey user.id) = some [emailKey user.id] ∧
      ∀ rejects : Bool,
        (handleSubmit (handleEditUser user) currentEmail now rejects).1
          = [UserCall.setAuthorizedUser [emailKey user.id]
              (submittedUser (handleEditUser user) currentEmail now)]) ∧
    ((∀ c ∈ user.id.data, c ≠ '.' ∧ ¬ isUpperAscii c) →
      emailKey user.id = user.id ∧ toLowerCase user.id = user.id) ∧
    (∀ original : String, user.id = emailKey original →
      emailKey user.id = user.id ∧ toLowerCase user.id = user.id ∧
      ((∃ c ∈ original.data, c = '.') →
        getProp (submittedUser (handleEditUser user) currentEmail now) "email"
          ≠ JSVal.str (toLowerCase original))) ∧
    ((∃ c ∈ user.id.data, c = '.' ∨ isUpperAscii c) →
      emailKey user.id ≠ user.id ∧
      ∀ path : List String, docSegments (emailKey user.id) = some path →
        docSegments user.id ≠ some path) := by
  have hform : (handleEditUser user).email = user.id := rfl
  have hmail : getProp (submittedUser (handleEditUser user) currentEmail now) "email"
      = JSVal.str (toLowerCase user.id) := rfl
  have hcalls : ∀ path : List String, docSegments (emailKey user.id) = some path →
      ∀ rejects : Bool,
        (handleSubmit (handleEditUser user) currentEmail now rejects).1
          = [UserCall.setAuthorizedUser path
              (submittedUser (handleEditUser user) currentEmail now)] :=
    fun path hp rejects =>
      (handleSubmit_calls (handleEditUser user) currentEmail now rejects path
        (by rw [hform]; exact hp)).1
  refine ⟨hmail, hcalls, ?_, ?_, emailKey_fixed user.id, ?_, ?_⟩
  · intro hnone rejects
    exact handleSubmit_throws (handleEditUser user) currentEmail now rejects
      (by rw [hform]; exact hnone)
  · intro hne hslash
    have hseg : docSegments (emailKey user.id) = some [emailKey user.id] :=
      docSegments_of_no_slash _ (emailKey_no_slash _ hslash) (emailKey_ne_empty _ hne)
    exact ⟨docSegments_of_no_slash _ hslash hne, hseg, hcalls _ hseg⟩
  · intro original hk
    obtain ⟨i1, i2⟩ := emailKey_idempotent original
    rw [← hk] at i1 i2
    refine ⟨i1, i2, ?_⟩
    rintro ⟨c, hc, hdot⟩ heq
    rw [hmail, i2] at heq
    injection heq with heq
    have hmem : Char.toLower c ∈ (toLowerCase original).data :=
      List.mem_map.2 ⟨c, hc, rfl⟩
    rw [← heq, hk] at hmem
    have := (emailKey_chars original (Char.toLower c) hmem).1
    rw [hdot] at this
    exact this (by decide)
  · intro hs
    exact ⟨emailKey_ne_of_special user.id hs,
      fun path hp => docSegments_emailKey_ne user.id hs path hp⟩

/-- Witness for C30, amended: the entry stored for `jane.doe@example.org`
is saved back to `jane,doe@example,org`, with that key as its email. -/
theorem edit_user_writes_normalized_key_witness :
    ((UserRecord.mk (UserEntry.mk "jane,doe@example,org" "jane.doe@example.org")
        (JSVal.str "viewer") (JSVal.str "Jane")).id ≠ "" ∧
      '/' ∉ (UserRecord.mk (UserEntry.mk "jane,doe@example,org" "jane.doe@example.org")
        (JSVal.str "viewer") (JSVal.str "Jane")).id.data ∧
      (UserRecord.mk (UserEntry.mk "jane,doe@example,org" "jane.doe@example.org")
        (JSVal.str "viewer") (JSVal.str "Jane")).id = emailKey "jane.doe@example.org" ∧
      (∃ c ∈ "jane.doe@example.org".data, c = '.')) ∧
    (handleSubmit
        (handleEditUser
          (UserRecord.mk (UserEntry.mk "jane,doe@example,org" "jane.doe@example.org")
            (JSVal.str "viewer") (JSVal.str "Jane")))
        "admin@example.org" "2024-12-25T00:00:00.000Z" false).1
      = [UserCall.setAuthorizedUser
          [emailKey (UserRecord.mk (UserEntry.mk "jane,doe@example,org" "jane.doe@example.org")
            (JSVal.str "viewer") (JSVal.str "Jane")).id]
          (submittedUser
            (handleEditUser
              (UserRecord.mk (UserEntry.mk "jane,doe@example,org" "jane.doe@example.org")
                (JSVal.str "viewer") (JSVal.str "Jane")))
            "admin@example.org" "2024-12-25T00:00:00.000Z")] ∧
    emailKey "jane,doe@example,org" = "jane,doe@example,org" ∧
    getProp (submittedUser
        (handleEditUser
          (UserRecord.mk (UserEntry.mk "jane,doe@example,org" "jane.doe@example.org")
            (JSVal.str "viewer") (JSVal.str "Jane")))
        "admin@example.org" "2024-12-25T00:00:00.000Z") "email"
      = JSVal.str "jane,doe@example,org" ∧
    getProp (submittedUser
        (handleEditUser
          (UserRecord.mk (UserEntry.mk "jane,doe@example,org" "jane.doe@example.org")
            (JSVal.str "viewer") (JSVal.str "Jane")))
        "admin@example.org" "2024-12-25T00:00:00.000Z") "email"
      ≠ JSVal.str (toLowerCase "jane.doe@example.org") :=
  ⟨⟨by decide, by decide, by decide, by decide⟩,
   ((edit_user_writes_normalized_key
      (UserRecord.mk (UserEntry.mk "jane,doe@example,org" "jane.doe@example.org")
        (JSVal.str "viewer") (JSVal.str "Jane"))
      "admin@example.org" "2024-12-25T00:00:00.000Z").2.2.2.1
        (by decide) (by decide)).2.2 false,
   by decide, by decide,
   ((edit_user_writes_normalized_key
      (UserRecord.mk (UserEntry.mk "jane,doe@example,org" "jane.doe@example.org")
        (JSVal.str "viewer") (JSVal.str "Jane"))
      "admin@example.org" "2024-12-25T00:00:00.000Z").2.2.2.2.2.1
        "jane.doe@example.org" (by decide)).2.2 (by decide)⟩

end Manna
